import Mathlib

/-!
bosfs: page-range index, cache entities, the entity registry and file attributes.

A shallow embedding of `src/src/data_cache.{h,cpp}`: the page list
(`ObjectPageList`), its text format in the stat-cache file, the cache entity
(`DataCacheEntity`) with its local file, and the registry (`DataCache`); of the
attribute cache of `src/src/file_manager.{h,cpp}` (`File::stat`, `File::hit`, `try_get`,
`get`, `gc`); and of the parts of `src/src/bosfs_util.cpp` and `src/src/bosfs_impl.cpp`
that check access, rename objects and directories, change the mode and keep extended
attributes.  System calls and SDK calls
are answered by an environment (`Env`, `Facade`, `BosClient`); calls that leave the
process are recorded in a trace (`World`).

Integer model.  `off_t` and `size_t` values are modelled by unbounded naturals: every
offset handed to the page list is non-negative, and sizes are assumed to stay below
`2^63`, so that no cast between `off_t` and `size_t` changes a value.  The one
expression of the source whose intermediate result is negative (in `parse`) is
evaluated over `Int`.  The numbers read from a stat-cache file are cast as the source
casts them (`toSizeT`).
-/

namespace Bosfs

/-! ## ObjectPage (data_cache.h) -/

/-- One run of the page list: `_offset`, `_bytes`, `_loaded`. -/
structure ObjectPage where
  offset : Nat
  bytes : Nat
  loaded : Bool
deriving DecidableEq, Repr

namespace ObjectPage

/-- `ObjectPage::next`: `_offset + _bytes`. -/
def next (p : ObjectPage) : Nat := p.offset + p.bytes

/-- `ObjectPage::end`: `0 < _bytes ? _offset + _bytes - 1 : 0`. -/
def end_ (p : ObjectPage) : Nat := if 0 < p.bytes then p.offset + p.bytes - 1 else 0

/-- `ObjectPage::set_bytes`. -/
def set_bytes (p : ObjectPage) (s : Nat) : ObjectPage := { p with bytes := s }

/-- `ObjectPage::set_loaded`. -/
def set_loaded (p : ObjectPage) (s : Bool) : ObjectPage := { p with loaded := s }

end ObjectPage

/-! ## ObjectPageList (data_cache.cpp) -/

/-- The member `_pages` of `ObjectPageList`: a `std::list` of pages. -/
abbrev PageList := List ObjectPage

namespace ObjectPageList

/-- `ObjectPageList::init`: `clear()` and push one page `(0, size, loaded)`. -/
def init (size : Nat) (loaded : Bool) : PageList := [⟨0, size, loaded⟩]

/-- `ObjectPageList::ObjectPageList(size, loaded)`: the constructor calls `init`. -/
def construct (size : Nat) (loaded : Bool) : PageList := init size loaded

/-- `ObjectPageList::get_size`: `0` on an empty list, else `next()` of the last page. -/
def get_size (l : PageList) : Nat :=
  match l.getLast? with
  | none => 0
  | some p => p.next

/-- Loop of `ObjectPageList::compress` after the first page: `prev` is the page before
the iterator (`bite`); an equal flag merges the page into `prev` and erases it. -/
def compressAux (prev : ObjectPage) : List ObjectPage → List ObjectPage
  | [] => [prev]
  | p :: ps =>
    if prev.loaded = p.loaded then compressAux (prev.set_bytes (prev.bytes + p.bytes)) ps
    else prev :: compressAux p ps

/-- `ObjectPageList::compress`. -/
def compress : PageList → PageList
  | [] => []
  | p :: ps => compressAux p ps

/-- The shrinking loop of `ObjectPageList::resize` (`size < total`).  A page that
spans `size` gets `set_bytes(size - offset)`; the source then revisits it without
advancing, finds `next() <= size` and moves on, so it is kept here at once. -/
def resizeShrink (size : Nat) : List ObjectPage → List ObjectPage
  | [] => []
  | p :: ps =>
    if p.next ≤ size then p :: resizeShrink size ps
    else if size ≤ p.offset then resizeShrink size ps
    else p.set_bytes (size - p.offset) :: resizeShrink size ps

/-- `ObjectPageList::resize`. -/
def resize (l : PageList) (size : Nat) (loaded : Bool) : PageList :=
  let total := get_size l
  compress
    (if total = 0 then init size loaded
     else if total < size then l ++ [⟨total, size - total, loaded⟩]
     else if size < total then resizeShrink size l
     else l)

/-- `ObjectPageList::parse`: split the page that strictly contains `new_pos`.  The
source's `bool` result is not used by any caller and is dropped. -/
def parse (new_pos : Nat) : List ObjectPage → List ObjectPage
  | [] => []
  | p :: ps =>
    if new_pos = p.offset then p :: ps
    else if p.offset < new_pos ∧ new_pos < p.next then
      ⟨p.offset, new_pos - p.offset, p.loaded⟩ ::
        ⟨new_pos, ((p.bytes : Int) - (new_pos : Int) + (p.offset : Int)).toNat, p.loaded⟩ :: ps
    else p :: parse new_pos ps

/-- The marking loop in the last branch of `set_page_loaded_status`. -/
def markLoop (start size : Nat) (loaded : Bool) : List ObjectPage → List ObjectPage
  | [] => []
  | p :: ps =>
    if p.end_ < start then p :: markLoop start size loaded ps
    else if start + size ≤ p.offset then p :: ps
    else p.set_loaded loaded :: markLoop start size loaded ps

/-- `ObjectPageList::set_page_loaded_status(start, size, loaded, need_cmp)`. -/
def set_page_loaded_status (l : PageList) (start size : Nat) (loaded need_cmp : Bool) :
    PageList :=
  let now_size := get_size l
  let l1 :=
    if now_size ≤ start then
      resize (if now_size < start then resize l start false else l) (start + size) loaded
    else if now_size ≤ start + size then
      resize (resize l start false) (start + size) loaded
    else
      markLoop start size loaded (parse (start + size) (parse start l))
  if need_cmp then compress l1 else l1

/-- Loop of `get_total_unloaded_page_size`; `ret_size` is the running sum and `next`
is `start + size`. -/
def totalUnloadedLoop (start next : Nat) : List ObjectPage → Nat → Nat
  | [], ret_size => ret_size
  | p :: ps, ret_size =>
    if p.next ≤ start then totalUnloadedLoop start next ps ret_size
    else if next ≤ p.offset then ret_size
    else if p.loaded then totalUnloadedLoop start next ps ret_size
    else
      let tmp_size :=
        if p.offset ≤ start then
          (if p.next ≤ next then p.next - start else next - start)
        else
          (if p.next ≤ next then p.next - p.offset else next - p.offset)
      totalUnloadedLoop start next ps (ret_size + tmp_size)

/-- `ObjectPageList::get_total_unloaded_page_size(start, size)`. -/
def get_total_unloaded_page_size (l : PageList) (start size : Nat) : Nat :=
  totalUnloadedLoop start (start + size) l 0

/-- One step of the output side of `get_unloaded_pages`: extend the last output range
when it ends at `page_start`, else push a new unloaded range. -/
def pushUnloaded (unloaded_list : List ObjectPage) (page_start page_size : Nat) :
    List ObjectPage :=
  match unloaded_list.getLast? with
  | some r =>
    if r.next = page_start then
      unloaded_list.dropLast ++ [r.set_bytes (r.bytes + page_size)]
    else unloaded_list ++ [⟨page_start, page_size, false⟩]
  | none => unloaded_list ++ [⟨page_start, page_size, false⟩]

/-- Loop of `get_unloaded_pages`; `next` is `start + size`. -/
def unloadedLoop (start next : Nat) : List ObjectPage → List ObjectPage → List ObjectPage
  | [], unloaded_list => unloaded_list
  | p :: ps, unloaded_list =>
    if p.next ≤ start then unloadedLoop start next ps unloaded_list
    else if next ≤ p.offset then unloaded_list
    else if p.loaded then unloadedLoop start next ps unloaded_list
    else
      let page_start := max p.offset start
      let page_next := min p.next next
      unloadedLoop start next ps (pushUnloaded unloaded_list page_start (page_next - page_start))

/-- `ObjectPageList::get_unloaded_pages(unloaded_list, start, size)`: the list handed in
by reference is returned; the `int` result of the source is its length. -/
def get_unloaded_pages (l : PageList) (unloaded_list : List ObjectPage) (start size : Nat) :
    List ObjectPage :=
  let size1 :=
    if size = 0 then (if start < get_size l then get_size l - start else size) else size
  unloadedLoop start (start + size1) l unloaded_list

/-! ### Well-formedness of a page list -/

/-- The ranges are contiguous: the first starts at `o`, every other one starts where
its predecessor ends. -/
def Contig : Nat → List ObjectPage → Prop
  | _, [] => True
  | o, p :: ps => p.offset = o ∧ Contig p.next ps

instance Contig.decide : (o : Nat) → (l : List ObjectPage) → Decidable (Contig o l)
  | _, [] => isTrue trivial
  | o, p :: ps =>
    match Nat.decEq p.offset o, Contig.decide p.next ps with
    | isTrue h1, isTrue h2 => isTrue ⟨h1, h2⟩
    | isFalse h1, _ => isFalse (fun h => h1 h.1)
    | _, isFalse h2 => isFalse (fun h => h2 h.2)

/-- No two adjacent ranges carry the same `loaded` flag. -/
def Alternating : List ObjectPage → Prop
  | [] => True
  | [_] => True
  | a :: b :: l => a.loaded ≠ b.loaded ∧ Alternating (b :: l)

instance Alternating.decide : (l : List ObjectPage) → Decidable (Alternating l)
  | [] => isTrue trivial
  | [_] => isTrue trivial
  | a :: b :: l =>
    match decEq a.loaded b.loaded, Alternating.decide (b :: l) with
    | isFalse h1, isTrue h2 => isTrue ⟨h1, h2⟩
    | isTrue h1, _ => isFalse (fun h => h.1 h1)
    | _, isFalse h2 => isFalse (fun h => h2 h.2)

/-- Sum of the range lengths. -/
def sumBytes (l : List ObjectPage) : Nat := (l.map ObjectPage.bytes).sum

/-- Every range has a positive length. -/
def Pos (l : List ObjectPage) : Prop := ∀ p ∈ l, 0 < p.bytes

instance Pos.decide (l : List ObjectPage) : Decidable (Pos l) :=
  inferInstanceAs (Decidable (∀ p ∈ l, 0 < p.bytes))

/-- The state invariant of a page list: contiguous from offset `0`, coalesced, and
without empty ranges except for the one-range list of an empty object. -/
def WellFormed (l : PageList) : Prop :=
  Contig 0 l ∧ Alternating l ∧ (Pos l ∨ l.length = 1)

instance WellFormed.decide (l : PageList) : Decidable (WellFormed l) :=
  inferInstanceAs (Decidable (Contig 0 l ∧ Alternating l ∧ (Pos l ∨ l.length = 1)))

/-- The loaded state the list records for byte position `pos`: the flag of the first
range `[offset, next)` that holds `pos`, `none` when no range does. -/
def loadedAt : List ObjectPage → Nat → Option Bool
  | [], _ => none
  | p :: ps, pos =>
    if p.offset ≤ pos ∧ pos < p.next then some p.loaded else loadedAt ps pos

/-- No range of the list straddles position `n`. -/
def Boundary (n : Nat) (l : List ObjectPage) : Prop :=
  ∀ p ∈ l, p.next ≤ n ∨ n ≤ p.offset

/-- Page lists reached from construction by `init`, `resize` and
`set_page_loaded_status` (compression on). -/
inductive Reachable : PageList → Prop
  | construct (size : Nat) (loaded : Bool) : Reachable (construct size loaded)
  | init (l : PageList) (size : Nat) (loaded : Bool) :
      Reachable l → Reachable (init size loaded)
  | resize (l : PageList) (size : Nat) (loaded : Bool) :
      Reachable l → Reachable (resize l size loaded)
  | set_page_loaded_status (l : PageList) (start size : Nat) (loaded : Bool) :
      Reachable l → Reachable (set_page_loaded_status l start size loaded true)

end ObjectPageList

/-! ## The stat-cache text format (`ObjectPageList::serialize`) -/

/-- Decimal digit `d < 10` as a character. -/
def digitChar (d : Nat) : Char := Char.ofNat (48 + d)

/-- Decimal digits of `n`, most significant first; `fuel` bounds the number of
digits. -/
def decimalFuel : Nat → Nat → List Char
  | 0, n => [digitChar n]
  | fuel + 1, n =>
    if n < 10 then [digitChar n] else decimalFuel fuel (n / 10) ++ [digitChar (n % 10)]

/-- What `operator<<` prints for a non-negative integer: its decimal digits. -/
def decimal (n : Nat) : List Char := decimalFuel n n

/-- Digit accumulation of `strtoll` in base 10: stops at the first non-digit. -/
def parseDigits : Nat → List Char → Nat
  | acc, [] => acc
  | acc, c :: cs => if c.isDigit then parseDigits (acc * 10 + (c.toNat - 48)) cs else acc

/-- `LLONG_MAX`. -/
def LLONG_MAX : Nat := 2 ^ 63 - 1

/-- `strtoll(s, NULL, 10)` from the C library: leading white space is skipped, an
optional sign is read, then decimal digits; the value is clamped to the range of
`long long`. -/
def strtoll (s : List Char) : Int :=
  match s.dropWhile Char.isWhitespace with
  | '-' :: r => - (min (parseDigits 0 r) (LLONG_MAX + 1) : Nat)
  | '+' :: r => (min (parseDigits 0 r) LLONG_MAX : Nat)
  | r => (min (parseDigits 0 r) LLONG_MAX : Nat)

/-- `std::getline(stream, line, delim)` on the unread rest of a stream: fails at end of
input, else yields the characters before the first `delim` and consumes the `delim`. -/
def getline (s : List Char) (delim : Char) : Option (List Char × List Char) :=
  match s with
  | [] => none
  | _ => some (s.takeWhile (fun c => c != delim), (s.dropWhile (fun c => c != delim)).drop 1)

/-- The line of one page without its leading newline: `offset:bytes:flag`. -/
def lineText (p : ObjectPage) : List Char :=
  decimal p.offset ++ ':' :: (decimal p.bytes ++ [':', if p.loaded then '1' else '0'])

/-- The text written for one page: `"\n" << offset << ":" << bytes << ":" << ("1"|"0")`. -/
def pageText (p : ObjectPage) : List Char := '\n' :: lineText p

/-- The string `ssall.str()` built in write mode. -/
def serializeText (l : PageList) : List Char :=
  decimal (ObjectPageList.get_size l) ++ (l.map pageText).flatten

/-- The cast of an `off_t` (`long long`) value to `size_t`: the value modulo `2^64`. -/
def toSizeT (x : Int) : Nat := (x % 18446744073709551616).toNat

/-- The call read mode makes for a line that holds the fields of page `p`:
`set_page_loaded_status(offset, size, is_loaded)`. -/
def readStep (l : PageList) (p : ObjectPage) : PageList :=
  ObjectPageList.set_page_loaded_status l p.offset p.bytes p.loaded true

/-- The `while (std::getline(ssall, oneline))` loop of read mode.  `fuel` bounds the
number of lines, every line consuming at least one character.  The result is
`(is_err, pages)`.  The offset and the size read by `strtoll` reach
`set_page_loaded_status` through casts to `size_t`, so a negative field wraps; the sum
of the two is not wrapped (see the integer model above). -/
def readLines : Nat → List Char → PageList → Bool × PageList
  | 0, _, l => (false, l)
  | fuel + 1, text, l =>
    match getline text '\n' with
    | none => (false, l)
    | some (oneline, rest) =>
      match getline oneline ':' with
      | none => (true, l)
      | some (part1, r1) =>
        match getline r1 ':' with
        | none => (true, l)
        | some (part2, r2) =>
          match getline r2 ':' with
          | none => (true, l)
          | some (part3, _) =>
            readLines fuel rest
              (ObjectPageList.set_page_loaded_status l (toSizeT (strtoll part1))
                (toSizeT (strtoll part2)) (strtoll part3 != 0) true)

/-- The stat-cache file as `serialize` sees it: whether `StatCacheFile::open_file`,
`fstat`, `pread` and `pwrite` succeed, the bytes of the file, and `heap`: the bytes
that read mode finds in memory after the `st_size` bytes it read into its buffer
`new char[st_size + 1]`.  The first of them is the last char of the buffer, which is
neither initialised nor written; the others lie behind the buffer.  `heap = []` stands
for a buffer that happens to end with a NUL. -/
structure StatCacheFile where
  open_ok : Bool
  fstat_ok : Bool
  pread_ok : Bool
  pwrite_ok : Bool
  heap : List Char
  content : List Char

/-- The `std::string` made from a `char *`: the characters before the first NUL. -/
def cstring (buf : List Char) : List Char := buf.takeWhile (fun c => c != Char.ofNat 0)

/-- `pwrite(fd, buf, len, 0)` on the stat-cache file: overwrites the first `len` bytes
in place and keeps whatever lay beyond them. -/
def StatCacheFile.pwrite0 (f : StatCacheFile) (text : List Char) : StatCacheFile :=
  { f with content := text ++ f.content.drop text.length }

/-- `ObjectPageList::serialize(file, is_output)`: the result, the page list afterwards
and the stat-cache file afterwards.  In read mode `std::stringstream ssall(ptmp)` takes
the text from the start of the buffer to the first NUL: the bytes of the file and,
since no terminator is written, what follows them in memory. -/
def serialize (l : PageList) (file : StatCacheFile) (is_output : Bool) :
    Bool × PageList × StatCacheFile :=
  if !file.open_ok then (false, l, file)
  else if is_output then
    if !file.pwrite_ok then (false, l, file)
    else (true, l, file.pwrite0 (serializeText l))
  else
    if !file.fstat_ok then (false, l, file)
    else if file.content.length = 0 then (true, ObjectPageList.init 0 false, file)
    else if !file.pread_ok then (false, l, file)
    else
      match getline (cstring (file.content ++ file.heap)) '\n' with
      | none => (false, [], file)
      | some (oneline, rest) =>
        let total := toSizeT (strtoll oneline)
        match readLines (rest.length + 1) rest [] with
        | (true, _) => (false, [], file)
        | (false, l1) =>
          if total ≠ ObjectPageList.get_size l1 then (false, [], file)
          else (true, l1, file)

/-! ## Local files, the remote store and the attribute cache -/

/-- One byte of file content. -/
abbrev Byte := UInt8

/-- `errno` values used by the cache. -/
def EIO : Int := 5
def EBADF : Int := 9
def ENOSPC : Int := 28

/-- `pwrite(fd, bytes, len, start)` writing all of `bytes`: a hole before `start` reads
as zeros. -/
def pwrite_file (file bytes : List Byte) (start : Nat) : List Byte :=
  (file ++ List.replicate (start - file.length) 0).take start ++ bytes ++
    file.drop (start + bytes.length)

/-- `pread(fd, buf, size, start)`: the bytes of `[start, start + size)` that exist. -/
def pread_file (file : List Byte) (size start : Nat) : List Byte :=
  (file.drop start).take size

/-- `ftruncate(fd, size)`: cut, or extend with zeros. -/
def ftruncate_file (file : List Byte) (size : Nat) : List Byte :=
  file.take size ++ List.replicate (size - file.length) 0

/-- `ObjectMetaData` of the SDK, as far as the file system reads and writes it. -/
structure ObjectMetaData where
  content_type : String
  content_length : Nat
  last_modified : Int
  storage_class : String
  user_meta : List (String × String)
deriving DecidableEq, Repr

/-- `ObjectMetaData::clear`: the empty metadata. -/
def ObjectMetaData.clear : ObjectMetaData :=
  { content_type := "", content_length := 0, last_modified := 0, storage_class := "",
    user_meta := [] }

/-- `ObjectMetaData::set_user_meta(key, value)` with a string value: insert or
replace. -/
def ObjectMetaData.set_user_meta (m : ObjectMetaData) (key value : String) : ObjectMetaData :=
  { m with user_meta := m.user_meta.filter (fun kv => kv.1 != key) ++ [(key, value)] }

/-- `File` (file_manager.h): one entry of the attribute cache. -/
structure File where
  name : String
  is_dir_obj : Bool
  is_prefix : Bool
  meta : ObjectMetaData
  load_time_s : Int
  hit_time_s : Int
  hit_bit : Nat
deriving DecidableEq, Repr

/-- `FileTable`: the `std::map` from path to entry, as an association list. -/
abbrev FileTable := List (String × File)

/-- `FileManager::del`: `_table.erase(name)`. -/
def FileManager.del (table : FileTable) (name : String) : FileTable :=
  table.filter (fun kv => kv.1 != name)

/-- Calls that leave the process: range downloads, uploads, copies and deletions of the
SDK client, and the text saved to a stat-cache file. -/
inductive Event where
  | parallel_download (path : String) (offset size : Nat)
  | upload_file (object_name : String) (body : List Byte)
  | upload_super_file (object_name : String) (body : List Byte)
  | stat_cache_write (path : String) (text : List Char)
  | copy_object (src dst : String)
  | parallel_copy (src dst : String)
  | delete_object (object : String)
deriving DecidableEq, Repr

/-- What the entities share: the calls made so far and the attribute cache
(`FileManager::_table`). -/
structure World where
  trace : List Event
  table : FileTable
deriving DecidableEq, Repr

/-- Everything outside the process that one call reads: mount options, the disk
reservation of `DataCache`, and the answers of the operating system and of the SDK
client.  An answer depends on the arguments of the call only. -/
structure Env where
  /-- `BosfsOptions::multipart_size`. -/
  multipart_size : Nat
  /-- `BosfsOptions::multipart_parallel`. -/
  multipart_parallel : Nat
  /-- `BosfsOptions::multipart_threshold`. -/
  multipart_threshold : Int
  /-- `DataCache::get_ensure_free_disk_space()`. -/
  free_disk_space : Nat
  /-- `statvfs(tmp_dir)`: `none` on failure, else `f_bavail * f_bsize`. -/
  statvfs_tmp : Option Nat
  /-- `statvfs(cache_dir)`. -/
  statvfs_cache : Option Nat
  /-- `parallel_download(bucket, path, fd, offset, size)`: the status and, for status
  `0`, the bytes it wrote into the file at `offset`. -/
  parallel_download : Nat → Nat → Int × List Byte
  /-- `fill_file(fd, 0, size, start)`: `none` on success, else the `errno` of `pwrite`. -/
  fill_file_errno : Nat → Nat → Option Int
  /-- `ftruncate(fd, size)` succeeds. -/
  ftruncate_ok : Nat → Bool
  /-- `pwrite(fd, bytes, size, start)` of `DataCacheEntity::write`: `errno`, or the
  number of bytes written. -/
  pwrite : Nat → Nat → Except Int Nat
  /-- `pread(fd, bytes, size, start)`: `none` on success, else `errno`. -/
  pread_errno : Nat → Nat → Option Int
  /-- `lseek(fd, 0, SEEK_SET)`: `none` on success, else `errno`. -/
  lseek_errno : Option Int
  /-- `upload_file(bucket, object_name, fd, meta)`: the status. -/
  upload_file : String → List Byte → Int
  /-- `upload_super_file(bucket, object_name, fd, meta)`: the status. -/
  upload_super_file : String → List Byte → Int
  /-- `unlink(_tmp_filename)`: `none` on success, else `errno`. -/
  unlink_tmp_errno : Option Int
  /-- `unlink(_mirror_path)`: `none` on success, else `errno`. -/
  unlink_mirror_errno : Option Int
  /-- The stat-cache file of the path. -/
  stat_cache : StatCacheFile
  /-- `open(_cache_path, O_RDWR)`: `none` on failure, else the descriptor and the
  bytes of the cache file. -/
  open_cache_file : Option (Nat × List Byte)
  /-- `fstat(_fd)` in `open_file`: `none` on failure (with its `errno`), else `st_size`
  is the length of the file. -/
  fstat_errno : Option Int
  /-- `open(_cache_path, O_CREAT|O_RDWR|O_TRUNC)`: `errno` or the descriptor. -/
  create_cache_file : Except Int Nat
  /-- `open_mirror_file()`: the descriptor of the mirror file (or a result `<= 0`) and
  the value it leaves in `_mirror_path`. -/
  open_mirror_file : Int × String
  /-- The name made from `uuid_generate` for a tmp file. -/
  tmp_filename : String
  /-- `open(_tmp_filename, O_CREAT|O_RDWR|O_TRUNC)`: `errno` or the descriptor. -/
  open_tmp_file : Except Int Nat
  /-- `ftruncate` followed by `fsync` in `open_file`: `none` on success, else `errno`. -/
  truncate_sync_errno : Option Int
  /-- `set_mtime(time)` in `open_file` (`futimes`): `none` on success, else `errno`. -/
  set_mtime_errno : Option Int
  /-- `DataCache::make_cache_path(path, cache_path, true)`: `none` on failure, else the
  cache path (empty when no cache directory is configured). -/
  make_cache_path : String → Option String
  /-- `BosfsOptions::storage_class`. -/
  storage_class : String

/-! ## DataCacheEntity (data_cache.cpp) -/

/-- The members of `DataCacheEntity` the operations below read or write, and `file`,
the bytes of the local file behind `_fd`.  `addr` is the address of the object: the
registry holds pointers, and `close_cache` compares them. -/
structure DataCacheEntity where
  addr : Nat
  page_list : PageList
  ref_count : Int
  path : String
  cache_path : String
  mirror_path : String
  fd : Int
  is_modified : Bool
  origin_meta : ObjectMetaData
  origin_meta_size : Nat
  is_tmpfile : Bool
  tmp_filename : String
  file : List Byte
deriving DecidableEq, Repr

namespace DataCacheEntity

open ObjectPageList

/-- `DataCacheEntity::DataCacheEntity(..., tpath, cpath)`: the page list member is
default-constructed, that is `ObjectPageList(0, false)`. -/
def construct (addr : Nat) (tpath cpath : String) : DataCacheEntity :=
  { addr := addr, page_list := ObjectPageList.construct 0 false, ref_count := 0,
    path := tpath, cache_path := cpath, mirror_path := "", fd := -1, is_modified := false,
    origin_meta := ObjectMetaData.clear, origin_meta_size := 0, is_tmpfile := false,
    tmp_filename := "",
    file := [] }

/-- `DataCacheEntity::is_open`: `-1 != _fd`. -/
def is_open (e : DataCacheEntity) : Bool := e.fd != -1

/-- `DataCacheEntity::get_size`: `none` stands for the result `false`. -/
def get_size (e : DataCacheEntity) : Option Nat :=
  if e.fd = -1 then none else some (ObjectPageList.get_size e.page_list)

/-- `DataCacheEntity::is_safe_disk_space(size)`. -/
def is_safe_disk_space (env : Env) (e : DataCacheEntity) (size : Nat) : Bool :=
  match (if e.is_tmpfile then env.statvfs_tmp else env.statvfs_cache) with
  | none => false
  | some avail => size + env.free_disk_space ≤ avail

/-- `DataCacheEntity::dup_file`: the result is `_fd`. -/
def dup_file (e : DataCacheEntity) : Int × DataCacheEntity :=
  if e.fd ≠ -1 then (e.fd, { e with ref_count := e.ref_count + 1 }) else (e.fd, e)

/-- The local `need_load_size` of the loop of `load`: the part of the page that lies
inside the original object. -/
def need_load_size (origin_meta_size : Nat) (page : ObjectPage) : Nat :=
  if origin_meta_size > page.offset then
    (if origin_meta_size ≥ page.next then page.bytes else origin_meta_size - page.offset)
  else 0

/-- The local `over_size` of the loop of `load`: the part of the page beyond the
original object. -/
def over_size (origin_meta_size : Nat) (page : ObjectPage) : Nat :=
  if origin_meta_size > page.offset then
    (if origin_meta_size ≥ page.next then 0 else page.next - origin_meta_size)
  else 0

/-- The loop of `DataCacheEntity::load` over `unloaded_list`; `end_` is
`start + size`.  The result is the last status (`0` unless a download or a fill
failed). -/
def loadLoop (env : Env) (end_ : Nat) :
    List ObjectPage → DataCacheEntity → World → Int × DataCacheEntity × World
  | [], e, w => (0, e, w)
  | page :: rest, e, w =>
    if end_ ≤ page.offset then (0, e, w)
    else
      let need_load_size := need_load_size e.origin_meta_size page
      let over_size := over_size e.origin_meta_size page
      let dl := env.parallel_download page.offset need_load_size
      let w1 : World :=
        if 0 < need_load_size then
          { w with trace := w.trace ++ [Event.parallel_download e.path page.offset need_load_size] }
        else w
      if 0 < need_load_size ∧ dl.1 ≠ 0 then (dl.1, e, w1)
      else
        let e1 : DataCacheEntity :=
          if 0 < need_load_size then { e with file := pwrite_file e.file dl.2 page.offset }
          else e
        match (if 0 < over_size then env.fill_file_errno over_size (page.offset + need_load_size)
               else none) with
        | some errno => (-errno, e1, w1)
        | none =>
          let e2 : DataCacheEntity :=
            if 0 < over_size then
              { e1 with
                file := pwrite_file e1.file (List.replicate over_size 0)
                  (page.offset + need_load_size),
                is_modified := false }
            else e1
          loadLoop env end_ rest
            { e2 with
              page_list := set_page_loaded_status e2.page_list page.offset page.bytes true true }
            w1

/-- `DataCacheEntity::load(start, size)`. -/
def load (env : Env) (e : DataCacheEntity) (w : World) (start size : Nat) :
    Int × DataCacheEntity × World :=
  if e.fd = -1 then (-EBADF, e, w)
  else if size = 0 then (0, e, w)
  else
    let unloaded_list := get_unloaded_pages e.page_list [] start size
    if unloaded_list.isEmpty then (0, e, w)
    else loadLoop env (start + size) unloaded_list e w

/-- `DataCacheEntity::row_flush(tpath, force_sync)`; `tpath = none` is `NULL`. -/
def row_flush (env : Env) (e : DataCacheEntity) (w : World) (tpath : Option String)
    (force_sync : Bool) : Int × DataCacheEntity × World :=
  if e.fd = -1 then (-EBADF, e, w)
  else if !force_sync && !e.is_modified then (0, e, w)
  else
    let rest_size := get_total_unloaded_page_size e.page_list 0 0
    let loaded : Int × DataCacheEntity × World :=
      if rest_size > 0 then
        (if is_safe_disk_space env e rest_size then load env e w 0 0 else (-1, e, w))
      else (0, e, w)
    if loaded.1 ≠ 0 then loaded
    else
      let e1 := loaded.2.1
      let w1 := loaded.2.2
      match env.lseek_errno with
      | some errno => (-errno, e1, w1)
      | none =>
        let object_name : String :=
          match tpath with
          | some t => t.drop 1
          | none => e1.path.drop 1
        let small : Bool :=
          decide ((ObjectPageList.get_size e1.page_list : Int) < env.multipart_threshold)
        let ret : Int :=
          if small then env.upload_file object_name e1.file
          else env.upload_super_file object_name e1.file
        let w2 : World :=
          { w1 with
            trace := w1.trace ++
              [if small then Event.upload_file object_name e1.file
               else Event.upload_super_file object_name e1.file] }
        if ret ≠ 0 then (-1, e1, w2)
        else (0, { e1 with is_modified := false },
              { w2 with table := FileManager.del w2.table e1.path })

/-- `DataCacheEntity::flush(force_sync)`. -/
def flush (env : Env) (e : DataCacheEntity) (w : World) (force_sync : Bool) :
    Int × DataCacheEntity × World :=
  row_flush env e w none force_sync

/-- `DataCacheEntity::read(bytes, start, size, force_load)`: the result, the bytes put
into the buffer, and the state afterwards. -/
def read (env : Env) (e : DataCacheEntity) (w : World) (start size : Nat) (force_load : Bool) :
    Int × List Byte × DataCacheEntity × World :=
  if e.fd = -1 then (-EBADF, [], e, w)
  else if size = 0 then (0, [], e, w)
  else
    let e1 : DataCacheEntity :=
      if force_load then
        { e with page_list := set_page_loaded_status e.page_list start size false true }
      else e
    let pre : Int × DataCacheEntity × World :=
      if 0 < get_total_unloaded_page_size e1.page_list start size then
        let reset : Bool := !is_safe_disk_space env e1 size && !e1.is_modified
        let pl : PageList :=
          if reset then init (ObjectPageList.get_size e1.page_list) false else e1.page_list
        if reset ∧ env.ftruncate_ok 0 = false then
          (-ENOSPC, { e1 with page_list := pl }, w)
        else if reset ∧ env.ftruncate_ok (ObjectPageList.get_size pl) = false then
          (-ENOSPC, { e1 with page_list := pl, file := [] }, w)
        else
          let e2 : DataCacheEntity :=
            if reset then
              { e1 with page_list := pl, file := ftruncate_file [] (ObjectPageList.get_size pl) }
            else e1
          let total := ObjectPageList.get_size e2.page_list
          let prefetch_max_size := max size (env.multipart_size * env.multipart_parallel)
          let load_size :=
            if start + size < total then
              (if start + prefetch_max_size < total then prefetch_max_size else total - start)
            else size
          let r := load env e2 w start load_size
          if r.1 ≠ 0 then (- EIO, r.2.1, r.2.2) else (0, r.2.1, r.2.2)
      else (0, e1, w)
    if pre.1 ≠ 0 then (pre.1, [], pre.2.1, pre.2.2)
    else
      match env.pread_errno size start with
      | some errno => (-errno, [], pre.2.1, pre.2.2)
      | none =>
        let data := pread_file pre.2.1.file size start
        ((data.length : Int), data, pre.2.1, pre.2.2)

/-- `DataCacheEntity::write(bytes, start, size)` with `size = bytes.length`. -/
def write (env : Env) (e : DataCacheEntity) (w : World) (bytes : List Byte) (start : Nat) :
    Int × DataCacheEntity × World :=
  if e.fd = -1 then (-EBADF, e, w)
  else
    let size := bytes.length
    let cur_size := ObjectPageList.get_size e.page_list
    if cur_size < start ∧ env.ftruncate_ok start = false then (- EIO, e, w)
    else
      let e1 : DataCacheEntity :=
        if cur_size < start then
          { e with
            file := ftruncate_file e.file start,
            page_list := set_page_loaded_status e.page_list cur_size (start - cur_size) false true }
        else e
      let rest_size := get_total_unloaded_page_size e1.page_list 0 start + size
      if is_safe_disk_space env e1 rest_size then
        let r : Int × DataCacheEntity × World :=
          if start > 0 then load env e1 w 0 start else (0, e1, w)
        if r.1 ≠ 0 then (- EIO, r.2.1, r.2.2)
        else
          match env.pwrite size start with
          | .error errno => (-errno, r.2.1, r.2.2)
          | .ok write_size =>
            let e2 : DataCacheEntity :=
              { r.2.1 with file := pwrite_file r.2.1.file (bytes.take write_size) start }
            if write_size > 0 then
              ((write_size : Int),
               { e2 with
                 is_modified := true,
                 page_list := set_page_loaded_status e2.page_list start write_size true true },
               r.2.2)
            else ((write_size : Int), e2, r.2.2)
      else (-ENOSPC, e1, w)

/-- The result `(0 == errno ? -EIO : -errno)` of a failed step of `open_file`. -/
def errnoResult (errno : Int) : Int := if errno = 0 then - EIO else -errno

/-- `DataCacheEntity::close_file`. -/
def close_file (env : Env) (e : DataCacheEntity) (w : World) : Int × DataCacheEntity × World :=
  if e.fd < 0 then (0, e, w)
  else if e.ref_count ≤ 0 then (0, e, w)
  else if 0 < e.ref_count - 1 then (0, { e with ref_count := e.ref_count - 1 }, w)
  else
    let e0 : DataCacheEntity := { e with ref_count := e.ref_count - 1 }
    -- the tmp file is flushed, then unlinked
    let fl : Int × DataCacheEntity × World :=
      if e0.is_tmpfile then flush env e0 w false else (0, e0, w)
    if e0.is_tmpfile ∧ fl.1 ≠ 0 then fl
    else
      match (if e0.is_tmpfile then env.unlink_tmp_errno else none) with
      | some errno => (-errno, fl.2.1, fl.2.2)
      | none =>
        let e1 : DataCacheEntity :=
          if e0.is_tmpfile then { fl.2.1 with tmp_filename := "" } else fl.2.1
        -- the page list is saved to the stat-cache file
        let ser := serialize e1.page_list env.stat_cache true
        let w1 : World :=
          if e1.cache_path.length ≠ 0 ∧ ser.1 then
            { fl.2.2 with
              trace := fl.2.2.trace ++
                [Event.stat_cache_write e1.path (serializeText e1.page_list)] }
          else fl.2.2
        let e2 : DataCacheEntity := { e1 with fd := -1 }
        if e2.mirror_path.isEmpty then (0, e2, w1)
        else
          match env.unlink_mirror_errno with
          | some errno => (-errno, e2, w1)
          | none => (0, { e2 with mirror_path := "" }, w1)

/-- The text `set_user_meta` stores for an integer value. -/
def intText (i : Int) : String :=
  String.mk (if i < 0 then '-' :: decimal i.natAbs else decimal i.natAbs)

/-- The last part of `open_file`, common to the cache and the tmp-file branch: truncate
the local file, save the stat cache, and set the bookkeeping members. -/
def open_file_finish (env : Env) (e : DataCacheEntity) (w : World)
    (pmeta : Option ObjectMetaData) (size time : Int) (is_truncate need_save_csf : Bool) :
    Int × DataCacheEntity × World :=
  match (if is_truncate then env.truncate_sync_errno else none) with
  | some errno => (errnoResult errno, { e with fd := -1 }, w)
  | none =>
    let e1 : DataCacheEntity :=
      if is_truncate then { e with file := ftruncate_file e.file size.toNat } else e
    let ser := serialize e1.page_list env.stat_cache true
    let w1 : World :=
      if need_save_csf ∧ ser.1 then
        { w with
          trace := w.trace ++ [Event.stat_cache_write e1.path (serializeText e1.page_list)] }
      else w
    let meta0 : ObjectMetaData :=
      match pmeta with
      | some m => m
      | none => ObjectMetaData.clear
    let meta1 : ObjectMetaData :=
      if env.storage_class.isEmpty then meta0
      else { meta0 with storage_class := env.storage_class }
    let e2 : DataCacheEntity :=
      { e1 with
        ref_count := 1, is_modified := false, origin_meta := meta1,
        origin_meta_size := meta0.content_length }
    if time ≠ -1 then
      match env.set_mtime_errno with
      | some errno => (errnoResult errno, { e2 with fd := -1 }, w1)
      | none =>
        (0, { e2 with origin_meta := e2.origin_meta.set_user_meta "bosfs-mtime" (intText time) },
          w1)
    else (0, e2, w1)

/-- The branch of `open_file` that creates (and truncates) the cache file when the
cache file or its stat data could not be loaded, followed by the mirror file. -/
def open_file_mirror (env : Env) (e : DataCacheEntity) (w : World)
    (pmeta : Option ObjectMetaData) (size time : Int) (is_truncate need_save_csf : Bool) :
    Int × DataCacheEntity × World :=
  let mirror := env.open_mirror_file
  if mirror.1 ≤ 0 then
    ((if mirror.1 = 0 then - EIO else mirror.1), { e with mirror_path := mirror.2 }, w)
  else
    open_file_finish env { e with mirror_path := mirror.2, fd := mirror.1 } w pmeta size time
      is_truncate need_save_csf

/-- `DataCacheEntity::open_file(pmeta, size, time)`; `size = -1` and `time = -1` are
the defaults that stand for "not given". -/
def open_file (env : Env) (e : DataCacheEntity) (w : World) (pmeta : Option ObjectMetaData)
    (size time : Int) : Int × DataCacheEntity × World :=
  if e.fd ≠ -1 then (0, (dup_file e).2, w)
  else if e.cache_path.length ≠ 0 then
    -- the stat data are read only when the cache file could be opened
    let ser := serialize e.page_list env.stat_cache false
    match env.open_cache_file with
    | some (fd, content) =>
      if ser.1 then
        let e1 : DataCacheEntity := { e with fd := fd, file := content, page_list := ser.2.1 }
        match env.fstat_errno with
        | some errno => (errnoResult errno, { e1 with fd := -1 }, w)
        | none =>
          let st_size : Nat := content.length
          let want : Nat := if size = -1 then st_size else size.toNat
          let changed : Bool := want != ObjectPageList.get_size e1.page_list
          let e2 : DataCacheEntity :=
            if changed then { e1 with page_list := resize e1.page_list want false } else e1
          open_file_mirror env e2 w pmeta (want : Int) time
            (decide (size ≠ -1) && (want != st_size)) changed
      else
        match env.create_cache_file with
        | .error errno => (errnoResult errno, { e with fd := -1, page_list := ser.2.1 }, w)
        | .ok fd =>
          let e1 : DataCacheEntity :=
            { e with
              fd := fd, file := [],
              page_list :=
                if size = -1 then init 0 false else resize ser.2.1 size.toNat false }
          open_file_mirror env e1 w pmeta (if size = -1 then 0 else size) time
            (decide (size ≠ -1)) true
    | none =>
      match env.create_cache_file with
      | .error errno => (errnoResult errno, { e with fd := -1 }, w)
      | .ok fd =>
        let e1 : DataCacheEntity :=
          { e with
            fd := fd, file := [],
            page_list :=
              if size = -1 then init 0 false else resize e.page_list size.toNat false }
        open_file_mirror env e1 w pmeta (if size = -1 then 0 else size) time
          (decide (size ≠ -1)) true
  else
    let name : String := if e.tmp_filename.length = 0 then env.tmp_filename else e.tmp_filename
    match env.open_tmp_file with
    | .error errno => (errnoResult errno, { e with tmp_filename := name, fd := -1 }, w)
    | .ok fd =>
      let e1 : DataCacheEntity :=
        { e with
          tmp_filename := name, fd := fd, file := [], is_tmpfile := true,
          page_list :=
            if size = -1 then init 0 false else resize e.page_list size.toNat false }
      open_file_finish env e1 w pmeta (if size = -1 then 0 else size) time
        (decide (size ≠ -1)) false

end DataCacheEntity

/-! ## DataCache (data_cache.cpp) -/

/-- The registry `_data_cache`, a `std::map` from path to entity pointer.  The entity
objects are kept in the entries; a pointer is the `addr` of an entity.  `next_addr` is
the address the next `new DataCacheEntity` gets. -/
structure DataCache where
  data_cache : List (String × DataCacheEntity)
  next_addr : Nat

namespace DataCache

/-- The entity a pointer refers to. -/
def deref (dc : DataCache) (ent : Nat) : Option DataCacheEntity :=
  (dc.data_cache.find? (fun kv => kv.2.addr = ent)).map Prod.snd

/-- `_data_cache.find(path)`. -/
def find (dc : DataCache) (path : String) : Option DataCacheEntity :=
  (dc.data_cache.find? (fun kv => kv.1 = path)).map Prod.snd

/-- The entity object at address `ent` is replaced by its new state. -/
def store (entries : List (String × DataCacheEntity)) (ent : Nat) (e : DataCacheEntity) :
    List (String × DataCacheEntity) :=
  entries.map (fun kv => if kv.2.addr = ent then (kv.1, e) else kv)

/-- `DataCache::get_cache(path)`: the pointer, `none` for `NULL`. -/
def get_cache (dc : DataCache) (path : String) : Option Nat :=
  (dc.find path).map (fun e => e.addr)

/-- `DataCache::open_cache(path, pmeta, size, time, force_tmpfile, is_create)`: the
pointer returned (`none` for `NULL`) and the state afterwards. -/
def open_cache (env : Env) (dc : DataCache) (w : World) (path : String)
    (pmeta : Option ObjectMetaData) (size time : Int) (force_tmpfile is_create : Bool) :
    Option Nat × DataCache × World :=
  match dc.find path with
  | some ent =>
    let r := DataCacheEntity.open_file env ent w pmeta size time
    ((if r.1 = -1 then none else some ent.addr),
     { dc with data_cache := store dc.data_cache ent.addr r.2.1 }, r.2.2)
  | none =>
    if is_create then
      match (if force_tmpfile then some "" else env.make_cache_path path) with
      | none => (none, dc, w)
      | some cache_path =>
        let ent := DataCacheEntity.construct dc.next_addr path cache_path
        let r := DataCacheEntity.open_file env ent w pmeta size time
        ((if r.1 = -1 then none else some ent.addr),
         { data_cache := dc.data_cache ++ [(path, r.2.1)], next_addr := dc.next_addr + 1 },
         r.2.2)
    else (none, dc, w)

/-- `DataCache::exist_open(path)`. -/
def exist_open (env : Env) (dc : DataCache) (w : World) (path : String) :
    Option Nat × DataCache × World :=
  open_cache env dc w path none (-1) (-1) false false

/-- `DataCache::close_cache(ent)`.  The pointer is looked up by the path of its entity
and, failing that, by identity; a pointer to no registered entity is answered `false`
(the source would read freed memory). -/
def close_cache (env : Env) (dc : DataCache) (w : World) (ent : Nat) :
    Bool × DataCache × World :=
  match dc.deref ent with
  | none => (false, dc, w)
  | some e =>
    let it : Option String :=
      match dc.data_cache.find? (fun kv => kv.1 = e.path) with
      | some kv => some kv.1
      | none => (dc.data_cache.find? (fun kv => kv.2.addr = ent)).map Prod.fst
    match it with
    | none => (false, dc, w)
    | some key =>
      let r := DataCacheEntity.close_file env e w
      let entries := store dc.data_cache ent r.2.1
      if !r.2.1.is_open then
        (true, { dc with data_cache := entries.filter (fun kv => kv.1 != key) }, r.2.2)
      else (false, { dc with data_cache := entries }, r.2.2)

/-- The entity is in the registry. -/
def registered (dc : DataCache) (ent : Nat) : Bool :=
  dc.data_cache.any (fun kv => kv.2.addr = ent)

/-- Distinct entries hold distinct entity objects, and no entity carries a path that
is the key of another entity (its path may differ from its own key). -/
def Sound (dc : DataCache) : Prop :=
  (dc.data_cache.map (fun kv => kv.2.addr)).Nodup ∧
  ∀ kv ∈ dc.data_cache, ∀ kv2 ∈ dc.data_cache, kv2.1 = kv.2.path → kv2.2.addr = kv.2.addr

/-- The registry as `open_cache` and `close_cache` build it: a map (no key twice),
distinct entity objects allocated below `next_addr`, every entity filed under its own
path (`set_path` has no caller). -/
def Valid (dc : DataCache) : Prop :=
  (dc.data_cache.map Prod.fst).Nodup ∧
  (dc.data_cache.map (fun kv => kv.2.addr)).Nodup ∧
  (∀ kv ∈ dc.data_cache, kv.2.path = kv.1) ∧
  (∀ kv ∈ dc.data_cache, kv.2.addr < dc.next_addr)

/-- The reference count the registry records for a path: `0` when no entity is filed
under it. -/
def refCount (dc : DataCache) (path : String) : Int :=
  match dc.find path with
  | some e => e.ref_count
  | none => 0

/-- One call on a path: `open_cache(path, pmeta, size, time, force_tmpfile, true)`, or
`close_cache` on the pointer that `open_cache` returned for the path. -/
inductive Op where
  | open_ (pmeta : Option ObjectMetaData) (size time : Int) (force_tmpfile : Bool)
  | close_

/-- A sequence of calls on one path, each with the environment it runs in. -/
def runOps (path : String) : List (Op × Env) → DataCache × World → DataCache × World
  | [], s => s
  | (Op.open_ pmeta size time force_tmpfile, env) :: ops, s =>
    runOps path ops (open_cache env s.1 s.2 path pmeta size time force_tmpfile true).2
  | (Op.close_, env) :: ops, s =>
    match s.1.find path with
    | some e => runOps path ops (close_cache env s.1 s.2 e.addr).2
    | none => runOps path ops s

/-- Number of opens minus number of closes, `none` as soon as a close comes with no
open left to match it. -/
def balance : List (Op × Env) → Nat → Option Nat
  | [], c => some c
  | (Op.open_ _ _ _ _, _) :: ops, c => balance ops (c + 1)
  | (Op.close_, _) :: ops, c => if c = 0 then none else balance ops (c - 1)

end DataCache

/-- Every local file operation of `open_file` and `close_file` succeeds in this
environment. -/
def Env.localOk (env : Env) : Prop :=
  env.truncate_sync_errno = none ∧ env.set_mtime_errno = none ∧ env.fstat_errno = none ∧
  (∃ fd, env.create_cache_file = .ok fd) ∧ 0 < env.open_mirror_file.1 ∧
  (∃ fd, env.open_tmp_file = .ok fd) ∧ (∀ path, ∃ cp, env.make_cache_path path = some cp) ∧
  env.unlink_tmp_errno = none ∧ env.unlink_mirror_errno = none ∧ env.lseek_errno = none

namespace DataCacheEntity

/-- What a successful first open leaves: result 0, count 1, an open descriptor, the
entity not modified, address and path as before. -/
def Opened (e : DataCacheEntity) (r : Int × DataCacheEntity × World) : Prop :=
  r.1 = 0 ∧ r.2.1.ref_count = 1 ∧ 0 ≤ r.2.1.fd ∧ r.2.1.addr = e.addr ∧ r.2.1.path = e.path ∧
    r.2.1.is_modified = false

end DataCacheEntity

namespace DataCache

/-- Number of `open_cache` calls in a sequence. -/
def opens : List (Op × Env) → Nat
  | [] => 0
  | (Op.open_ _ _ _ _, _) :: ops => opens ops + 1
  | (Op.close_, _) :: ops => opens ops

/-- Number of `close_cache` calls in a sequence. -/
def closes : List (Op × Env) → Nat
  | [] => 0
  | (Op.open_ _ _ _ _, _) :: ops => closes ops
  | (Op.close_, _) :: ops => closes ops + 1

/-- The state a sequence of calls on `path` keeps when the count for the path is `c`:
absent for `c = 0`, else one open, unmodified entity with reference count `c`. -/
def Counted (path : String) (c : Nat) (s : DataCache × World) : Prop :=
  Valid s.1 ∧ (c = 0 → s.1.find path = none) ∧
  (0 < c → ∃ e, s.1.find path = some e ∧ e.ref_count = (c : Int) ∧ 0 ≤ e.fd ∧
    e.is_modified = false)

end DataCache

/-! ## Concrete environments and states for the evaluations below -/

/-- An environment in which every system call and every SDK call succeeds, with
`free` bytes available on disk, the default mount options, downloads that deliver
zeros, and a NUL after the bytes read from the stat-cache file. -/
def Env.allOk (free : Nat) : Env :=
  { multipart_size := 10485760, multipart_parallel := 10, multipart_threshold := 104857600,
    free_disk_space := 104857600, statvfs_tmp := some free, statvfs_cache := some free,
    parallel_download := fun _ n => (0, List.replicate n 0),
    fill_file_errno := fun _ _ => none, ftruncate_ok := fun _ => true,
    pwrite := fun n _ => .ok n, pread_errno := fun _ _ => none, lseek_errno := none,
    upload_file := fun _ _ => 0, upload_super_file := fun _ _ => 0,
    unlink_tmp_errno := none, unlink_mirror_errno := none,
    stat_cache := { open_ok := true, fstat_ok := true, pread_ok := true, pwrite_ok := true,
                    heap := [], content := [] },
    open_cache_file := none, fstat_errno := none, create_cache_file := .ok 5,
    open_mirror_file := (6, "/cache/bkt.mirror/m"), tmp_filename := "/tmp/bosfs.tmp.u",
    open_tmp_file := .ok 4, truncate_sync_errno := none, set_mtime_errno := none,
    make_cache_path := fun _ => some "", storage_class := "" }

/-- The environment `allOk` with every upload failing. -/
def Env.uploadFails (free : Nat) : Env :=
  { Env.allOk free with upload_file := fun _ _ => 1, upload_super_file := fun _ _ => 1 }

/-- A world without calls and with an empty attribute cache. -/
def World.empty : World := { trace := [], table := [] }

/-- An open tmp-file entity for `/f` with reference count 1, the given page list,
local file and modified flag; the remote object has `origin` bytes. -/
def DataCacheEntity.sample (pages : PageList) (file : List Byte) (modified : Bool)
    (origin : Nat) : DataCacheEntity :=
  { DataCacheEntity.construct 1 "/f" "" with
    fd := 4, ref_count := 1, is_tmpfile := true, tmp_filename := "/tmp/bosfs.tmp.u",
    page_list := pages, file := file, is_modified := modified, origin_meta_size := origin }

/-! ## Attributes: mount options, `File::stat` and the access check -/

/-- File-type and permission bits of `st_mode` (`sys/stat.h`). -/
def S_IFMT : Nat := 0o170000
def S_IFDIR : Nat := 0o040000
def S_IFREG : Nat := 0o100000
def S_IRWXU : Nat := 0o700
def S_IRUSR : Nat := 0o400
def S_IWUSR : Nat := 0o200
def S_IXUSR : Nat := 0o100
def S_IRWXG : Nat := 0o070
def S_IRGRP : Nat := 0o040
def S_IWGRP : Nat := 0o020
def S_IXGRP : Nat := 0o010
def S_IRWXO : Nat := 0o007
def S_IROTH : Nat := 0o004
def S_IWOTH : Nat := 0o002
def S_IXOTH : Nat := 0o001

/-- Access masks of `access(2)`. -/
def F_OK : Nat := 0
def X_OK : Nat := 1
def W_OK : Nat := 2
def R_OK : Nat := 4

/-- More `errno` values. -/
def EACCES : Int := 13
def ENOENT : Int := 2
def EEXIST : Int := 17
def ERANGE : Int := 34
def ENOATTR : Int := 61

/-- `ST_BLKSIZE` and `ST_MINBLOCKS` (bosfs_util.h). -/
def ST_BLKSIZE : Nat := 4096
def ST_MINBLOCKS : Nat := 8

/-- The value of a 32-bit unsigned member (`mode_t`, `uid_t`, `gid_t`) after a `long`
is assigned to it. -/
def toU32 (x : Int) : Nat := (x % 4294967296).toNat

/-- The 32-bit complement `~mask` as it is used on a `mode_t`. -/
def notU32 (mask : Nat) : Nat := 4294967295 - mask % 4294967296

/-- `isspace` of the C locale. -/
def isspace (c : Char) : Bool := c = ' ' || (9 ≤ c.toNat && c.toNat ≤ 13)

/-- The value of a character as a digit of `strtol`, in bases up to 36. -/
def digitValue (c : Char) : Option Nat :=
  if '0' ≤ c ∧ c ≤ '9' then some (c.toNat - 48)
  else if 'a' ≤ c ∧ c ≤ 'z' then some (c.toNat - 87)
  else if 'A' ≤ c ∧ c ≤ 'Z' then some (c.toNat - 55)
  else none

/-- The digits of `strtol` in base `base`, up to the first character that is no digit
of that base. -/
def parseBase (base : Nat) : Nat → List Char → Nat
  | acc, [] => acc
  | acc, c :: cs =>
    match digitValue c with
    | some d => if d < base then parseBase base (acc * base + d) cs else acc
    | none => acc

/-- `strtol(s, NULL, 0)` from the C library with a 64-bit `long`: white space, an
optional sign, then a hexadecimal number after `0x`, an octal number after `0`, or a
decimal number; the value is clamped to the range of `long`. -/
def strtol (s : List Char) : Int :=
  let r := s.dropWhile isspace
  let neg : Bool := r.head? = some '-'
  let r1 : List Char := if r.head? = some '-' ∨ r.head? = some '+' then r.tail else r
  let mag : Nat :=
    match r1 with
    | '0' :: x :: h :: t =>
      if (x == 'x' || x == 'X') &&
          (match digitValue h with
           | some d => decide (d < 16)
           | none => false)
      then parseBase 16 0 (h :: t)
      else parseBase 8 0 (x :: h :: t)
    | '0' :: t => parseBase 8 0 t
    | _ => parseBase 10 0 r1
  if neg then - ((min mag (LLONG_MAX + 1) : Nat) : Int) else ((min mag LLONG_MAX : Nat) : Int)

/-- `ObjectMetaData::user_meta(key)`: the stored value, the empty string when there is
none. -/
def ObjectMetaData.get_user_meta (m : ObjectMetaData) (key : String) : String :=
  match m.user_meta.find? (fun kv => kv.1 == key) with
  | some kv => kv.2
  | none => ""

/-- The members of `BosfsOptions` (bosfs_lib.h) that shape attributes. -/
structure BosfsOptions where
  mount_time : Int
  mount_uid : Nat
  mount_gid : Nat
  mount_mode : Nat
  bosfs_uid : Nat
  bosfs_gid : Nat
  bosfs_mask : Nat
  is_bosfs_uid : Bool
  is_bosfs_gid : Bool
  is_bosfs_umask : Bool
deriving DecidableEq, Repr

/-- The members of `struct stat` that the file system fills. -/
structure Stat where
  st_nlink : Nat
  st_mode : Nat
  st_uid : Nat
  st_gid : Nat
  st_atime : Int
  st_mtime : Int
  st_ctime : Int
  st_size : Nat
  st_blocks : Nat
  st_blksize : Nat
deriving DecidableEq, Repr

/-- `BosfsUtil::init_default_stat`. -/
def init_default_stat (options : BosfsOptions) : Stat :=
  { st_nlink := 1,
    st_mode := options.mount_mode,
    st_uid := if options.is_bosfs_uid then options.bosfs_uid else options.mount_uid,
    st_gid := if options.is_bosfs_gid then options.bosfs_gid else options.mount_gid,
    st_atime := 0,
    st_mtime := options.mount_time,
    st_ctime := options.mount_time,
    st_size := 0,
    st_blocks := 0,
    st_blksize := ST_BLKSIZE }

/-- The local `is_dir` of `File::stat`. -/
def File.is_dir (f : File) : Bool :=
  if f.is_dir_obj ∧ f.meta.content_length = 0 then true
  else if ¬ f.meta.content_type.isEmpty then
    String.mk (f.meta.content_type.toList.takeWhile (fun c => c != ';'))
      == "application/x-directory"
  else false

/-- The metadata text `File::stat` reads for `key`: the value under `bosfs-key`, or,
when that is empty, the value under the old name `key`. -/
def File.meta_text (f : File) (key : String) : String :=
  if (f.meta.get_user_meta ("bosfs-" ++ key)).isEmpty then f.meta.get_user_meta key
  else f.meta.get_user_meta ("bosfs-" ++ key)

/-- `File::stat`. -/
def File.stat (options : BosfsOptions) (f : File) : Stat :=
  let st := init_default_stat options
  if f.name = "/" ∨ f.is_prefix then
    { st with st_size := ST_BLKSIZE, st_blocks := ST_MINBLOCKS }
  else
    let st_size := f.meta.content_length
    let st_blocks := (st_size + st.st_blksize - 1) / st.st_blksize * ST_MINBLOCKS
    let meta_mtime := f.meta_text "mtime"
    let st_mtime : Int :=
      if meta_mtime.isEmpty then f.meta.last_modified else strtol meta_mtime.toList
    let meta_uid := f.meta_text "uid"
    let st_uid : Nat := if ¬ meta_uid.isEmpty then toU32 (strtol meta_uid.toList) else st.st_uid
    let meta_gid := f.meta_text "gid"
    let st_gid : Nat := if ¬ meta_gid.isEmpty then toU32 (strtol meta_gid.toList) else st.st_gid
    let is_dir := f.is_dir
    let meta_mode := f.meta_text "mode"
    let st_mode : Nat :=
      if ¬ meta_mode.isEmpty then
        let m := toU32 (strtol meta_mode.toList)
        if m &&& S_IFMT = 0 then m ||| (if is_dir then S_IFDIR else S_IFREG) else m
      else if ¬ is_dir then
        (options.mount_mode &&& notU32 (S_IFMT ||| 0o111)) ||| S_IFREG
      else options.mount_mode
    { st with
      st_size := st_size, st_blocks := st_blocks, st_mtime := st_mtime, st_ctime := st_mtime,
      st_atime := st_mtime, st_uid := st_uid, st_gid := st_gid, st_mode := st_mode }

/-- `struct fuse_context`, as far as the access check reads it. -/
structure FuseContext where
  uid : Nat
  gid : Nat
deriving DecidableEq, Repr

/-- `BosfsUtil::check_object_access(path, mask, pstbuf)`.  `pctx` is the answer of
`fuse_get_context()`, `attr` the answer of `get_object_attribute(path, pst)` (its status
and the attributes it filled in), and `is_uid_in_group` stands for
`SysUtil::is_uid_in_group`. -/
def check_object_access (options : BosfsOptions) (pctx : Option FuseContext)
    (attr : Int × Stat) (is_uid_in_group : Nat → Nat → Int) (mask : Nat) : Int :=
  match pctx with
  | none => - EIO
  | some ctx =>
    if attr.1 ≠ 0 then attr.1
    else if ctx.uid = 0 then 0
    else if options.is_bosfs_uid ∧ options.bosfs_uid = ctx.uid then 0
    else if F_OK = mask then 0
    else
      let obj_uid := if options.is_bosfs_uid then options.bosfs_uid else attr.2.st_uid
      let obj_gid := if options.is_bosfs_gid then options.bosfs_gid else attr.2.st_gid
      let mode0 : Nat :=
        if options.is_bosfs_umask then
          (S_IRWXU ||| S_IRWXG ||| S_IRWXO) &&& notU32 options.bosfs_mask
        else attr.2.st_mode
      let b0 : Nat := S_IRWXO
      let b1 : Nat := if ctx.uid = obj_uid then b0 ||| S_IRWXU else b0
      let b2 : Nat := if ctx.gid = obj_gid then b1 ||| S_IRWXG else b1
      let base_mask : Nat := if is_uid_in_group ctx.uid obj_gid = 1 then b2 ||| S_IRWXG else b2
      let mode := mode0 &&& base_mask
      if X_OK = (mask &&& X_OK) ∧ 0 = (mode &&& (S_IXUSR ||| S_IXGRP ||| S_IXOTH)) then - EACCES
      else if W_OK = (mask &&& W_OK) ∧ 0 = (mode &&& (S_IWUSR ||| S_IWGRP ||| S_IWOTH)) then
        - EACCES
      else if R_OK = (mask &&& R_OK) ∧ 0 = (mode &&& (S_IRUSR ||| S_IRGRP ||| S_IROTH)) then
        - EACCES
      else if 0 = mode then - EACCES
      else 0

/-- Mount options of a mount by uid and gid 1000 with mode `040755`, no override
configured. -/
def BosfsOptions.sample : BosfsOptions :=
  { mount_time := 1700000000, mount_uid := 1000, mount_gid := 1000, mount_mode := 0o040755,
    bosfs_uid := 0, bosfs_gid := 0, bosfs_mask := 0,
    is_bosfs_uid := false, is_bosfs_gid := false, is_bosfs_umask := false }

/-- An attribute-cache entry with the given name, flags, content type, length and user
metadata. -/
def File.sample (name : String) (is_dir_obj is_prefix : Bool) (content_type : String)
    (content_length : Nat) (user_meta : List (String × String)) : File :=
  { name := name, is_dir_obj := is_dir_obj, is_prefix := is_prefix,
    meta := { content_type := content_type, content_length := content_length,
              last_modified := 1600000000, storage_class := "", user_meta := user_meta },
    load_time_s := 0, hit_time_s := 0, hit_bit := 0 }

/-! ## Extended attributes (bosfs_impl.cpp)

The attributes of an object are kept in one user-metadata string, `bosfs-xattr`: records
`name:value` separated by `;`, the value in base64.  A `std::string` is a list of
characters here, a position is a natural number, and `std::string::npos` is `none`. -/

/-- `XATTR_CREATE` and `XATTR_REPLACE` (`sys/xattr.h`). -/
def XATTR_CREATE : Nat := 1
def XATTR_REPLACE : Nat := 2

/-- `std::string::find(c, pos)`. -/
def str_find (s : List Char) (c : Char) (pos : Nat) : Option Nat :=
  let i := ((s.drop pos).takeWhile (fun x => x != c)).length
  if pos + i < s.length then some (pos + i) else none

/-- `std::string::substr(pos, len)`. -/
def str_substr (s : List Char) (pos len : Nat) : List Char := (s.drop pos).take len

/-- `std::string::insert(pos, str)`. -/
def str_insert (s : List Char) (pos : Nat) (str : List Char) : List Char :=
  s.take pos ++ str ++ s.drop pos

/-- `std::string::replace(pos, len, str)`. -/
def str_replace (s : List Char) (pos len : Nat) (str : List Char) : List Char :=
  s.take pos ++ str ++ s.drop (pos + len)

/-- `std::string::erase(pos, len)`. -/
def str_erase (s : List Char) (pos len : Nat) : List Char := s.take pos ++ s.drop (pos + len)

/-- The three-way comparison of `std::string::compare`: character by character, a proper
prefix being smaller. -/
def str_compare : List Char → List Char → Ordering
  | [], [] => Ordering.eq
  | [], _ :: _ => Ordering.lt
  | _ :: _, [] => Ordering.gt
  | a :: as, b :: bs =>
    if a.toNat < b.toNat then Ordering.lt
    else if b.toNat < a.toNat then Ordering.gt
    else str_compare as bs

/-- The loop of `locate_xattr`, started at `pos` with the current `next_pos` and
`*delim_pos`; the result is `(result, next_pos, *delim_pos)`.  Every round moves `pos`
forward, so `fuel` rounds are enough when `fuel` exceeds the length of `xattr`. -/
def locateLoop (xattr name : List Char) :
    Nat → Nat → Nat → Option Nat → Option Nat × Nat × Option Nat
  | 0, _, next_pos, delim_pos => (none, next_pos, delim_pos)
  | fuel + 1, pos, next_pos, delim_pos =>
    if pos < xattr.length then
      let next_pos1 : Nat :=
        match str_find xattr ';' pos with
        | some end_ => end_ + 1
        | none => xattr.length
      let key0 := str_substr xattr pos (next_pos1 - pos)
      let sp0 := str_find key0 ':' 0
      let key : List Char :=
        match sp0 with
        | some i => key0.take i
        | none => key0
      let sp : Option Nat := sp0.map (fun i => i + pos)
      let c : Ordering :=
        if name.isEmpty then Ordering.eq else str_compare (str_substr key 0 name.length) name
      match c with
      | Ordering.eq => (some pos, next_pos1, sp)
      | Ordering.gt => (none, pos, delim_pos)
      | Ordering.lt => locateLoop xattr name fuel next_pos1 next_pos1 delim_pos
    else (none, next_pos, delim_pos)

/-- `locate_xattr(xattr, name, &next, &delim_pos)`: the result (`none` for `npos`), and
the values left in `*next` and `*delim_pos`. -/
def locate_xattr (xattr name : List Char) (next : Nat) (delim_pos : Option Nat) :
    Option Nat × Nat × Option Nat :=
  locateLoop xattr name (xattr.length + 1) next next delim_pos

/-- The position `next` after the step `if (next != 0 && xattr[next - 1] == ';') --next`. -/
def before_semicolon (xattr : List Char) (next : Nat) : Nat :=
  if next ≠ 0 ∧ xattr.get? (next - 1) = some ';' then next - 1 else next

/-- The loop of `BosfsImpl::listxattr`: the keys copied to the buffer, in order. -/
def listLoop (xattr : List Char) : Nat → Option Nat × Nat × Option Nat → List (List Char)
  | 0, _ => []
  | fuel + 1, (pos, next, delim_pos) =>
    match pos with
    | none => []
    | some p =>
      let end_ := before_semicolon xattr next
      let key : List Char :=
        match delim_pos with
        | some d => str_substr xattr p (d - p)
        | none => str_substr xattr p end_
      key :: listLoop xattr fuel (locate_xattr xattr [] next delim_pos)

/-- `BosfsImpl::listxattr` on the stored string: the names it reports. -/
def listxattr (xattr : List Char) : List (List Char) :=
  listLoop xattr (xattr.length + 1) (locate_xattr xattr [] 0 (some 0))

/-- The 64 digits of base64. -/
def base64_digits : List Char :=
  "ABCDEFGHIJKLMNOPQRSTUVWXYZabcdefghijklmnopqrstuvwxyz0123456789+/".toList

/-- The base64 digit of a 6-bit value. -/
def base64_digit (n : Nat) : Char := base64_digits.getD (n % 64) 'A'

/-- `StringUtil::base64_encode` of the SDK: base64 with padding. -/
def base64_encode : List Byte → List Char
  | [] => []
  | [a] =>
    [base64_digit (a.toNat / 4), base64_digit (a.toNat % 4 * 16), '=', '=']
  | [a, b] =>
    [base64_digit (a.toNat / 4), base64_digit (a.toNat % 4 * 16 + b.toNat / 16),
     base64_digit (b.toNat % 16 * 4), '=']
  | a :: b :: c :: rest =>
    base64_digit (a.toNat / 4) :: base64_digit (a.toNat % 4 * 16 + b.toNat / 16) ::
      base64_digit (b.toNat % 16 * 4 + c.toNat / 64) :: base64_digit (c.toNat % 64) ::
      base64_encode rest

/-- The 6-bit value of a base64 digit. -/
def base64_value (c : Char) : Option Nat :=
  let i := base64_digits.indexOf c
  if i < 64 then some i else none

/-- `StringUtil::base64_decode` of the SDK: four digits give three bytes, padding ends
the text. -/
def base64_decode : List Char → List Byte
  | a :: b :: c :: d :: rest =>
    match base64_value a, base64_value b, base64_value c, base64_value d with
    | some x, some y, some z, some u =>
      UInt8.ofNat (x * 4 + y / 16) :: UInt8.ofNat (y % 16 * 16 + z / 4) ::
        UInt8.ofNat (z % 4 * 64 + u) :: base64_decode rest
    | some x, some y, some z, none => [UInt8.ofNat (x * 4 + y / 16), UInt8.ofNat (y % 16 * 16 + z / 4)]
    | some x, some y, none, _ => [UInt8.ofNat (x * 4 + y / 16)]
    | _, _, _, _ => []
  | _ => []

/-- The string part of `BosfsImpl::setxattr`: from the stored string `xattr`, the name,
the value and the flags to the status and the string that is stored when the status
is 0.  `last_of_empty` is what `*xattr.rbegin()` reads when `xattr` is empty. -/
def setxattr (last_of_empty : Char) (xattr name : List Char) (value : List Byte) (flag : Nat) :
    Int × List Char :=
  let val := base64_encode value
  let loc := locate_xattr xattr name 0 (some 0)
  match loc.1 with
  | some _ =>
    if flag &&& XATTR_CREATE = XATTR_CREATE then (- EEXIST, xattr)
    else
      let next := before_semicolon xattr loc.2.1
      match loc.2.2 with
      | none => (0, str_insert xattr next (':' :: val))
      | some delim_pos => (0, str_replace xattr (delim_pos + 1) (next - delim_pos - 1) val)
  | none =>
    if flag &&& XATTR_REPLACE = XATTR_REPLACE then (- ENOATTR, xattr)
    else
      let next := loc.2.1
      let record := name ++ ':' :: val
      let record1 : List Char :=
        if next ≠ xattr.length then record ++ [';']
        else if xattr.getLast?.getD last_of_empty ≠ ';' then ';' :: record
        else record
      (0, str_insert xattr next record1)

/-- The string part of `BosfsImpl::removexattr`. -/
def removexattr (xattr name : List Char) : Int × List Char :=
  let loc := locate_xattr xattr name 0 none
  match loc.1 with
  | some pos => (0, str_erase xattr pos (loc.2.1 - pos))
  | none => (- ENOATTR, xattr)

/-- The string part of `BosfsImpl::getxattr` with a buffer of `size` bytes: the result
and the bytes copied to the buffer. -/
def getxattr (xattr name : List Char) (size : Nat) : Int × List Byte :=
  let loc := locate_xattr xattr name 0 (some 0)
  match loc.1 with
  | none => (- ENOATTR, [])
  | some _ =>
    let next := before_semicolon xattr loc.2.1
    let binary : List Byte :=
      match loc.2.2 with
      | some delim_pos => base64_decode (str_substr xattr (delim_pos + 1) (next - delim_pos - 1))
      | none => []
    if size ≠ 0 ∧ size < binary.length then (- ERANGE, [])
    else ((binary.length : Int), if size ≠ 0 then binary else [])

/-! ## The attribute cache (file_manager.{h,cpp}) and renaming (bosfs_util.cpp) -/

/-- `File::hit(now)`: the 64-bit history of hits, one bit per second.  Times are not
negative. -/
def File.hit (f : File) (now : Int) : File :=
  let n : Nat := (now % 64).toNat
  let hit_bit1 : Nat :=
    if now - f.hit_time_s ≥ 64 then 0
    else
      let h : Nat := (f.hit_time_s % 64).toNat
      let h_mask : Nat := (2 ^ h - 1) ||| 2 ^ h
      let n_mask : Nat := (2 ^ 64 - 1) ^^^ (2 ^ n - 1)
      f.hit_bit &&& (if h > n then h_mask &&& n_mask else h_mask ||| n_mask)
  { f with hit_bit := hit_bit1 ||| 2 ^ n, hit_time_s := now }

/-- `FileManager::try_get(name, file)` at time `now` with expiry `expire_s`; `refcount`
is the number of holders of the entry found.  The result is the answer, the entry
handed out, and the table afterwards. -/
def FileManager.try_get (expire_s now : Int) (refcount : Nat) (table : FileTable)
    (name : String) : Bool × Option File × FileTable :=
  match table.find? (fun kv => kv.1 == name) with
  | none => (false, none, table)
  | some kv =>
    if expire_s ≥ 0 ∧ kv.2.load_time_s + expire_s < now ∧ refcount ≤ 1 then
      (false, none, table.filter (fun x => x.1 != name))
    else
      (true, some (kv.2.hit now),
        table.map (fun x => if x.1 == name then (x.1, x.2.hit now) else x))

/-- The answers of the SDK client to copies and deletions of objects. -/
structure BosClient where
  copy_object : String → String → Int
  parallel_copy : String → String → Int
  delete_object : String → Int

/-- `src.substr(0, src.size() - 1)`: the string without its last character. -/
def dropLastChar (s : String) : String := String.mk s.toList.dropLast

/-- `BosfsUtil::rename_file(src, dst, size_hint)`. -/
def rename_file (env : Env) (client : BosClient) (w : World) (src dst : String)
    (size_hint : Int) : Int × World :=
  let parallel : Bool := decide (size_hint < 0 ∨ size_hint ≥ env.multipart_threshold)
  let ret : Int :=
    if parallel then client.parallel_copy src dst else client.copy_object src dst
  let w1 : World :=
    { w with
      trace := w.trace ++
        [if parallel then Event.parallel_copy src dst else Event.copy_object src dst] }
  if ret ≠ 0 then
    (ret,
      { w1 with
        table := FileManager.del (FileManager.del w1.table ("/" ++ dropLastChar src))
          ("/" ++ dropLastChar dst) })
  else
    (0,
      { w1 with
        trace := w1.trace ++ [Event.delete_object src],
        table := FileManager.del (FileManager.del w1.table ("/" ++ dropLastChar src))
          ("/" ++ dropLastChar dst) })

/-- A client whose copies answer `ret` and whose deletions succeed. -/
def BosClient.copyAnswers (ret : Int) : BosClient :=
  { copy_object := fun _ _ => ret, parallel_copy := fun _ _ => ret,
    delete_object := fun _ => 0 }

/-- A world without calls whose attribute cache holds the regular files `/a` and
`/b`. -/
def World.twoFiles : World :=
  { trace := [],
    table := [("/a", File.sample "/a" false false "" 3 []),
              ("/b", File.sample "/b" false false "" 5 [])] }

/-! ## The facade: attribute lookup, `chmod` and `getattr` (bosfs_util.cpp, bosfs_impl.cpp) -/

/-- `S_ISREG` and `S_ISDIR`. -/
def S_ISREG (m : Nat) : Bool := m &&& S_IFMT == S_IFREG
def S_ISDIR (m : Nat) : Bool := m &&& S_IFMT == S_IFDIR

/-- `EPERM`, and the status `BOSFS_OBJECT_NOT_EXIST` of util.h. -/
def EPERM : Int := 1
def BOSFS_OBJECT_NOT_EXIST : Int := 1016

/-- The loop of `File::hit_count`: one round per set bit. -/
def hitCountLoop : Nat → Nat → Nat
  | 0, _ => 0
  | fuel + 1, bits => if bits = 0 then 0 else hitCountLoop fuel (bits &&& (bits - 1)) + 1

/-- `File::hit_count`: the number of set bits of the 64-bit history. -/
def File.hit_count (f : File) : Nat := hitCountLoop 64 f.hit_bit

/-- `FileManager::compare_cache_priority(a, b)`. -/
def FileManager.compare_cache_priority (a b : File) : Bool :=
  if a.hit_count = b.hit_count then decide (a.hit_time_s < b.hit_time_s)
  else decide (a.hit_count > b.hit_count)

/-- What the SDK client answers to a copy of an object onto itself with new metadata:
success, `RET_KEY_NOT_EXIST`, or another error. -/
inductive CopyResult where
  | ok
  | key_not_exist
  | failed (code : Int)
deriving DecidableEq, Repr

/-- What the calls of the facade read besides the state: the environment of the cache,
the mount options, the fuse context of the caller, the clock, the settings of the
attribute cache, and the answers of the object store and of the operating system. -/
structure Facade where
  env : Env
  options : BosfsOptions
  /-- `fuse_get_context()`, `none` for `NULL`. -/
  pctx : Option FuseContext
  /-- `get_system_time_s()`. -/
  now : Int
  /-- `FileManager::_expire_s`. -/
  expire_s : Int
  /-- `FileManager::_cache_capacity`. -/
  cache_capacity : Int
  /-- The number of `FilePtr` holders of an entry outside the attribute cache. -/
  holders : String → Nat
  /-- `BosfsUtil::head_object(name.substr(1), ...)`: status, metadata, `is_dir_obj`,
  `is_prefix`. -/
  head_object : String → Int × ObjectMetaData × Bool × Bool
  /-- `SysUtil::is_uid_in_group(uid, gid)`. -/
  is_uid_in_group : Nat → Nat → Int
  /-- The answer to the `n`-th copy of `change_object_meta` for an object. -/
  copy_object_meta : String → ObjectMetaData → Nat → CopyResult
  /-- `fstat` on the descriptor of a local file, `none` when it fails. -/
  fstat : Int → Option Stat

/-- The test of `gc` for an expired entry. -/
def File.expired (fa : Facade) (f : File) : Bool :=
  decide (fa.expire_s ≥ 0 ∧ f.load_time_s + fa.expire_s < fa.now)

/-- The vector `removes` of `FileManager::gc()` before its last loop: the expired
entries, then the entries ranked beyond the capacity.  `sort` stands for
`std::sort(candis.begin(), candis.end(), compare_cache_priority)`; the table is walked
in its stored order. -/
def FileManager.gcRemoves (sort : List File → List File) (fa : Facade) (table : FileTable) :
    List File :=
  let removes1 := (table.map Prod.snd).filter (File.expired fa)
  let candis := (table.map Prod.snd).filter (fun f => !File.expired fa f)
  let removes2 : List File :=
    if fa.cache_capacity ≥ 0 ∧ candis.length > fa.cache_capacity.toNat then
      (sort candis).drop fa.cache_capacity.toNat
    else []
  removes1 ++ removes2

/-- `FileManager::gc()`: expired entries and, beyond the capacity, the entries of lowest
priority are removed unless held elsewhere. -/
def FileManager.gcWith (sort : List File → List File) (fa : Facade) (table : FileTable) :
    FileTable :=
  (FileManager.gcRemoves sort fa table).foldl
    (fun t f => if fa.holders f.name + 2 > 2 then t else t.filter (fun kv => kv.1 != f.name))
    table

/-- `FileManager::gc()` with a sort that keeps the order of entries of equal priority
(`std::sort` may order them in any way). -/
def FileManager.gc (fa : Facade) (table : FileTable) : FileTable :=
  FileManager.gcWith
    (fun l => l.insertionSort (fun a b => FileManager.compare_cache_priority a b = true))
    fa table

/-- The `File` that `new File(bosfs_util, name)` constructs at time `now`. -/
def File.construct (name : String) (now : Int) : File :=
  File.hit
    { name := name, is_dir_obj := false, is_prefix := false, meta := ObjectMetaData.clear,
      load_time_s := now, hit_time_s := 0, hit_bit := 0 } now

/-- The number of set bits among the lowest `k` bits of `bits`. -/
def bitCount (k bits : Nat) : Nat :=
  ((List.range k).filter (fun i => bits.testBit i)).length

/-- What a `File` records of the hits at the times `ts`, the last of them at `H` (or
none yet and `H = 0`). -/
def HitInv (f : File) (ts : List Nat) (H : Nat) : Prop :=
  f.hit_time_s = (H : Int) ∧ f.hit_bit < 2 ^ 64 ∧ (∀ t ∈ ts, t ≤ H) ∧
  ∀ i, f.hit_bit.testBit i = true ↔ ∃ t ∈ ts, t % 64 = i ∧ H < t + 64

/-- `FileManager::get(name, file)`: the entry handed out or the error status, and the
table afterwards. -/
def FileManager.get (fa : Facade) (table : FileTable) (name : String) :
    Except Int File × FileTable :=
  let t := FileManager.try_get fa.expire_s fa.now (fa.holders name + 1) table name
  match t.2.1 with
  | some file => (.ok file, t.2.2)
  | none =>
    let h := fa.head_object name
    if h.1 ≠ 0 then
      (.error (if h.1 = BOSFS_OBJECT_NOT_EXIST then - ENOENT else - EIO), t.2.2)
    else
      let file : File :=
        { File.construct name fa.now with
          meta := h.2.1, is_dir_obj := h.2.2.1, is_prefix := h.2.2.2, load_time_s := fa.now }
      let out : File × FileTable :=
        match t.2.2.find? (fun kv => kv.1 == name) with
        | some kv => (kv.2, t.2.2)
        | none => (file, t.2.2 ++ [(name, file)])
      if fa.cache_capacity > 0 ∧ (out.2.length : Int) > fa.cache_capacity then
        (.ok out.1, FileManager.gc fa out.2)
      else (.ok out.1, out.2)

/-- `BosfsUtil::get_object_attribute(path, pstbuf, pmeta)` with both pointers given: the
status, the attributes, the metadata, and the attribute cache afterwards. -/
def get_object_attribute (fa : Facade) (table : FileTable) (path : String) :
    Int × Stat × ObjectMetaData × FileTable :=
  let pst := init_default_stat fa.options
  if path = "/" ∨ path = "." then
    (0, { pst with st_size := ST_BLKSIZE, st_blocks := ST_MINBLOCKS }, ObjectMetaData.clear,
      table)
  else
    let g := FileManager.get fa table path
    match g.1 with
    | .error ret => (ret, pst, ObjectMetaData.clear, g.2)
    | .ok file => (0, File.stat fa.options file, file.meta, g.2)

/-- `BosfsUtil::check_object_access(path, mask, pstbuf)` with its attribute lookup: the
status and the attribute cache afterwards. -/
def check_object_access_at (fa : Facade) (table : FileTable) (path : String) (mask : Nat) :
    Int × FileTable :=
  match fa.pctx with
  | none => (- EIO, table)
  | some _ =>
    let a := get_object_attribute fa table path
    (check_object_access fa.options fa.pctx (a.1, a.2.1) fa.is_uid_in_group mask, a.2.2.2)

/-- `std::string::rfind(c)`. -/
def str_rfind (s : List Char) (c : Char) : Option Nat :=
  match (s.reverse.takeWhile (fun x => x != c)).length with
  | n => if n < s.length then some (s.length - 1 - n) else none

/-- The loop of `BosfsUtil::check_path_accessible`, `parent` cut at `pos` in each round.
A path begins with `/`, so `rfind` always finds a position; `fuel` is the length of the
path. -/
def checkPathLoop (fa : Facade) : Nat → FileTable → List Char → Option Nat → Int × FileTable
  | 0, table, _, _ => (0, table)
  | fuel + 1, table, parent, pos =>
    match pos with
    | none => (0, table)
    | some 0 => (0, table)
    | some (p + 1) =>
      let parent1 := parent.take (p + 1)
      let r := check_object_access_at fa table (String.mk parent1) X_OK
      if r.1 ≠ 0 then r
      else checkPathLoop fa fuel r.2 parent1 (str_rfind parent1 '/')

/-- `BosfsUtil::check_path_accessible(path)`. -/
def check_path_accessible (fa : Facade) (table : FileTable) (path : String) : Int × FileTable :=
  checkPathLoop fa path.length table path.toList (str_rfind path.toList '/')

/-- `BosfsUtil::check_object_owner(path, pstbuf)`: the status, the attributes, and the
attribute cache afterwards. -/
def check_object_owner (fa : Facade) (table : FileTable) (path : String) :
    Int × Stat × FileTable :=
  match fa.pctx with
  | none => (- EIO, init_default_stat fa.options, table)
  | some ctx =>
    let a := get_object_attribute fa table path
    if a.1 ≠ 0 then (a.1, a.2.1, a.2.2.2)
    else if ctx.uid = 0 then (0, a.2.1, a.2.2.2)
    else if fa.options.is_bosfs_uid ∧ fa.options.bosfs_uid = ctx.uid then (0, a.2.1, a.2.2.2)
    else if ctx.uid = a.2.1.st_uid then (0, a.2.1, a.2.2.2)
    else (- EPERM, a.2.1, a.2.2.2)

/-- The retry loop of `change_object_meta`: attempts `i`, `i + 1`, ... while `n` are
left; the result is whether one succeeded and how many copies were sent. -/
def retryCopy (fa : Facade) (object : String) (meta : ObjectMetaData) : Nat → Nat → Bool × Nat
  | 0, _ => (false, 0)
  | n + 1, i =>
    if fa.copy_object_meta object meta i = CopyResult.ok then (true, 1)
    else ((retryCopy fa object meta n (i + 1)).1, (retryCopy fa object meta n (i + 1)).2 + 1)

/-- `BosfsUtil::change_object_meta(object, meta)`: the status and the copies sent. -/
def change_object_meta (fa : Facade) (object : String) (meta : ObjectMetaData) :
    Int × List Event :=
  match fa.copy_object_meta object meta 0 with
  | CopyResult.key_not_exist =>
    let r := retryCopy fa object meta 5 1
    ((if r.1 then 0 else - ENOENT), List.replicate (r.2 + 1) (Event.copy_object object object))
  | CopyResult.failed _ => (- EIO, [Event.copy_object object object])
  | CopyResult.ok => (0, [Event.copy_object object object])

/-- `DataCacheEntity::set_mode(mode)`. -/
def DataCacheEntity.set_mode (e : DataCacheEntity) (mode : Nat) : DataCacheEntity :=
  { e with origin_meta := e.origin_meta.set_user_meta "bosfs-mode" (DataCacheEntity.intText mode) }

/-- The state of the file system process: the registry of cache entities, and the calls
made so far together with the attribute cache. -/
structure Fs where
  dc : DataCache
  w : World

/-- `BosfsImpl::chmod(path, mode, fi)` with `fi == nullptr`; `path` is the real path. -/
def chmod (fa : Facade) (s : Fs) (path : String) (mode : Nat) : Int × Fs :=
  if path = "/" then (0, s)
  else
    let r1 := check_path_accessible fa s.w.table path
    if r1.1 ≠ 0 then (r1.1, { s with w := { s.w with table := r1.2 } })
    else
      let r2 := check_object_owner fa r1.2 path
      if r2.1 ≠ 0 then (r2.1, { s with w := { s.w with table := r2.2.2 } })
      else
        let r3 := get_object_attribute fa r2.2.2 path
        if r3.1 ≠ 0 then (r3.1, { s with w := { s.w with table := r3.2.2.2 } })
        else
          let object_name : String :=
            if S_ISDIR r3.2.1.st_mode then path.drop 1 ++ "/" else path.drop 1
          let meta := r3.2.2.1.set_user_meta "bosfs-mode" (DataCacheEntity.intText mode)
          let c := change_object_meta fa object_name meta
          let w1 : World := { trace := s.w.trace ++ c.2, table := r3.2.2.2 }
          if c.1 ≠ 0 then
            if c.1 = - ENOENT then
              let o := DataCache.exist_open fa.env s.dc w1 path
              match o.1 with
              | some ent =>
                let dc1 : DataCache :=
                  match o.2.1.deref ent with
                  | some e =>
                    { o.2.1 with data_cache := DataCache.store o.2.1.data_cache ent (e.set_mode mode) }
                  | none => o.2.1
                let cl := DataCache.close_cache fa.env dc1 o.2.2 ent
                (0, { dc := cl.2.1, w := cl.2.2 })
              | none => (c.1, { dc := o.2.1, w := o.2.2 })
            else (c.1, { s with w := w1 })
          else (0, { s with w := { w1 with table := FileManager.del w1.table path } })

/-- `BosfsImpl::getattr(path, stbuf, fi)` with `fi == nullptr` and a buffer given; `path`
is the real path. -/
def getattr (fa : Facade) (s : Fs) (path : String) : Int × Stat × Fs :=
  let r1 := check_path_accessible fa s.w.table path
  if r1.1 ≠ 0 then (r1.1, init_default_stat fa.options, { s with w := { s.w with table := r1.2 } })
  else
    let r2 := get_object_attribute fa r1.2 path
    let w1 : World := { s.w with table := r2.2.2.2 }
    if r2.1 ≠ 0 then (r2.1, r2.2.1, { s with w := w1 })
    else if !S_ISREG r2.2.1.st_mode then (0, r2.2.1, { s with w := w1 })
    else
      let o := DataCache.exist_open fa.env s.dc w1 path
      match o.1 with
      | some ent =>
        let stbuf : Stat :=
          match (o.2.1.deref ent).bind (fun e => if e.fd = -1 then none else fa.fstat e.fd) with
          | some tmp =>
            { r2.2.1 with
              st_size := tmp.st_size, st_blksize := tmp.st_blksize, st_blocks := tmp.st_blocks,
              st_atime := tmp.st_atime, st_mtime := tmp.st_mtime }
          | none => r2.2.1
        let cl := DataCache.close_cache fa.env o.2.1 o.2.2 ent
        (0, stbuf, { dc := cl.2.1, w := cl.2.2 })
      | none => (0, r2.2.1, { dc := o.2.1, w := o.2.2 })

/-- A facade for a caller with uid and gid 1000: attribute cache without expiry and
without capacity, an object store that holds no object (every `HEAD` answers "not
found", every copy `RET_KEY_NOT_EXIST`), and local files of three bytes. -/
def Facade.sample : Facade :=
  { env := Env.allOk (2 ^ 40), options := BosfsOptions.sample, pctx := some ⟨1000, 1000⟩,
    now := 100, expire_s := -1, cache_capacity := -1, holders := fun _ => 0,
    head_object := fun _ => (BOSFS_OBJECT_NOT_EXIST, ObjectMetaData.clear, false, false),
    is_uid_in_group := fun _ _ => 0,
    copy_object_meta := fun _ _ _ => CopyResult.key_not_exist,
    fstat := fun _ =>
      some { init_default_stat BosfsOptions.sample with
             st_size := 3, st_blocks := 8, st_atime := 90, st_mtime := 90 } }

/-- The state after `create("/f", 0100644)` and a write of three bytes, nothing flushed
yet: the attribute cache holds `/f` with mode `0100644` (decimal 33188), and the
registry holds the open, modified entity of `/f`. -/
def Fs.sample : Fs :=
  { dc :=
      { data_cache := [("/f", DataCacheEntity.sample [⟨0, 3, true⟩] [1, 2, 3] true 0)],
        next_addr := 2 },
    w :=
      { trace := [],
        table := [("/f", File.sample "/f" false false "text/plain" 0
                    [("bosfs-uid", "1000"), ("bosfs-gid", "1000"), ("bosfs-mode", "33188")])] } }

/-! ## Renaming a directory (bosfs_util.cpp) -/

/-- The status codes of the SDK that `rename_directory` compares a result with; the SDK
headers set their values. -/
structure SdkCodes where
  RET_KEY_NOT_EXIST : Int
  RET_SERVICE_ERROR : Int

/-- `ret_code_t` of util.h: the third enumerator after `BOSFS_BOS_CLIENT_UNINITIALIZED =
1000`. -/
def BOSFS_BOS_SERVICE_ERROR : Int := 1002

/-- The first lines of `rename_directory`: the key with a slash at its end.
`last_of_empty` is what `*s.rbegin()` reads when the string is empty. -/
def dir_key (last_of_empty : Char) (s : String) : String :=
  if s.toList.getLast?.getD last_of_empty = '/' then s else s ++ "/"

/-- The key a listed item is copied to:
`dst_prefix + items[i].substr(prefix.length(), items[i].length() - prefix.length())`,
for an item that is not shorter than the source key `pfx` (the `prefix` of the source). -/
def dst_object (pfx dst_pfx item : String) : String :=
  dst_pfx ++ String.mk (item.toList.drop pfx.length)

/-- The copy loop of `rename_directory` over the items still to copy: the destination
keys pushed to `dst_items` and the state afterwards; `none` when `substr` throws because
an item is shorter than the source key. -/
def copyLoop (client : BosClient) (codes : SdkCodes) (pfx dst_pfx : String) :
    List String → List String → World → Option (List String × World)
  | [], dst_items, w => some (dst_items, w)
  | item :: items, dst_items, w =>
    if pfx.length ≤ item.length then
      let ret := client.copy_object item (dst_object pfx dst_pfx item)
      let w1 : World :=
        { w with trace := w.trace ++ [Event.copy_object item (dst_object pfx dst_pfx item)] }
      if ret ≠ 0 ∧ ret ≠ codes.RET_KEY_NOT_EXIST then some (dst_items, w1)
      else
        copyLoop client codes pfx dst_pfx items (dst_items ++ [dst_object pfx dst_pfx item])
          { w1 with table := FileManager.del w1.table ("/" ++ dst_object pfx dst_pfx item) }
    else none

/-- The two loops at the end of `rename_directory`: `delete_object(key)` and
`_file_manager->del("/" + key)` for every key, in order. -/
def deleteLoop (keys : List String) (w : World) : World :=
  keys.foldl
    (fun w key =>
      { trace := w.trace ++ [Event.delete_object key],
        table := FileManager.del w.table ("/" ++ key) })
    w

/-- `BosfsUtil::rename_directory(src, dst)`: the status and the state afterwards, `none`
when `substr` throws.  `list_objects pfx` is the status and the items of
`list_objects(prefix, -1, marker, NULL, &items)`. -/
def rename_directory (env : Env) (client : BosClient) (codes : SdkCodes)
    (list_objects : String → Int × List String) (last_of_empty : Char) (w : World)
    (src dst : String) : Option (Int × World) :=
  let pfx := dir_key last_of_empty src
  let dst_pfx := dir_key last_of_empty dst
  let listed := list_objects pfx
  if listed.1 ≠ 0 then some (listed.1, w)
  else
    match copyLoop client codes pfx dst_pfx listed.2 [] w with
    | none => none
    | some (dst_items, w1) =>
      let r : Int × World :=
        if dst_items.length ≠ listed.2.length then (codes.RET_SERVICE_ERROR, w1)
        else rename_file env client w1 pfx dst_pfx 0
      if r.1 ≠ 0 ∧ r.1 ≠ codes.RET_KEY_NOT_EXIST then
        some (BOSFS_BOS_SERVICE_ERROR, deleteLoop dst_items r.2)
      else some (0, deleteLoop listed.2 r.2)

/-! ## What `load` does, range by range -/

/-- The range `[offset, next)` of a page holds the byte position `pos`. -/
def ObjectPage.covers (p : ObjectPage) (pos : Nat) : Prop := p.offset ≤ pos ∧ pos < p.next

instance ObjectPage.covers.decide (p : ObjectPage) (pos : Nat) : Decidable (p.covers pos) :=
  inferInstanceAs (Decidable (p.offset ≤ pos ∧ pos < p.next))

/-- The byte a read of the local file finds at `pos`; a position at or after the end of
the file has no byte and counts as 0. -/
def byteAt (file : List Byte) (pos : Nat) : Byte := file.getD pos 0

/-- The ranges `out` are runs of unloaded bytes (as recorded by `st`) inside the window
`[start, next)`: none is empty, they are in ascending order and neither overlap nor
abut, all end at or before `o`, and together they hold every unloaded byte of the
window that lies before `o`. -/
def ObjectPageList.UnloadedRuns (st : Nat → Option Bool) (start next : Nat)
    (out : List ObjectPage) (o : Nat) : Prop :=
  (∀ p ∈ out, p.loaded = false ∧ 0 < p.bytes ∧ start ≤ p.offset ∧ p.next ≤ next ∧ p.next ≤ o ∧
    ∀ pos, p.covers pos → st pos = some false) ∧
  out.Pairwise (fun p q => p.next < q.offset) ∧
  (∀ pos, start ≤ pos → pos < next → pos < o → st pos = some false →
    ∃ p ∈ out, p.covers pos)

/-- The page list after the marking steps of `load` for the ranges `pages`. -/
def DataCacheEntity.markLoaded (l : PageList) (pages : List ObjectPage) : PageList :=
  pages.foldl (fun l p => ObjectPageList.set_page_loaded_status l p.offset p.bytes true true) l

/-- The local file after the writing steps of `load` for one range: the downloaded bytes
of the part inside the original object, then zeros for the part `over_size` beyond it. -/
def DataCacheEntity.loadWrite (env : Env) (origin_meta_size : Nat) (file : List Byte)
    (page : ObjectPage) : List Byte :=
  let need := DataCacheEntity.need_load_size origin_meta_size page
  let over := DataCacheEntity.over_size origin_meta_size page
  let f1 : List Byte :=
    if 0 < need then pwrite_file file (env.parallel_download page.offset need).2 page.offset
    else file
  if 0 < over then pwrite_file f1 (List.replicate over 0) (page.offset + need) else f1

/-- The local file after the writing steps of `load` for the ranges `pages`. -/
def DataCacheEntity.loadWrites (env : Env) (origin_meta_size : Nat) (file : List Byte)
    (pages : List ObjectPage) : List Byte :=
  pages.foldl (DataCacheEntity.loadWrite env origin_meta_size) file

/-- The download requests of `load` for the ranges `pages`: one for each range that has
a part inside the original object. -/
def DataCacheEntity.loadRequests (path : String) (origin_meta_size : Nat)
    (pages : List ObjectPage) : List Event :=
  (pages.filter (fun p => decide (0 < DataCacheEntity.need_load_size origin_meta_size p))).map
    (fun p => Event.parallel_download path p.offset
      (DataCacheEntity.need_load_size origin_meta_size p))

namespace ObjectPageList

theorem get_size_nil : get_size [] = 0 := rfl

theorem get_size_singleton (p : ObjectPage) : get_size [p] = p.next := rfl

theorem get_size_cons_cons (p q : ObjectPage) (ps : List ObjectPage) :
    get_size (p :: q :: ps) = get_size (q :: ps) := by
  simp [get_size, List.getLast?]

theorem sumBytes_cons (p : ObjectPage) (ps : List ObjectPage) :
    sumBytes (p :: ps) = p.bytes + sumBytes ps := by
  simp [sumBytes]

theorem sumBytes_append (l r : List ObjectPage) :
    sumBytes (l ++ r) = sumBytes l + sumBytes r := by
  simp [sumBytes]

/-- On a contiguous non-empty list `get_size` is the start plus the total length. -/
theorem get_size_of_contig : ∀ (l : List ObjectPage) (o : Nat), Contig o l → l ≠ [] →
    get_size l = o + sumBytes l
  | [], _, _, h => absurd rfl h
  | [p], o, hc, _ => by
    simp [get_size_singleton, sumBytes, ObjectPage.next, hc.1.symm]
  | p :: q :: ps, o, hc, _ => by
    rw [get_size_cons_cons, get_size_of_contig (q :: ps) p.next hc.2 (by simp),
      sumBytes_cons p, ← hc.1, ObjectPage.next]
    omega

theorem get_size_eq_sum (l : List ObjectPage) (hc : Contig 0 l) :
    get_size l = sumBytes l := by
  cases l with
  | nil => rfl
  | cons p ps => simpa using get_size_of_contig (p :: ps) 0 hc (by simp)

theorem contig_append : ∀ (l : List ObjectPage) (o : Nat) (q : ObjectPage), Contig o l →
    q.offset = o + sumBytes l → Contig o (l ++ [q])
  | [], o, q, _, hq => by simpa [Contig, sumBytes] using hq
  | p :: ps, o, q, hc, hq => by
    refine ⟨hc.1, contig_append ps p.next q hc.2 ?_⟩
    rw [hq, sumBytes_cons, ObjectPage.next, hc.1]; omega

theorem compressAux_spec : ∀ (ps : List ObjectPage) (prev : ObjectPage),
    Contig prev.next ps →
    Contig prev.offset (compressAux prev ps) ∧
    sumBytes (compressAux prev ps) = prev.bytes + sumBytes ps ∧
    Alternating (compressAux prev ps) ∧
    (∃ q qs, compressAux prev ps = q :: qs ∧ q.loaded = prev.loaded) ∧
    (0 < prev.bytes → Pos ps → Pos (compressAux prev ps))
  | [], prev, _ => by
    refine ⟨⟨rfl, trivial⟩, by simp [compressAux, sumBytes], ?_, ⟨prev, [], rfl, rfl⟩, ?_⟩
    · exact trivial
    · intro h _ q hq
      simp [compressAux] at hq
      subst hq; exact h
  | p :: ps, prev, hc => by
    by_cases hl : prev.loaded = p.loaded
    · have hn : (prev.set_bytes (prev.bytes + p.bytes)).next = p.next := by
        have := hc.1
        simp only [ObjectPage.next, ObjectPage.set_bytes] at this ⊢
        omega
      obtain ⟨h1, h2, h3, ⟨q, qs, h4, h5⟩, h6⟩ :=
        compressAux_spec ps (prev.set_bytes (prev.bytes + p.bytes)) (hn ▸ hc.2)
      simp only [compressAux, hl, if_true]
      rw [← hl]
      refine ⟨h1, ?_, h3, ⟨q, qs, h4, h5⟩, ?_⟩
      · rw [h2, sumBytes_cons]; simp [ObjectPage.set_bytes]; omega
      · intro hp hps
        refine h6 ?_ (fun x hx => hps x (List.mem_cons_of_mem _ hx))
        simp [ObjectPage.set_bytes]; omega
    · obtain ⟨h1, h2, h3, ⟨q, qs, h4, h5⟩, h6⟩ := compressAux_spec ps p hc.2
      simp only [compressAux, hl, if_false]
      refine ⟨⟨rfl, hc.1 ▸ h1⟩, ?_, ?_, ⟨prev, _, rfl, rfl⟩, ?_⟩
      · rw [sumBytes_cons, h2, sumBytes_cons]
      · rw [h4] at h3 ⊢
        exact ⟨by rw [h5]; exact hl, h3⟩
      · intro hp hps x hx
        rcases List.mem_cons.1 hx with rfl | hx
        · exact hp
        · exact h6 (hps p (List.mem_cons_self _ _))
            (fun y hy => hps y (List.mem_cons_of_mem _ hy)) x hx

theorem compress_contig (l : List ObjectPage) (o : Nat) (hc : Contig o l) :
    Contig o (compress l) := by
  cases l with
  | nil => trivial
  | cons p ps => exact hc.1 ▸ (compressAux_spec ps p hc.2).1

theorem compress_sum (l : List ObjectPage) (o : Nat) (hc : Contig o l) :
    sumBytes (compress l) = sumBytes l := by
  cases l with
  | nil => rfl
  | cons p ps => rw [compress, (compressAux_spec ps p hc.2).2.1, sumBytes_cons]

theorem compress_alternating (l : List ObjectPage) (o : Nat) (hc : Contig o l) :
    Alternating (compress l) := by
  cases l with
  | nil => exact trivial
  | cons p ps => exact (compressAux_spec ps p hc.2).2.2.1

theorem compress_pos (l : List ObjectPage) (o : Nat) (hc : Contig o l) (hp : Pos l) :
    Pos (compress l) := by
  cases l with
  | nil => exact hp
  | cons p ps =>
    exact (compressAux_spec ps p hc.2).2.2.2.2 (hp p (List.mem_cons_self _ _))
      (fun y hy => hp y (List.mem_cons_of_mem _ hy))

/-- Compression turns a contiguous list without empty ranges (or with one range
only) into a well-formed list. -/
theorem compress_wellFormed (l : List ObjectPage) (hc : Contig 0 l)
    (hp : Pos l ∨ l.length = 1) : WellFormed (compress l) := by
  refine ⟨compress_contig l 0 hc, compress_alternating l 0 hc, ?_⟩
  rcases hp with hp | h1
  · exact Or.inl (compress_pos l 0 hc hp)
  · right
    match l, h1 with
    | [p], _ => rfl

/-- A coalesced list is a fixed point of `compress`. -/
theorem compressAux_of_alternating : ∀ (ps : List ObjectPage) (prev : ObjectPage),
    Alternating (prev :: ps) → compressAux prev ps = prev :: ps
  | [], _, _ => rfl
  | p :: ps, prev, h => by
    have h1 : prev.loaded ≠ p.loaded := h.1
    simp only [compressAux, h1, if_false]
    rw [compressAux_of_alternating ps p h.2]

theorem compress_of_alternating (l : List ObjectPage) (h : Alternating l) :
    compress l = l := by
  cases l with
  | nil => rfl
  | cons p ps => exact compressAux_of_alternating ps p h

theorem init_contig (size : Nat) (loaded : Bool) : Contig 0 (init size loaded) :=
  ⟨rfl, trivial⟩

theorem init_wellFormed (size : Nat) (loaded : Bool) : WellFormed (init size loaded) :=
  ⟨init_contig size loaded, trivial, Or.inr rfl⟩

/-- The shrinking loop keeps the list contiguous and free of empty ranges, and cuts
its total length down to `size`. -/
theorem resizeShrink_spec (size : Nat) : ∀ (l : List ObjectPage) (o : Nat),
    Contig o l → Pos l → o ≤ size →
    Contig o (resizeShrink size l) ∧ Pos (resizeShrink size l) ∧
    o + sumBytes (resizeShrink size l) = min size (o + sumBytes l)
  | [], o, _, _, ho => by
    refine ⟨trivial, by simp [resizeShrink, Pos], ?_⟩
    simp [resizeShrink, sumBytes]; omega
  | p :: ps, o, hc, hp, ho => by
    have hpp := hp p (List.mem_cons_self _ _)
    have hps : Pos ps := fun y hy => hp y (List.mem_cons_of_mem _ hy)
    have hoff := hc.1
    by_cases h1 : p.next ≤ size
    · obtain ⟨a, b, c⟩ := resizeShrink_spec size ps p.next hc.2 hps h1
      simp only [resizeShrink, h1, if_true]
      refine ⟨⟨hoff, a⟩, ?_, ?_⟩
      · intro x hx
        rcases List.mem_cons.1 hx with rfl | hx
        · exact hpp
        · exact b x hx
      · rw [sumBytes_cons, sumBytes_cons]
        simp only [ObjectPage.next] at c h1 ⊢
        omega
    · -- every later page starts at or after `size`, so all of them are erased
      have hrest : ∀ (qs : List ObjectPage) (o2 : Nat), Contig o2 qs → size ≤ o2 →
          Pos qs → resizeShrink size qs = [] := by
        intro qs
        induction qs with
        | nil => intros; rfl
        | cons q qs ih =>
          intro o2 hq ho2 hpq
          have hq0 := hpq q (List.mem_cons_self _ _)
          have : ¬ q.next ≤ size := by simp only [ObjectPage.next]; have := hq.1; omega
          have h3 : size ≤ q.offset := by have := hq.1; omega
          simp only [resizeShrink, this, if_false, h3, if_true]
          exact ih q.next hq.2 (by simp only [ObjectPage.next]; omega)
            (fun y hy => hpq y (List.mem_cons_of_mem _ hy))
      have hnil := hrest ps p.next hc.2 (by omega) hps
      simp only [ObjectPage.next] at h1
      by_cases h2 : size ≤ p.offset
      · simp only [resizeShrink, ObjectPage.next, h1, if_false, h2, if_true, hnil]
        refine ⟨trivial, by simp [Pos], ?_⟩
        simp [sumBytes]; omega
      · simp only [resizeShrink, ObjectPage.next, h1, if_false, h2, hnil]
        refine ⟨⟨hoff, trivial⟩, ?_, ?_⟩
        · intro x hx
          simp only [List.mem_singleton] at hx
          subst hx
          simp only [ObjectPage.set_bytes]; omega
        · simp only [sumBytes_cons, ObjectPage.set_bytes] at h1 ⊢
          simp [sumBytes]; omega

theorem pos_of_size_ne_zero (l : PageList) (h : WellFormed l) (hs : get_size l ≠ 0) :
    Pos l := by
  rcases h.2.2 with hp | h1
  · exact hp
  · match l, h1, h.1, hs with
    | [p], _, hc, hs =>
      intro x hx
      simp only [List.mem_singleton] at hx
      subst hx
      have := hc.1
      simp only [get_size_singleton, ObjectPage.next] at hs
      omega

theorem resize_pre (l : PageList) (size : Nat) (loaded : Bool) (h : WellFormed l) :
    let pre := (if get_size l = 0 then init size loaded
      else if get_size l < size then l ++ [⟨get_size l, size - get_size l, loaded⟩]
      else if size < get_size l then resizeShrink size l
      else l)
    Contig 0 pre ∧ (Pos pre ∨ pre.length = 1) ∧ sumBytes pre = size := by
  intro pre
  have hsz := get_size_eq_sum l h.1
  by_cases h0 : get_size l = 0
  · simp only [pre, h0, if_true]
    exact ⟨init_contig _ _, Or.inr rfl, by simp [init, sumBytes]⟩
  · have hp := pos_of_size_ne_zero l h h0
    by_cases h1 : get_size l < size
    · simp only [pre, h0, if_false, h1, if_true]
      refine ⟨contig_append l 0 _ h.1 (by simp [hsz]), Or.inl ?_, ?_⟩
      · intro x hx
        rcases List.mem_append.1 hx with hx | hx
        · exact hp x hx
        · simp only [List.mem_singleton] at hx
          subst hx
          show 0 < size - get_size l
          omega
      · rw [sumBytes_append]; simp [sumBytes] at hsz ⊢; omega
    · by_cases h2 : size < get_size l
      · simp only [pre, h0, if_false, h1, h2, if_true]
        obtain ⟨a, b, c⟩ := resizeShrink_spec size l 0 h.1 hp (Nat.zero_le _)
        exact ⟨a, Or.inl b, by omega⟩
      · simp only [pre, h0, if_false, h1, h2]
        exact ⟨h.1, Or.inl hp, by omega⟩

theorem resize_wellFormed (l : PageList) (size : Nat) (loaded : Bool) (h : WellFormed l) :
    WellFormed (resize l size loaded) := by
  obtain ⟨a, b, _⟩ := resize_pre l size loaded h
  exact compress_wellFormed _ a b

theorem resize_size (l : PageList) (size : Nat) (loaded : Bool) (h : WellFormed l) :
    get_size (resize l size loaded) = size := by
  obtain ⟨a, _, c⟩ := resize_pre l size loaded h
  rw [get_size_eq_sum _ (resize_wellFormed l size loaded h).1]
  unfold resize
  rw [compress_sum _ 0 a]
  exact c

theorem contig_offset_ge : ∀ (l : List ObjectPage) (o : Nat), Contig o l →
    ∀ q ∈ l, o ≤ q.offset
  | [], _, _, _, hq => by simp at hq
  | p :: ps, o, hc, q, hq => by
    rcases List.mem_cons.1 hq with rfl | hq
    · exact hc.1.ge
    · have := contig_offset_ge ps p.next hc.2 q hq
      have := hc.1
      simp only [ObjectPage.next] at *
      omega

theorem parse_spec (n : Nat) : ∀ (l : List ObjectPage) (o : Nat), Contig o l → Pos l →
    Contig o (parse n l) ∧ Pos (parse n l) ∧ sumBytes (parse n l) = sumBytes l ∧
      Boundary n (parse n l)
  | [], _, _, _ => by
    refine ⟨trivial, ?_, rfl, ?_⟩ <;> simp [parse, Pos, Boundary]
  | p :: ps, o, hc, hp => by
    have hpp := hp p (List.mem_cons_self _ _)
    have hps : Pos ps := fun y hy => hp y (List.mem_cons_of_mem _ hy)
    have hge := contig_offset_ge ps p.next hc.2
    by_cases h1 : n = p.offset
    · rw [show parse n (p :: ps) = p :: ps by simp [parse, h1]]
      refine ⟨hc, hp, rfl, ?_⟩
      intro q hq
      rcases List.mem_cons.1 hq with rfl | hq
      · exact Or.inr h1.le
      · have := hge q hq
        simp only [ObjectPage.next] at this
        right; omega
    · by_cases h2 : p.offset < n ∧ n < p.next
      · simp only [parse, h1, if_false, h2, and_self, if_true]
        have h3 := h2.2
        simp only [ObjectPage.next] at h3
        have hb : ((p.bytes : Int) - (n : Int) + (p.offset : Int)).toNat
            = p.offset + p.bytes - n := by omega
        rw [hb]
        refine ⟨⟨hc.1, ?_, ?_⟩, ?_, ?_, ?_⟩
        · show n = p.offset + (n - p.offset)
          omega
        · have : (ObjectPage.mk n (p.offset + p.bytes - n) p.loaded).next = p.next := by
            simp only [ObjectPage.next]; omega
          rw [this]; exact hc.2
        · intro q hq
          simp only [List.mem_cons] at hq
          rcases hq with rfl | rfl | hq
          · show 0 < n - p.offset
            omega
          · show 0 < p.offset + p.bytes - n
            omega
          · exact hps q hq
        · simp only [sumBytes_cons]; omega
        · intro q hq
          simp only [List.mem_cons] at hq
          rcases hq with rfl | rfl | hq
          · left; simp only [ObjectPage.next]; omega
          · right; exact le_rfl
          · have := hge q hq
            simp only [ObjectPage.next] at this
            right; omega
      · obtain ⟨a, b, c, d⟩ := parse_spec n ps p.next hc.2 hps
        simp only [parse, h1, if_false, h2]
        refine ⟨⟨hc.1, a⟩, ?_, ?_, ?_⟩
        · intro q hq
          rcases List.mem_cons.1 hq with rfl | hq
          · exact hpp
          · exact b q hq
        · simp only [sumBytes_cons, c]
        · intro q hq
          rcases List.mem_cons.1 hq with rfl | hq
          · simp only [ObjectPage.next] at h2 ⊢
            omega
          · exact d q hq

theorem parse_boundary (n m : Nat) : ∀ (l : List ObjectPage), Boundary n l →
    Boundary n (parse m l)
  | [], _ => by simp [parse, Boundary]
  | p :: ps, hb => by
    have hbp := hb p (List.mem_cons_self _ _)
    have hbs : Boundary n ps := fun y hy => hb y (List.mem_cons_of_mem _ hy)
    by_cases h1 : m = p.offset
    · simpa only [parse, h1, if_true] using hb
    · by_cases h2 : p.offset < m ∧ m < p.next
      · simp only [parse, h1, if_false, h2, and_self, if_true]
        have h3 := h2.2
        simp only [ObjectPage.next] at h3 hbp
        intro q hq
        simp only [List.mem_cons] at hq
        rcases hq with rfl | rfl | hq
        · simp only [ObjectPage.next]; omega
        · simp only [ObjectPage.next]; omega
        · exact hbs q hq
      · simp only [parse, h1, if_false, h2]
        intro q hq
        rcases List.mem_cons.1 hq with rfl | hq
        · exact hbp
        · exact parse_boundary n m ps hbs q hq

theorem markLoop_spec (start size : Nat) (fl : Bool) : ∀ (l : List ObjectPage) (o : Nat),
    Contig o l → Pos l →
    Contig o (markLoop start size fl l) ∧ Pos (markLoop start size fl l) ∧
      sumBytes (markLoop start size fl l) = sumBytes l
  | [], _, _, _ => by
    refine ⟨trivial, ?_, rfl⟩; simp [markLoop, Pos]
  | p :: ps, o, hc, hp => by
    have hpp := hp p (List.mem_cons_self _ _)
    have hps : Pos ps := fun y hy => hp y (List.mem_cons_of_mem _ hy)
    obtain ⟨a, b, c⟩ := markLoop_spec start size fl ps p.next hc.2 hps
    have hcons : ∀ (p2 : ObjectPage), p2.offset = p.offset → p2.bytes = p.bytes →
        Contig o (p2 :: markLoop start size fl ps) ∧ Pos (p2 :: markLoop start size fl ps) ∧
        sumBytes (p2 :: markLoop start size fl ps) = sumBytes (p :: ps) := by
      intro p2 e1 e2
      refine ⟨⟨e1.trans hc.1, ?_⟩, ?_, ?_⟩
      · have : p2.next = p.next := by simp only [ObjectPage.next, e1, e2]
        rw [this]; exact a
      · intro q hq
        rcases List.mem_cons.1 hq with rfl | hq
        · rw [e2]; exact hpp
        · exact b q hq
      · simp only [sumBytes_cons, c, e2]
    by_cases h1 : p.end_ < start
    · simp only [markLoop, h1, if_true]
      exact hcons p rfl rfl
    · by_cases h2 : start + size ≤ p.offset
      · rw [show markLoop start size fl (p :: ps) = p :: ps by simp [markLoop, h1, h2]]
        exact ⟨hc, hp, rfl⟩
      · simp only [markLoop, h1, if_false, h2]
        exact hcons _ rfl rfl

/-! ### What the operations do to the recorded state of a byte position -/

theorem loadedAt_none_of_lt : ∀ (l : List ObjectPage) (o pos : Nat), Contig o l →
    pos < o → loadedAt l pos = none
  | [], _, _, _, _ => rfl
  | p :: ps, o, pos, hc, h => by
    have h0 : p.offset = o := hc.1
    have h1 : ¬ (p.offset ≤ pos ∧ pos < p.next) := by omega
    simp only [loadedAt, h1, if_false]
    exact loadedAt_none_of_lt ps p.next pos hc.2 (by simp only [ObjectPage.next]; omega)

theorem loadedAt_none_of_ge : ∀ (l : List ObjectPage) (o pos : Nat), Contig o l →
    o + sumBytes l ≤ pos → loadedAt l pos = none
  | [], _, _, _, _ => rfl
  | p :: ps, o, pos, hc, h => by
    rw [sumBytes_cons] at h
    have h1 : ¬ (p.offset ≤ pos ∧ pos < p.next) := by
      have := hc.1; simp only [ObjectPage.next]; omega
    simp only [loadedAt, h1, if_false]
    exact loadedAt_none_of_ge ps p.next pos hc.2 (by
      have := hc.1; simp only [ObjectPage.next]; omega)

theorem loadedAt_isSome : ∀ (l : List ObjectPage) (o pos : Nat), Contig o l →
    o ≤ pos → pos < o + sumBytes l → ∃ b, loadedAt l pos = some b
  | [], _, _, _, h1, h2 => by simp [sumBytes] at h2; omega
  | p :: ps, o, pos, hc, h1, h2 => by
    rw [sumBytes_cons] at h2
    by_cases h3 : p.offset ≤ pos ∧ pos < p.next
    · exact ⟨p.loaded, by simp only [loadedAt, h3, and_self, if_true]⟩
    · simp only [loadedAt, h3, if_false]
      have := hc.1
      simp only [ObjectPage.next] at h3
      exact loadedAt_isSome ps p.next pos hc.2 (by simp only [ObjectPage.next]; omega)
        (by simp only [ObjectPage.next]; omega)

theorem loadedAt_append (l : List ObjectPage) (q : ObjectPage) (pos : Nat) :
    loadedAt (l ++ [q]) pos =
      match loadedAt l pos with
      | some b => some b
      | none => if q.offset ≤ pos ∧ pos < q.next then some q.loaded else none := by
  induction l with
  | nil => simp [loadedAt]
  | cons p ps ih =>
    by_cases h : p.offset ≤ pos ∧ pos < p.next
    · simp only [List.cons_append, loadedAt, h, and_self, if_true]
    · simp only [List.cons_append, loadedAt, h, if_false]
      exact ih

theorem loadedAt_compressAux : ∀ (ps : List ObjectPage) (prev : ObjectPage) (pos : Nat),
    Contig prev.next ps → loadedAt (compressAux prev ps) pos = loadedAt (prev :: ps) pos
  | [], _, _, _ => rfl
  | p :: ps, prev, pos, hc => by
    by_cases hl : prev.loaded = p.loaded
    · have hn : (prev.set_bytes (prev.bytes + p.bytes)).next = p.next := by
        have := hc.1
        simp only [ObjectPage.next, ObjectPage.set_bytes] at this ⊢
        omega
      simp only [compressAux, hl, if_true]
      rw [loadedAt_compressAux ps _ pos (hn ▸ hc.2)]
      have h0 : p.offset = prev.next := hc.1
      simp only [loadedAt, ObjectPage.next, ObjectPage.set_bytes, ← hl] at h0 ⊢
      split_ifs <;> first | rfl | (exfalso; omega)
    · simp only [compressAux, hl, if_false]
      simp only [loadedAt, loadedAt_compressAux ps p pos hc.2]

theorem loadedAt_compress (l : List ObjectPage) (o pos : Nat) (hc : Contig o l) :
    loadedAt (compress l) pos = loadedAt l pos := by
  cases l with
  | nil => rfl
  | cons p ps => exact loadedAt_compressAux ps p pos hc.2

theorem resizeShrink_nil (size : Nat) : ∀ (qs : List ObjectPage) (o2 : Nat), Contig o2 qs →
    size ≤ o2 → Pos qs → resizeShrink size qs = []
  | [], _, _, _, _ => rfl
  | q :: qs, o2, hq, ho2, hpq => by
    have hq0 := hpq q (List.mem_cons_self _ _)
    have : ¬ q.next ≤ size := by simp only [ObjectPage.next]; have := hq.1; omega
    have h3 : size ≤ q.offset := by have := hq.1; omega
    simp only [resizeShrink, this, if_false, h3, if_true]
    exact resizeShrink_nil size qs q.next hq.2 (by simp only [ObjectPage.next]; omega)
      (fun y hy => hpq y (List.mem_cons_of_mem _ hy))

theorem loadedAt_resizeShrink (size pos : Nat) : ∀ (l : List ObjectPage) (o : Nat),
    Contig o l → Pos l → o ≤ size →
    loadedAt (resizeShrink size l) pos = if pos < size then loadedAt l pos else none
  | [], _, _, _, _ => by simp [resizeShrink, loadedAt]
  | p :: ps, o, hc, hp, ho => by
    have hpp := hp p (List.mem_cons_self _ _)
    have hps : Pos ps := fun y hy => hp y (List.mem_cons_of_mem _ hy)
    have hoff := hc.1
    by_cases h1 : p.next ≤ size
    · simp only [resizeShrink, h1, if_true, loadedAt,
        loadedAt_resizeShrink size pos ps p.next hc.2 hps h1]
      by_cases a : p.offset ≤ pos ∧ pos < p.next
      · have : pos < size := by omega
        simp only [a, and_self, if_true, this]
      · simp only [a, if_false]
    · have hnil := resizeShrink_nil size ps p.next hc.2 (by omega) hps
      have hrest : pos < p.next → loadedAt ps pos = none :=
        fun h => loadedAt_none_of_lt ps p.next pos hc.2 h
      simp only [ObjectPage.next] at h1 hrest
      by_cases h2 : size ≤ p.offset
      · simp only [resizeShrink, ObjectPage.next, h1, if_false, h2, if_true, hnil, loadedAt]
        by_cases a : pos < size
        · have b : ¬ (p.offset ≤ pos ∧ pos < p.offset + p.bytes) := by omega
          simp only [a, if_true, b, if_false, hrest (by omega)]
        · simp only [a, if_false]
      · simp only [resizeShrink, ObjectPage.next, h1, if_false, h2, hnil, loadedAt,
          ObjectPage.set_bytes]
        by_cases a : pos < size
        · by_cases b : p.offset ≤ pos
          · have c : p.offset ≤ pos ∧ pos < p.offset + (size - p.offset) := by omega
            have d : p.offset ≤ pos ∧ pos < p.offset + p.bytes := by omega
            simp only [a, c, d, and_self, if_true]
          · have c : ¬ (p.offset ≤ pos ∧ pos < p.offset + (size - p.offset)) := by omega
            have d : ¬ (p.offset ≤ pos ∧ pos < p.offset + p.bytes) := by omega
            simp only [a, c, d, if_true, if_false, hrest (by omega)]
        · have c : ¬ (p.offset ≤ pos ∧ pos < p.offset + (size - p.offset)) := by omega
          simp only [a, c, if_false]

theorem loadedAt_parse (n pos : Nat) : ∀ (l : List ObjectPage),
    loadedAt (parse n l) pos = loadedAt l pos
  | [] => rfl
  | p :: ps => by
    by_cases h1 : n = p.offset
    · rw [show parse n (p :: ps) = p :: ps by simp [parse, h1]]
    · by_cases h2 : p.offset < n ∧ n < p.next
      · simp only [parse, h1, if_false, h2, and_self, if_true, loadedAt]
        have h3 := h2.2
        simp only [ObjectPage.next] at h3 ⊢
        have hb : ((p.bytes : Int) - (n : Int) + (p.offset : Int)).toNat
            = p.offset + p.bytes - n := by omega
        rw [hb]
        split_ifs <;> first | rfl | (exfalso; omega)
      · simp only [parse, h1, if_false, h2, loadedAt, loadedAt_parse n pos ps]

theorem loadedAt_markLoop (start size pos : Nat) (fl : Bool) :
    ∀ (l : List ObjectPage) (o : Nat), Contig o l → Pos l → Boundary start l →
    Boundary (start + size) l →
    loadedAt (markLoop start size fl l) pos =
      if start ≤ pos ∧ pos < start + size then (loadedAt l pos).map (fun _ => fl)
      else loadedAt l pos
  | [], _, _, _, _, _ => by simp [markLoop, loadedAt]
  | p :: ps, o, hc, hp, hb1, hb2 => by
    have hpp := hp p (List.mem_cons_self _ _)
    have hps : Pos ps := fun y hy => hp y (List.mem_cons_of_mem _ hy)
    have ih := loadedAt_markLoop start size pos fl ps p.next hc.2 hps
      (fun y hy => hb1 y (List.mem_cons_of_mem _ hy))
      (fun y hy => hb2 y (List.mem_cons_of_mem _ hy))
    have hend : p.end_ = p.offset + p.bytes - 1 := by simp [ObjectPage.end_, hpp]
    have hrest : pos < p.next → loadedAt ps pos = none :=
      fun h => loadedAt_none_of_lt ps p.next pos hc.2 h
    have b1 := hb1 p (List.mem_cons_self _ _)
    have b2 := hb2 p (List.mem_cons_self _ _)
    simp only [ObjectPage.next] at hrest b1 b2
    by_cases h1 : p.end_ < start
    · simp only [markLoop, h1, if_true, loadedAt, ih, ObjectPage.next]
      rw [hend] at h1
      by_cases a : p.offset ≤ pos ∧ pos < p.offset + p.bytes
      · have c : ¬ (start ≤ pos ∧ pos < start + size) := by omega
        simp only [a, c, and_self, if_true, if_false]
      · simp only [a, if_false]
    · rw [hend] at h1
      by_cases h2 : start + size ≤ p.offset
      · rw [show markLoop start size fl (p :: ps) = p :: ps by
          simp [markLoop, hend, h1, h2]]
        by_cases c : start ≤ pos ∧ pos < start + size
        · have a : ¬ (p.offset ≤ pos ∧ pos < p.offset + p.bytes) := by omega
          simp only [c, and_self, if_true, loadedAt, ObjectPage.next, a, if_false,
            hrest (by omega), Option.map_none']
        · simp only [c, if_false]
      · simp only [markLoop, hend, h1, if_false, h2, loadedAt, ih, ObjectPage.next,
          ObjectPage.set_loaded]
        by_cases a : p.offset ≤ pos ∧ pos < p.offset + p.bytes
        · have c : start ≤ pos ∧ pos < start + size := by omega
          simp only [a, c, and_self, if_true, Option.map_some']
        · simp only [a, if_false]

theorem loadedAt_resize (l : PageList) (size pos : Nat) (fl : Bool) (h : WellFormed l) :
    loadedAt (resize l size fl) pos =
      if pos < size then (if pos < get_size l then loadedAt l pos else some fl) else none := by
  obtain ⟨a, _, _⟩ := resize_pre l size fl h
  unfold resize
  rw [loadedAt_compress _ 0 pos a]
  have hsz := get_size_eq_sum l h.1
  by_cases h0 : get_size l = 0
  · simp only [h0, if_true, init, loadedAt, ObjectPage.next]
    split_ifs <;> first | rfl | (exfalso; omega)
  · have hp := pos_of_size_ne_zero l h h0
    by_cases h1 : get_size l < size
    · simp only [h0, if_false, h1, if_true, loadedAt_append, ObjectPage.next]
      by_cases c : pos < get_size l
      · obtain ⟨b, hb⟩ := loadedAt_isSome l 0 pos h.1 (Nat.zero_le _) (by omega)
        have : pos < size := by omega
        simp only [hb, c, this, if_true]
      · have hn := loadedAt_none_of_ge l 0 pos h.1 (by omega)
        simp only [hn, c, if_false]
        split_ifs <;> first | rfl | (exfalso; omega)
    · by_cases h2 : size < get_size l
      · simp only [h0, if_false, h1, h2, if_true,
          loadedAt_resizeShrink size pos l 0 h.1 hp (Nat.zero_le _)]
        split_ifs <;> first | rfl | (exfalso; omega)
      · simp only [h0, if_false, h1, h2]
        by_cases c : pos < size
        · have : pos < get_size l := by omega
          simp only [c, this, if_true]
        · simp only [c, if_false]
          exact loadedAt_none_of_ge l 0 pos h.1 (by omega)

theorem compress_of_wellFormed (l : PageList) (h : WellFormed l) : compress l = l :=
  compress_of_alternating l h.2.1

/-- Full description of `set_page_loaded_status` on a well-formed list. -/
theorem set_page_loaded_status_spec (l : PageList) (start size : Nat) (fl : Bool)
    (h : WellFormed l) :
    WellFormed (set_page_loaded_status l start size fl true) ∧
    get_size (set_page_loaded_status l start size fl true) = max (get_size l) (start + size) ∧
    ∀ pos, loadedAt (set_page_loaded_status l start size fl true) pos =
      if start ≤ pos ∧ pos < start + size then some fl
      else if pos < get_size l then loadedAt l pos
      else if pos < start then some false else none := by
  unfold set_page_loaded_status
  simp only [if_true]
  by_cases h1 : get_size l ≤ start
  · simp only [h1, if_true]
    have hw1 : WellFormed (if get_size l < start then resize l start false else l) := by
      split_ifs
      · exact resize_wellFormed l start false h
      · exact h
    have hs1 : get_size (if get_size l < start then resize l start false else l) = start := by
      split_ifs
      · exact resize_size l start false h
      · omega
    have hw2 := resize_wellFormed _ (start + size) fl hw1
    rw [compress_of_wellFormed _ hw2]
    refine ⟨hw2, ?_, ?_⟩
    · rw [resize_size _ _ _ hw1]; omega
    · intro pos
      rw [loadedAt_resize _ _ _ _ hw1, hs1]
      by_cases h2 : get_size l < start
      · simp only [h2, if_true, loadedAt_resize l start pos false h]
        split_ifs <;> first | rfl | (exfalso; omega)
      · simp only [h2, if_false]
        split_ifs <;> first | rfl | (exfalso; omega)
  · by_cases h2 : get_size l ≤ start + size
    · simp only [h1, if_false, h2, if_true]
      have hw1 := resize_wellFormed l start false h
      have hw2 := resize_wellFormed _ (start + size) fl hw1
      rw [compress_of_wellFormed _ hw2]
      refine ⟨hw2, ?_, ?_⟩
      · rw [resize_size _ _ _ hw1]; omega
      · intro pos
        rw [loadedAt_resize _ _ _ _ hw1, resize_size l start false h,
          loadedAt_resize l start pos false h]
        split_ifs <;> first | rfl | (exfalso; omega)
    · simp only [h1, if_false, h2]
      have hp := pos_of_size_ne_zero l h (by omega)
      obtain ⟨a1, b1, c1, d1⟩ := parse_spec start l 0 h.1 hp
      obtain ⟨a2, b2, c2, d2⟩ := parse_spec (start + size) _ 0 a1 b1
      obtain ⟨a3, b3, c3⟩ := markLoop_spec start size fl _ 0 a2 b2
      have hw := compress_wellFormed _ a3 (Or.inl b3)
      have hsz := get_size_eq_sum l h.1
      refine ⟨hw, ?_, ?_⟩
      · rw [get_size_eq_sum _ hw.1, compress_sum _ 0 a3, c3, c2, c1]; omega
      · intro pos
        rw [loadedAt_compress _ 0 pos a3,
          loadedAt_markLoop start size pos fl _ 0 a2 b2
            (parse_boundary start (start + size) _ d1) d2,
          loadedAt_parse, loadedAt_parse]
        by_cases c : start ≤ pos ∧ pos < start + size
        · obtain ⟨b, hb⟩ := loadedAt_isSome l 0 pos h.1 (Nat.zero_le _) (by omega)
          simp only [c, and_self, if_true, hb, Option.map_some']
        · simp only [c, if_false]
          by_cases e : pos < get_size l
          · simp only [e, if_true]
          · have hn := loadedAt_none_of_ge l 0 pos h.1 (by omega)
            have : ¬ pos < start := by omega
            simp only [e, this, if_false, hn]

theorem sumBytes_pushUnloaded (out : List ObjectPage) (s z : Nat) :
    sumBytes (pushUnloaded out s z) = sumBytes out + z := by
  unfold pushUnloaded
  cases hg : out.getLast? with
  | none => simp [sumBytes]
  | some r =>
    have hd : out.dropLast ++ [r] = out := List.dropLast_append_getLast? r hg
    by_cases hr : r.next = s
    · simp only [hr, if_true]
      conv_rhs => rw [← hd]
      rw [sumBytes_append, sumBytes_append]
      simp only [sumBytes, ObjectPage.set_bytes, List.map_cons, List.map_nil,
        List.sum_cons, List.sum_nil]
      omega
    · simp [hr, sumBytes]

/-- For any window the output of the `get_unloaded_pages` loop adds exactly what the
`get_total_unloaded_page_size` loop counts. -/
theorem sumBytes_unloadedLoop (start next : Nat) : ∀ (l out : List ObjectPage),
    sumBytes (unloadedLoop start next l out) = totalUnloadedLoop start next l (sumBytes out)
  | [], _ => rfl
  | p :: ps, out => by
    simp only [unloadedLoop, totalUnloadedLoop]
    split_ifs <;>
      first
      | rfl
      | exact sumBytes_unloadedLoop start next ps out
      | (rw [sumBytes_unloadedLoop start next ps, sumBytes_pushUnloaded]
         congr 1
         simp only [ObjectPage.next] at *
         omega)

/-- With a positive length the two queries agree on every list. -/
theorem total_unloaded_eq_sum_of_pos (l : PageList) (start size : Nat) (h : 0 < size) :
    get_total_unloaded_page_size l start size
      = sumBytes (get_unloaded_pages l [] start size) := by
  unfold get_total_unloaded_page_size get_unloaded_pages
  have : size ≠ 0 := by omega
  simp only [this, if_false]
  rw [sumBytes_unloadedLoop]
  rfl

theorem wellFormed_of_reachable (l : PageList) (h : Reachable l) : WellFormed l := by
  induction h with
  | construct size loaded => exact init_wellFormed size loaded
  | init l size loaded _ _ => exact init_wellFormed size loaded
  | resize l size loaded _ ih => exact resize_wellFormed l size loaded ih
  | set_page_loaded_status l start size loaded _ ih =>
    exact (set_page_loaded_status_spec l start size loaded ih).1

/-- With the default arguments `(0, 0)` the window is empty: the loop stops at the
first page that is not itself empty, and nothing is counted. -/
theorem totalUnloadedLoop_zero : ∀ (l : List ObjectPage) (acc : Nat),
    totalUnloadedLoop 0 0 l acc = acc
  | [], _ => rfl
  | p :: ps, acc => by
    by_cases h1 : p.next ≤ 0
    · simp only [totalUnloadedLoop, h1, if_true]
      exact totalUnloadedLoop_zero ps acc
    · simp only [totalUnloadedLoop, h1, if_false, Nat.zero_le, if_true]

theorem get_total_unloaded_page_size_default (l : PageList) :
    get_total_unloaded_page_size l 0 0 = 0 :=
  totalUnloadedLoop_zero l 0

end ObjectPageList

namespace DataCacheEntity

open ObjectPageList

/-- What `row_flush` does once it is past its two early returns: `rest_size` is `0`
for every page list, so nothing is loaded and the upload sees the entity as it was. -/
theorem row_flush_eq (env : Env) (e : DataCacheEntity) (w : World) (tpath : Option String)
    (force_sync : Bool) (hfd : e.fd ≠ -1) (hm : force_sync = true ∨ e.is_modified = true)
    (hseek : env.lseek_errno = none) :
    row_flush env e w tpath force_sync =
      let object_name : String :=
        match tpath with
        | some t => t.drop 1
        | none => e.path.drop 1
      let small : Bool :=
        decide ((ObjectPageList.get_size e.page_list : Int) < env.multipart_threshold)
      let ret : Int :=
        if small then env.upload_file object_name e.file
        else env.upload_super_file object_name e.file
      let w2 : World :=
        { w with
          trace := w.trace ++
            [if small then Event.upload_file object_name e.file
             else Event.upload_super_file object_name e.file] }
      if ret ≠ 0 then (-1, e, w2)
      else (0, { e with is_modified := false },
            { w2 with table := FileManager.del w2.table e.path }) := by
  have h1 : (!force_sync && !e.is_modified) = false := by
    rcases hm with h | h <;> simp [h]
  simp only [row_flush, hfd, if_false, h1, get_total_unloaded_page_size_default,
    gt_iff_lt, lt_self_iff_false, ne_eq, not_true_eq_false, hseek, Bool.false_eq_true]

theorem FileManager_del_absent (table : FileTable) (name : String) :
    (FileManager.del table name).find? (fun kv => kv.1 = name) = none := by
  simp only [FileManager.del, List.find?_eq_none, List.mem_filter]
  intro kv h
  simpa using h.2

theorem length_ftruncate_file (file : List Byte) (size : Nat) :
    (ftruncate_file file size).length = size := by
  simp only [ftruncate_file, List.length_append, List.length_take, List.length_replicate]
  omega

/-- Reading back what was just written gives the written bytes. -/
theorem pread_pwrite (file bytes : List Byte) (start : Nat) :
    pread_file (pwrite_file file bytes start) bytes.length start = bytes := by
  have hlen : ((file ++ List.replicate (start - file.length) (0 : Byte)).take start).length
      = start := by
    simp only [List.length_take, List.length_append, List.length_replicate]
    omega
  simp only [pread_file, pwrite_file, List.append_assoc]
  rw [List.drop_left' hlen, List.take_left' rfl]

/-- No unloaded byte in the window: the counting loop adds nothing. -/
theorem totalUnloadedLoop_loaded (start next : Nat) : ∀ (l : List ObjectPage) (o acc : Nat),
    Contig o l → (∀ pos, start ≤ pos → pos < next → loadedAt l pos ≠ some false) →
    totalUnloadedLoop start next l acc = acc
  | [], _, _, _, _ => rfl
  | p :: ps, o, acc, hc, h => by
    have hrest : ∀ pos, start ≤ pos → pos < next → loadedAt ps pos ≠ some false := by
      intro pos h1 h2
      by_cases hin : p.offset ≤ pos ∧ pos < p.next
      · rw [loadedAt_none_of_lt ps p.next pos hc.2 hin.2]; simp
      · have := h pos h1 h2
        simpa only [loadedAt, hin, if_false] using this
    have ih := fun a => totalUnloadedLoop_loaded start next ps p.next a hc.2 hrest
    by_cases h1 : p.next ≤ start
    · simp only [totalUnloadedLoop, h1, if_true, ih]
    · by_cases h2 : next ≤ p.offset
      · simp only [totalUnloadedLoop, h1, if_false, h2, if_true]
      · by_cases h3 : p.loaded = true
        · simp only [totalUnloadedLoop, h1, if_false, h2, h3, if_true, ih]
        · simp only [totalUnloadedLoop, h1, if_false, h2, h3, ih]
          simp only [ObjectPage.next] at h1 h2 ⊢
          by_cases hz : p.bytes = 0 ∨ next ≤ start
          · split_ifs <;> omega
          · exfalso
            have hin : p.offset ≤ max p.offset start ∧ max p.offset start < p.next := by
              simp only [ObjectPage.next]; omega
            have := h (max p.offset start) (by omega) (by omega)
            simp only [loadedAt, hin, and_self, if_true] at this
            simp only [Bool.not_eq_true] at h3
            exact this (by rw [h3])

theorem get_total_unloaded_page_size_loaded (l : PageList) (start size : Nat)
    (hc : Contig 0 l)
    (h : ∀ pos, start ≤ pos → pos < start + size → loadedAt l pos = some true) :
    get_total_unloaded_page_size l start size = 0 :=
  totalUnloadedLoop_loaded start (start + size) l 0 0 hc
    (fun pos h1 h2 => by rw [h pos h1 h2]; simp)

/-- The loading loop keeps the page list well formed and never shrinks it. -/
theorem loadLoop_spec (env : Env) (end_ : Nat) : ∀ (pages : List ObjectPage)
    (e : DataCacheEntity) (w : World), WellFormed e.page_list →
    WellFormed (loadLoop env end_ pages e w).2.1.page_list ∧
    ObjectPageList.get_size e.page_list
      ≤ ObjectPageList.get_size (loadLoop env end_ pages e w).2.1.page_list ∧
    (loadLoop env end_ pages e w).2.1.fd = e.fd
  | [], e, w, h => ⟨h, le_rfl, rfl⟩
  | page :: rest, e, w, h => by
    simp only [loadLoop]
    by_cases h1 : end_ ≤ page.offset
    · rw [if_pos h1]; exact ⟨h, le_rfl, rfl⟩
    · rw [if_neg h1]
      by_cases h2 : 0 < need_load_size e.origin_meta_size page ∧
          (env.parallel_download page.offset (need_load_size e.origin_meta_size page)).1 ≠ 0
      · rw [if_pos h2]; exact ⟨h, le_rfl, rfl⟩
      · rw [if_neg h2]
        generalize (if 0 < over_size e.origin_meta_size page then
          env.fill_file_errno (over_size e.origin_meta_size page)
            (page.offset + need_load_size e.origin_meta_size page) else none) = x
        cases x with
        | some errno =>
          dsimp only
          split_ifs <;> exact ⟨h, le_rfl, rfl⟩
        | none =>
          dsimp only
          have key : ∀ (e2 : DataCacheEntity) (w1 : World), e2.page_list = e.page_list →
              e2.fd = e.fd →
              WellFormed (loadLoop env end_ rest
                { e2 with page_list :=
                    set_page_loaded_status e2.page_list page.offset page.bytes true true }
                w1).2.1.page_list ∧
              ObjectPageList.get_size e.page_list ≤ ObjectPageList.get_size
                (loadLoop env end_ rest
                  { e2 with page_list :=
                      set_page_loaded_status e2.page_list page.offset page.bytes true true }
                  w1).2.1.page_list ∧
              (loadLoop env end_ rest
                  { e2 with page_list :=
                      set_page_loaded_status e2.page_list page.offset page.bytes true true }
                  w1).2.1.fd = e.fd := by
            intro e2 w1 he2 hfd2
            obtain ⟨a, b, _⟩ := set_page_loaded_status_spec e.page_list page.offset
              page.bytes true h
            have ih := loadLoop_spec env end_ rest
              { e2 with page_list :=
                  set_page_loaded_status e2.page_list page.offset page.bytes true true } w1
              (by rw [he2]; exact a)
            refine ⟨ih.1, le_trans ?_ ih.2.1, ih.2.2.trans hfd2⟩
            dsimp only
            rw [he2, b]
            exact le_max_left _ _
          split_ifs <;> exact key _ _ rfl rfl

theorem load_spec (env : Env) (e : DataCacheEntity) (w : World) (start size : Nat)
    (h : WellFormed e.page_list) :
    WellFormed (load env e w start size).2.1.page_list ∧
    ObjectPageList.get_size e.page_list
      ≤ ObjectPageList.get_size (load env e w start size).2.1.page_list ∧
    (load env e w start size).2.1.fd = e.fd := by
  simp only [load]
  split_ifs
  · exact ⟨h, le_rfl, rfl⟩
  · exact ⟨h, le_rfl, rfl⟩
  · exact ⟨h, le_rfl, rfl⟩
  · exact loadLoop_spec env _ _ e w h

/-- `row_flush` changes nothing of the entity but, on success, the modified flag. -/
theorem row_flush_entity (env : Env) (e : DataCacheEntity) (w : World)
    (tpath : Option String) (force_sync : Bool) :
    (row_flush env e w tpath force_sync).2.1 = e ∨
    (row_flush env e w tpath force_sync).2.1 = { e with is_modified := false } := by
  simp only [row_flush, get_total_unloaded_page_size_default, gt_iff_lt, lt_self_iff_false,
    if_false, ne_eq, not_true_eq_false]
  repeat' first | exact Or.inl rfl | exact Or.inr rfl | split

/-- An unmodified entity is not uploaded: `flush(false)` returns 0 and changes nothing. -/
theorem flush_unmodified (env : Env) (e : DataCacheEntity) (w : World) (hfd : e.fd ≠ -1)
    (hm : e.is_modified = false) : flush env e w false = (0, e, w) := by
  simp [flush, row_flush, hfd, hm]

/-- Closing one of several references only lowers the count. -/
theorem close_file_dec (env : Env) (e : DataCacheEntity) (w : World) (hfd : 0 ≤ e.fd)
    (hrc : 2 ≤ e.ref_count) :
    close_file env e w = (0, { e with ref_count := e.ref_count - 1 }, w) := by
  have h1 : ¬ e.fd < 0 := by omega
  have h2 : ¬ e.ref_count ≤ 0 := by omega
  have h3 : 0 < e.ref_count - 1 := by omega
  simp only [close_file, h1, if_false, h2, h3, if_true]

/-- Closing the last reference: the descriptor is closed unless the entity is a
tmp-file entity whose flush or unlink fails; the address and the path stay, the count
is 0 either way. -/
theorem close_file_last (env : Env) (e : DataCacheEntity) (w : World) (hfd : 0 ≤ e.fd)
    (hrc : e.ref_count = 1) :
    (close_file env e w).2.1.addr = e.addr ∧ (close_file env e w).2.1.path = e.path ∧
    (close_file env e w).2.1.ref_count = 0 ∧
    ((e.is_tmpfile = true →
        (flush env { e with ref_count := e.ref_count - 1 } w false).1 = 0 ∧
        env.unlink_tmp_errno = none) →
      (close_file env e w).2.1.fd = -1) ∧
    (e.is_tmpfile = true →
      ((flush env { e with ref_count := e.ref_count - 1 } w false).1 ≠ 0 ∨
        env.unlink_tmp_errno ≠ none) →
      (close_file env e w).2.1.fd = e.fd) := by
  have h1 : ¬ e.fd < 0 := by omega
  have h2 : ¬ e.ref_count ≤ 0 := by omega
  have h3 : ¬ 0 < e.ref_count - 1 := by omega
  have hfl := row_flush_entity env { e with ref_count := e.ref_count - 1 } w none false
  simp only [close_file, h1, if_false, h2, h3]
  generalize hF : flush env { e with ref_count := e.ref_count - 1 } w false = fl at *
  have hfl2 : fl.2.1 = { e with ref_count := e.ref_count - 1 } ∨
      fl.2.1 = { e with ref_count := e.ref_count - 1, is_modified := false } := by
    rw [← hF]; exact hfl
  have hrc0 : e.ref_count - 1 = 0 := by omega
  by_cases ht : e.is_tmpfile = true
  · simp only [ht, if_true, true_and, forall_const]
    by_cases hf : fl.1 = 0
    · simp only [hf, ne_eq, not_true_eq_false, if_false, false_or]
      cases hu : env.unlink_tmp_errno with
      | some errno =>
        simp only [reduceCtorEq, and_false, false_implies, true_and, not_false_eq_true,
          forall_const]
        rcases hfl2 with h | h <;> rw [h] <;> exact ⟨rfl, rfl, hrc0, rfl⟩
      | none =>
        simp only [and_self, forall_const, not_true_eq_false, false_implies, and_true]
        rcases hfl2 with h | h <;> rw [h] <;>
          repeat' first | exact ⟨rfl, rfl, hrc0, rfl⟩ | split
    · simp only [hf, ne_eq, not_false_eq_true, if_true, false_and, false_implies, true_or,
        forall_const, true_and]
      rcases hfl2 with h | h <;> rw [h] <;> exact ⟨rfl, rfl, hrc0, rfl⟩
  · simp only [ht, Bool.false_eq_true, if_false, false_and, false_implies, forall_const,
      and_true]
    repeat' first | exact ⟨rfl, rfl, hrc0, rfl⟩ | split

theorem open_file_finish_ok (env : Env) (e : DataCacheEntity) (w : World)
    (pmeta : Option ObjectMetaData) (size time : Int) (is_truncate need_save_csf : Bool)
    (hok : env.localOk) (hfd : 0 ≤ e.fd) :
    Opened e (open_file_finish env e w pmeta size time is_truncate need_save_csf) := by
  obtain ⟨h1, h2, _⟩ := hok
  simp only [open_file_finish, h1, ite_self, h2]
  split_ifs <;> exact ⟨rfl, rfl, hfd, rfl, rfl, rfl⟩

theorem open_file_mirror_ok (env : Env) (e : DataCacheEntity) (w : World)
    (pmeta : Option ObjectMetaData) (size time : Int) (is_truncate need_save_csf : Bool)
    (hok : env.localOk) :
    Opened e (open_file_mirror env e w pmeta size time is_truncate need_save_csf) := by
  have hm : ¬ env.open_mirror_file.1 ≤ 0 := by
    have := hok.2.2.2.2.1; omega
  simp only [open_file_mirror, hm, if_false]
  exact open_file_finish_ok env _ w pmeta size time is_truncate need_save_csf hok
    (by have := hok.2.2.2.2.1; exact le_of_lt this)

/-- With every local file operation succeeding, `open_file` on an entity that is not
open returns 0 and leaves it open with reference count 1. -/
theorem open_file_new (env : Env) (e : DataCacheEntity) (w : World)
    (pmeta : Option ObjectMetaData) (size time : Int) (hok : env.localOk) (hfd : e.fd = -1) :
    Opened e (open_file env e w pmeta size time) := by
  obtain ⟨fdc, hcreate⟩ := hok.2.2.2.1
  obtain ⟨fdt, htmp⟩ := hok.2.2.2.2.2.1
  have hfstat := hok.2.2.1
  simp only [open_file, hfd, ne_eq, not_true_eq_false, if_false, hcreate, htmp, hfstat]
  repeat' first
    | exact open_file_mirror_ok env _ w pmeta _ time _ _ hok
    | exact open_file_finish_ok env _ w pmeta _ time _ _ hok (Int.natCast_nonneg _)
    | split

/-- On an open entity `open_file` is `dup_file`: the count goes up by one. -/
theorem open_file_dup (env : Env) (e : DataCacheEntity) (w : World)
    (pmeta : Option ObjectMetaData) (size time : Int) (hfd : e.fd ≠ -1) :
    open_file env e w pmeta size time = (0, { e with ref_count := e.ref_count + 1 }, w) := by
  simp only [open_file, hfd, ne_eq, not_false_eq_true, if_true, dup_file]

end DataCacheEntity

/-! ## Lemmas on the registry -/

namespace DataCache

theorem deref_some (dc : DataCache) (ent : Nat) (e : DataCacheEntity)
    (h : dc.deref ent = some e) :
    ∃ k, (k, e) ∈ dc.data_cache ∧ e.addr = ent ∧
      dc.data_cache.find? (fun kv => kv.2.addr = ent) = some (k, e) := by
  unfold deref at h
  cases hf : dc.data_cache.find? (fun kv => kv.2.addr = ent) with
  | none => rw [hf] at h; simp at h
  | some kv =>
    rw [hf] at h
    simp only [Option.map_some', Option.some.injEq] at h
    obtain ⟨k, e2⟩ := kv
    simp only at h
    subst h
    exact ⟨k, List.mem_of_find?_eq_some hf, by simpa using List.find?_some hf, rfl⟩

/-- The entry `close_cache` settles on is the entry of the entity itself. -/
theorem close_cache_eq (env : Env) (dc : DataCache) (w : World) (ent : Nat)
    (e : DataCacheEntity) (hs : Sound dc) (hd : dc.deref ent = some e) :
    ∃ k, (k, e) ∈ dc.data_cache ∧ e.addr = ent ∧
      close_cache env dc w ent =
        (if !(DataCacheEntity.close_file env e w).2.1.is_open then
          (true,
           { dc with
             data_cache := (store dc.data_cache ent (DataCacheEntity.close_file env e w).2.1).filter
               (fun kv => kv.1 != k) },
           (DataCacheEntity.close_file env e w).2.2)
         else
          (false,
           { dc with
             data_cache := store dc.data_cache ent (DataCacheEntity.close_file env e w).2.1 },
           (DataCacheEntity.close_file env e w).2.2)) := by
  obtain ⟨k, hmem, haddr, hfind⟩ := deref_some dc ent e hd
  refine ⟨k, hmem, haddr, ?_⟩
  have hit : (match dc.data_cache.find? (fun kv => kv.1 = e.path) with
      | some kv => some kv.1
      | none => (dc.data_cache.find? (fun kv => kv.2.addr = ent)).map Prod.fst) = some k := by
    cases hp : dc.data_cache.find? (fun kv => kv.1 = e.path) with
    | none => simp [hfind]
    | some kv =>
      have hkv := List.mem_of_find?_eq_some hp
      have hkey : kv.1 = e.path := by simpa using List.find?_some hp
      have ha : kv.2.addr = e.addr := hs.2 (k, e) hmem kv hkv hkey
      have : kv = (k, e) := List.inj_on_of_nodup_map hs.1 hkv hmem ha
      simp [this]
  simp only [close_cache, hd, hit]

/-- Once the entry of the entity is erased nothing of it is left in the registry. -/
theorem not_registered_after_erase (dc : DataCache) (ent : Nat) (k : String)
    (e e2 : DataCacheEntity) (hs : Sound dc) (hmem : (k, e) ∈ dc.data_cache)
    (haddr : e.addr = ent) :
    registered
      { dc with data_cache := (store dc.data_cache ent e2).filter (fun kv => kv.1 != k) } ent
      = false := by
  simp only [registered, List.any_eq_false, List.mem_filter, store, List.mem_map,
    decide_eq_true_eq, and_imp, forall_exists_index]
  intro kv kv0 hkv0 hkv hk
  by_cases ha : kv0.2.addr = ent
  · have : kv0 = (k, e) := List.inj_on_of_nodup_map hs.1 hkv0 hmem (by rw [ha, haddr])
    rw [if_pos ha] at hkv
    subst this
    rw [← hkv] at hk
    simp at hk
  · rw [if_neg ha] at hkv
    rw [← hkv]
    exact ha

theorem registered_after_store (dc : DataCache) (ent : Nat) (k : String)
    (e e2 : DataCacheEntity) (hmem : (k, e) ∈ dc.data_cache) (haddr : e.addr = ent)
    (h2 : e2.addr = ent) :
    registered { dc with data_cache := store dc.data_cache ent e2 } ent = true ∧
    (k, e2) ∈ store dc.data_cache ent e2 := by
  have : (k, e2) ∈ store dc.data_cache ent e2 := by
    simp only [store, List.mem_map]
    exact ⟨(k, e), hmem, by simp [haddr]⟩
  refine ⟨?_, this⟩
  simp only [registered, List.any_eq_true, decide_eq_true_eq]
  exact ⟨(k, e2), this, h2⟩

end DataCache

namespace DataCache

theorem find?_of_unique {α : Type} (p : α → Bool) : ∀ (l : List α) (x : α), x ∈ l →
    p x = true → (∀ y ∈ l, p y = true → y = x) → l.find? p = some x
  | [], _, h, _, _ => by simp at h
  | a :: l, x, h, hp, hu => by
    by_cases ha : p a = true
    · have := hu a (List.mem_cons_self _ _) ha
      subst this
      simp [List.find?, ha]
    · have hx : x ∈ l := by
        rcases List.mem_cons.1 h with rfl | h
        · exact absurd hp ha
        · exact h
      simp only [List.find?, ha]
      exact find?_of_unique p l x hx hp (fun y hy => hu y (List.mem_cons_of_mem _ hy))

theorem find_of_mem (dc : DataCache) (k : String) (e : DataCacheEntity)
    (hk : (dc.data_cache.map Prod.fst).Nodup) (hmem : (k, e) ∈ dc.data_cache) :
    dc.find k = some e := by
  have := find?_of_unique (fun kv : String × DataCacheEntity => decide (kv.1 = k))
    dc.data_cache (k, e) hmem (by simp)
    (fun y hy hp => List.inj_on_of_nodup_map hk hy hmem (by simpa using hp))
  simp only [find, this, Option.map_some']

theorem mem_of_find (dc : DataCache) (k : String) (e : DataCacheEntity)
    (h : dc.find k = some e) : (k, e) ∈ dc.data_cache := by
  unfold find at h
  cases hf : dc.data_cache.find? (fun kv => kv.1 = k) with
  | none => rw [hf] at h; simp at h
  | some kv =>
    rw [hf] at h
    simp only [Option.map_some', Option.some.injEq] at h
    have h1 := List.mem_of_find?_eq_some hf
    have h2 : kv.1 = k := by simpa using List.find?_some hf
    obtain ⟨a, b⟩ := kv
    simp only at h h2
    subst h h2
    exact h1

theorem find_none_of_forall (dc : DataCache) (k : String)
    (h : ∀ kv ∈ dc.data_cache, kv.1 ≠ k) : dc.find k = none := by
  have : dc.data_cache.find? (fun kv => kv.1 = k) = none := by
    rw [List.find?_eq_none]
    intro kv hkv
    simpa using h kv hkv
  simp only [find, this, Option.map_none']

theorem forall_of_find_none (dc : DataCache) (k : String) (h : dc.find k = none) :
    ∀ kv ∈ dc.data_cache, kv.1 ≠ k := by
  unfold find at h
  cases hf : dc.data_cache.find? (fun kv => kv.1 = k) with
  | some kv => rw [hf] at h; simp at h
  | none =>
    rw [List.find?_eq_none] at hf
    intro kv hkv
    simpa using hf kv hkv

theorem deref_of_mem (dc : DataCache) (k : String) (e : DataCacheEntity)
    (ha : (dc.data_cache.map (fun kv => kv.2.addr)).Nodup) (hmem : (k, e) ∈ dc.data_cache) :
    dc.deref e.addr = some e := by
  have := find?_of_unique (fun kv : String × DataCacheEntity => decide (kv.2.addr = e.addr))
    dc.data_cache (k, e) hmem (by simp)
    (fun y hy hp => List.inj_on_of_nodup_map ha hy hmem (by simpa using hp))
  simp only [deref, this, Option.map_some']

theorem sound_of_valid (dc : DataCache) (h : Valid dc) : Sound dc := by
  refine ⟨h.2.1, ?_⟩
  intro kv hkv kv2 hkv2 hk
  have : kv2 = kv := List.inj_on_of_nodup_map h.1 hkv2 hkv (by rw [hk, h.2.2.1 kv hkv])
  rw [this]

theorem store_map_fst (l : List (String × DataCacheEntity)) (ent : Nat)
    (e2 : DataCacheEntity) : (store l ent e2).map Prod.fst = l.map Prod.fst := by
  simp only [store, List.map_map]
  apply List.map_congr_left
  intro kv _
  simp only [Function.comp]
  split_ifs <;> rfl

theorem store_map_addr (l : List (String × DataCacheEntity)) (ent : Nat)
    (e2 : DataCacheEntity) (h2 : e2.addr = ent) :
    (store l ent e2).map (fun kv => kv.2.addr) = l.map (fun kv => kv.2.addr) := by
  simp only [store, List.map_map]
  apply List.map_congr_left
  intro kv _
  simp only [Function.comp]
  split_ifs with h
  · simp [h2, h]
  · rfl

/-- Writing back the new state of an entity keeps the registry valid. -/
theorem store_valid (dc : DataCache) (k : String) (e e2 : DataCacheEntity) (hv : Valid dc)
    (hmem : (k, e) ∈ dc.data_cache) (h2 : e2.addr = e.addr) (hp : e2.path = e.path) :
    Valid { dc with data_cache := store dc.data_cache e.addr e2 } ∧
    (k, e2) ∈ store dc.data_cache e.addr e2 := by
  have hin : (k, e2) ∈ store dc.data_cache e.addr e2 := by
    simp only [store, List.mem_map]
    exact ⟨(k, e), hmem, by simp⟩
  refine ⟨⟨?_, ?_, ?_, ?_⟩, hin⟩
  · show ((store dc.data_cache e.addr e2).map Prod.fst).Nodup
    rw [store_map_fst]; exact hv.1
  · show ((store dc.data_cache e.addr e2).map (fun kv => kv.2.addr)).Nodup
    rw [store_map_addr _ _ _ h2]; exact hv.2.1
  · intro kv hkv
    simp only [store, List.mem_map] at hkv
    obtain ⟨kv0, hkv0, heq⟩ := hkv
    by_cases hc : kv0.2.addr = e.addr
    · rw [if_pos hc] at heq
      have : kv0 = (k, e) := List.inj_on_of_nodup_map hv.2.1 hkv0 hmem hc
      subst this
      rw [← heq]
      simpa [hp] using hv.2.2.1 (k, e) hmem
    · rw [if_neg hc] at heq
      rw [← heq]; exact hv.2.2.1 kv0 hkv0
  · intro kv hkv
    simp only [store, List.mem_map] at hkv
    obtain ⟨kv0, hkv0, heq⟩ := hkv
    by_cases hc : kv0.2.addr = e.addr
    · rw [if_pos hc] at heq
      rw [← heq]
      simpa [h2] using hv.2.2.2 (k, e) hmem
    · rw [if_neg hc] at heq
      rw [← heq]; exact hv.2.2.2 kv0 hkv0

/-- Erasing a key keeps the registry valid and leaves nothing under the key. -/
theorem erase_valid (dc : DataCache) (k : String) (hv : Valid dc) :
    Valid { dc with data_cache := dc.data_cache.filter (fun kv => kv.1 != k) } ∧
    find { dc with data_cache := dc.data_cache.filter (fun kv => kv.1 != k) } k = none := by
  have hsub : (dc.data_cache.filter (fun kv => kv.1 != k)).Sublist dc.data_cache :=
    List.filter_sublist _
  refine ⟨⟨?_, ?_, ?_, ?_⟩, ?_⟩
  · exact hv.1.sublist (hsub.map _)
  · exact hv.2.1.sublist (hsub.map _)
  · intro kv hkv
    exact hv.2.2.1 kv (hsub.subset hkv)
  · intro kv hkv
    exact hv.2.2.2 kv (hsub.subset hkv)
  · apply find_none_of_forall
    intro kv hkv
    simpa using (List.mem_filter.1 hkv).2

/-- `open_cache` with `is_create` on a path that is not in the registry. -/
theorem open_cache_new (env : Env) (dc : DataCache) (w : World) (path : String)
    (pmeta : Option ObjectMetaData) (size time : Int) (force_tmpfile : Bool)
    (hv : Valid dc) (hnone : dc.find path = none) (hok : env.localOk) :
    ∃ e2, (open_cache env dc w path pmeta size time force_tmpfile true).1 = some e2.addr ∧
      Valid (open_cache env dc w path pmeta size time force_tmpfile true).2.1 ∧
      (open_cache env dc w path pmeta size time force_tmpfile true).2.1.find path = some e2 ∧
      e2.ref_count = 1 ∧ 0 ≤ e2.fd ∧ e2.is_modified = false := by
  obtain ⟨cp, hcp⟩ : ∃ cp, (if force_tmpfile then some "" else env.make_cache_path path)
      = some cp := by
    split_ifs
    · exact ⟨"", rfl⟩
    · exact hok.2.2.2.2.2.2.1 path
  obtain ⟨r1, r2, r3, r4, r5, r6⟩ := DataCacheEntity.open_file_new env
    (DataCacheEntity.construct dc.next_addr path cp) w pmeta size time hok rfl
  have hr1 : ¬ (DataCacheEntity.open_file env
      (DataCacheEntity.construct dc.next_addr path cp) w pmeta size time).1 = -1 := by
    rw [r1]; decide
  simp only [open_cache, hnone, if_true, hcp, hr1, if_false]
  have hkeys := forall_of_find_none dc path hnone
  have hmemnew : (path, (DataCacheEntity.open_file env
      (DataCacheEntity.construct dc.next_addr path cp) w pmeta size time).2.1)
      ∈ dc.data_cache ++ [(path, (DataCacheEntity.open_file env
        (DataCacheEntity.construct dc.next_addr path cp) w pmeta size time).2.1)] := by
    simp
  have hvalid : Valid
      { data_cache := dc.data_cache ++ [(path, (DataCacheEntity.open_file env
          (DataCacheEntity.construct dc.next_addr path cp) w pmeta size time).2.1)],
        next_addr := dc.next_addr + 1 } := by
    refine ⟨?_, ?_, ?_, ?_⟩
    · simp only [List.map_append, List.map_cons, List.map_nil]
      rw [List.nodup_append]
      refine ⟨hv.1, by simp, ?_⟩
      intro a ha hb
      simp only [List.mem_singleton] at hb
      simp only [List.mem_map] at ha
      obtain ⟨kv, hkv, rfl⟩ := ha
      exact hkeys kv hkv hb
    · simp only [List.map_append, List.map_cons, List.map_nil]
      rw [List.nodup_append]
      refine ⟨hv.2.1, by simp, ?_⟩
      intro a ha hb
      simp only [List.mem_singleton] at hb
      simp only [List.mem_map] at ha
      obtain ⟨kv, hkv, rfl⟩ := ha
      have := hv.2.2.2 kv hkv
      rw [hb, r4] at this
      simp [DataCacheEntity.construct] at this
    · intro kv hkv
      rcases List.mem_append.1 hkv with h | h
      · exact hv.2.2.1 kv h
      · simp only [List.mem_singleton] at h
        rw [h]; exact r5
    · intro kv hkv
      rcases List.mem_append.1 hkv with h | h
      · exact Nat.lt_succ_of_lt (hv.2.2.2 kv h)
      · simp only [List.mem_singleton] at h
        rw [h]
        show (DataCacheEntity.open_file env _ w pmeta size time).2.1.addr < dc.next_addr + 1
        rw [r4]
        simp [DataCacheEntity.construct]
  refine ⟨_, ?_, hvalid, find_of_mem _ path _ hvalid.1 hmemnew, r2, r3, r6⟩
  rw [r4]

/-- `open_cache` (any `is_create`, so `exist_open` too) on a path whose entity is open. -/
theorem open_cache_dup (env : Env) (dc : DataCache) (w : World) (path : String)
    (pmeta : Option ObjectMetaData) (size time : Int) (force_tmpfile is_create : Bool)
    (e : DataCacheEntity) (hv : Valid dc) (hf : dc.find path = some e) (hfd : e.fd ≠ -1) :
    (open_cache env dc w path pmeta size time force_tmpfile is_create).1 = some e.addr ∧
    (open_cache env dc w path pmeta size time force_tmpfile is_create).2.2 = w ∧
    Valid (open_cache env dc w path pmeta size time force_tmpfile is_create).2.1 ∧
    (open_cache env dc w path pmeta size time force_tmpfile is_create).2.1.find path
      = some { e with ref_count := e.ref_count + 1 } := by
  have hmem := mem_of_find dc path e hf
  obtain ⟨a, b⟩ := store_valid dc path e { e with ref_count := e.ref_count + 1 } hv hmem rfl rfl
  have heq : open_cache env dc w path pmeta size time force_tmpfile is_create
      = (some e.addr,
         { dc with data_cache := store dc.data_cache e.addr { e with ref_count := e.ref_count + 1 } },
         w) := by
    simp [open_cache, hf, DataCacheEntity.open_file_dup env e w pmeta size time hfd]
  rw [heq]
  exact ⟨rfl, rfl, a, find_of_mem _ path _ a.1 b⟩

/-- `close_cache` on one of several references. -/
theorem close_cache_dec (env : Env) (dc : DataCache) (w : World) (path : String)
    (e : DataCacheEntity) (hv : Valid dc) (hf : dc.find path = some e) (hfd : 0 ≤ e.fd)
    (hrc : 2 ≤ e.ref_count) :
    (close_cache env dc w e.addr).1 = false ∧ (close_cache env dc w e.addr).2.2 = w ∧
    Valid (close_cache env dc w e.addr).2.1 ∧
    (close_cache env dc w e.addr).2.1.find path = some { e with ref_count := e.ref_count - 1 } := by
  have hmem := mem_of_find dc path e hf
  obtain ⟨k, _, _, heq⟩ := close_cache_eq env dc w e.addr e (sound_of_valid dc hv)
    (deref_of_mem dc path e hv.2.1 hmem)
  obtain ⟨a, b⟩ := store_valid dc path e { e with ref_count := e.ref_count - 1 } hv hmem rfl rfl
  have hopen : DataCacheEntity.is_open { e with ref_count := e.ref_count - 1 } = true := by
    simp only [DataCacheEntity.is_open, bne_iff_ne, ne_eq]
    omega
  rw [heq, DataCacheEntity.close_file_dec env e w hfd hrc]
  simp only [hopen, Bool.not_true, Bool.false_eq_true, if_false]
  exact ⟨trivial, trivial, a, find_of_mem _ path _ a.1 b⟩

/-- `close_cache` on the last reference, the descriptor being closed by `close_file`. -/
theorem close_cache_last (env : Env) (dc : DataCache) (w : World) (path : String)
    (e : DataCacheEntity) (hv : Valid dc) (hf : dc.find path = some e) (hfd : 0 ≤ e.fd)
    (hrc : e.ref_count = 1)
    (hok : e.is_tmpfile = true →
      (DataCacheEntity.flush env { e with ref_count := e.ref_count - 1 } w false).1 = 0 ∧
      env.unlink_tmp_errno = none) :
    (close_cache env dc w e.addr).1 = true ∧
    Valid (close_cache env dc w e.addr).2.1 ∧
    (close_cache env dc w e.addr).2.1.find path = none ∧
    (close_cache env dc w e.addr).2.1.registered e.addr = false := by
  have hmem := mem_of_find dc path e hf
  have hs := sound_of_valid dc hv
  obtain ⟨k, hk, _, heq⟩ := close_cache_eq env dc w e.addr e hs
    (deref_of_mem dc path e hv.2.1 hmem)
  have hkp : k = path := by
    have := List.inj_on_of_nodup_map hv.2.1 hk hmem rfl
    exact (Prod.mk.inj this).1
  subst hkp
  obtain ⟨c1, c2, _, c4, _⟩ := DataCacheEntity.close_file_last env e w hfd hrc
  have hclosed : (DataCacheEntity.close_file env e w).2.1.is_open = false := by
    simp [DataCacheEntity.is_open, c4 hok]
  obtain ⟨a, _⟩ := store_valid dc k e (DataCacheEntity.close_file env e w).2.1 hv hmem c1 c2
  obtain ⟨a2, b2⟩ := erase_valid _ k a
  have hreg := not_registered_after_erase dc e.addr k e
    (DataCacheEntity.close_file env e w).2.1 hs hmem rfl
  rw [heq]
  simp only [hclosed, Bool.not_false, if_true]
  exact ⟨trivial, a2, b2, hreg⟩

theorem registered_of_mem (dc : DataCache) (k : String) (e : DataCacheEntity)
    (h : (k, e) ∈ dc.data_cache) : dc.registered e.addr = true := by
  simp only [registered, List.any_eq_true, decide_eq_true_eq]
  exact ⟨(k, e), h, rfl⟩

theorem refCount_of_find (dc : DataCache) (path : String) (e : DataCacheEntity)
    (h : dc.find path = some e) : refCount dc path = e.ref_count := by
  simp only [refCount, h]

theorem refCount_of_none (dc : DataCache) (path : String) (h : dc.find path = none) :
    refCount dc path = 0 := by
  simp only [refCount, h]

theorem balance_count : ∀ (ops : List (Op × Env)) (c n : Nat), balance ops c = some n →
    n + closes ops = c + opens ops
  | [], c, n, h => by
    simp only [balance, Option.some.injEq] at h
    simp [opens, closes, h]
  | (Op.open_ _ _ _ _, _) :: ops, c, n, h => by
    have := balance_count ops (c + 1) n h
    simp only [opens, closes]; omega
  | (Op.close_, _) :: ops, c, n, h => by
    by_cases hc : c = 0
    · simp [balance, hc] at h
    · simp only [balance, hc, if_false] at h
      have := balance_count ops (c - 1) n h
      simp only [opens, closes]; omega

/-- In a map the entries under one key that is present are exactly one. -/
theorem filter_key_length (path : String) : ∀ (l : List (String × DataCacheEntity)),
    (l.map Prod.fst).Nodup → (∃ e, (path, e) ∈ l) →
    (l.filter (fun kv => decide (kv.1 = path))).length = 1
  | [], _, h => by simp at h
  | kv :: l, hn, ⟨e, he⟩ => by
    simp only [List.map_cons, List.nodup_cons, List.mem_map, not_exists, not_and] at hn
    by_cases hk : kv.1 = path
    · have hnil : l.filter (fun kv => decide (kv.1 = path)) = [] := by
        rw [List.filter_eq_nil_iff]
        intro a ha
        have := hn.1 a ha
        simpa [hk] using this
      simp [List.filter, hk, hnil]
    · have hmem : (path, e) ∈ l := by
        rcases List.mem_cons.1 he with h | h
        · exact absurd (by rw [← h]) hk
        · exact h
      simp only [List.filter, hk, decide_False]
      exact filter_key_length path l hn.2 ⟨e, hmem⟩

/-- A sequence of opens and closes of one path, every close matched by an earlier
open and every local file operation succeeding, keeps the count of the registry in step
with the calls. -/
theorem runOps_counted (path : String) : ∀ (ops : List (Op × Env)) (c : Nat)
    (s : DataCache × World), Counted path c s → (∀ op ∈ ops, op.2.localOk) →
    ∀ n, balance ops c = some n → Counted path n (runOps path ops s)
  | [], c, s, h, _, n, hb => by
    simp only [balance, Option.some.injEq] at hb
    subst hb
    exact h
  | (Op.open_ pmeta size time force_tmpfile, env) :: ops, c, s, h, hok, n, hb => by
    have hok1 : env.localOk := hok _ (List.mem_cons_self _ _)
    have hok2 : ∀ op ∈ ops, op.2.localOk := fun op hop => hok op (List.mem_cons_of_mem _ hop)
    simp only [balance] at hb
    simp only [runOps]
    refine runOps_counted path ops (c + 1) _ ?_ hok2 n hb
    by_cases hc : c = 0
    · obtain ⟨e2, _, a, b, r, f, m⟩ := open_cache_new env s.1 s.2 path pmeta size time
        force_tmpfile h.1 (h.2.1 hc) hok1
      exact ⟨a, fun hz => absurd hz (by omega), fun _ => ⟨e2, b, by rw [r, hc]; rfl, f, m⟩⟩
    · obtain ⟨e, hf, hr, hfd, hm⟩ := h.2.2 (by omega)
      obtain ⟨_, _, a, b⟩ := open_cache_dup env s.1 s.2 path pmeta size time force_tmpfile
        true e h.1 hf (by omega)
      refine ⟨a, fun hz => absurd hz (by omega), fun _ => ⟨_, b, ?_, hfd, hm⟩⟩
      show e.ref_count + 1 = ((c + 1 : Nat) : Int)
      rw [hr]; push_cast; rfl
  | (Op.close_, env) :: ops, c, s, h, hok, n, hb => by
    have hok1 : env.localOk := hok _ (List.mem_cons_self _ _)
    have hok2 : ∀ op ∈ ops, op.2.localOk := fun op hop => hok op (List.mem_cons_of_mem _ hop)
    by_cases hc : c = 0
    · simp [balance, hc] at hb
    · simp only [balance, hc, if_false] at hb
      obtain ⟨e, hf, hr, hfd, hm⟩ := h.2.2 (by omega)
      simp only [runOps, hf]
      refine runOps_counted path ops (c - 1) _ ?_ hok2 n hb
      by_cases h1 : c = 1
      · have hfl : e.is_tmpfile = true →
            (DataCacheEntity.flush env { e with ref_count := e.ref_count - 1 } s.2 false).1 = 0 ∧
            env.unlink_tmp_errno = none := by
          intro _
          have := DataCacheEntity.flush_unmodified env { e with ref_count := e.ref_count - 1 }
            s.2 (by show ¬ e.fd = -1; omega) hm
          rw [this]
          exact ⟨rfl, hok1.2.2.2.2.2.2.2.1⟩
        obtain ⟨_, a, b, _⟩ := close_cache_last env s.1 s.2 path e h.1 hf hfd
          (by rw [hr, h1]; rfl) hfl
        exact ⟨a, fun _ => b, fun hz => absurd hz (by omega)⟩
      · obtain ⟨_, _, a, b⟩ := close_cache_dec env s.1 s.2 path e h.1 hf hfd (by omega)
        refine ⟨a, fun hz => absurd hz (by omega), fun _ => ⟨_, b, ?_, hfd, hm⟩⟩
        show e.ref_count - 1 = ((c - 1 : Nat) : Int)
        rw [hr]; omega

end DataCache

/-! ## Lemmas on the stat-cache text format -/

theorem digitChar_facts : ∀ d, d < 10 →
    (digitChar d).isDigit = true ∧ (digitChar d).toNat - 48 = d := by
  decide

theorem isDigit_facts (c : Char) (h : c.isDigit = true) :
    c.isWhitespace = false ∧ c ≠ '-' ∧ c ≠ '+' ∧ c ≠ '\n' ∧ c ≠ ':' := by
  refine ⟨?_, ?_, ?_, ?_, ?_⟩
  · simp only [Char.isWhitespace, Bool.or_eq_false_iff, decide_eq_false_iff_not]
    refine ⟨⟨⟨?_, ?_⟩, ?_⟩, ?_⟩ <;> (intro hc; subst hc; exact absurd h (by decide))
  all_goals (intro hc; subst hc; exact absurd h (by decide))

/-- The digits of `n` are digits, and reading them back gives `n`. -/
theorem decimalFuel_spec : ∀ (fuel n : Nat), n ≤ fuel →
    (∀ c ∈ decimalFuel fuel n, c.isDigit = true) ∧
    (decimalFuel fuel n).foldl (fun a c => a * 10 + (c.toNat - 48)) 0 = n ∧
    decimalFuel fuel n ≠ []
  | 0, n, h => by
    have hn : n = 0 := by omega
    subst hn
    refine ⟨?_, ?_, ?_⟩ <;> simp [decimalFuel] <;> decide
  | fuel + 1, n, h => by
    by_cases h10 : n < 10
    · simp only [decimalFuel, h10, if_true]
      obtain ⟨a, b⟩ := digitChar_facts n h10
      refine ⟨?_, ?_, by simp⟩
      · intro c hc
        simp only [List.mem_singleton] at hc
        rw [hc]; exact a
      · simp [b]
    · simp only [decimalFuel, h10, if_false]
      obtain ⟨a, b, _⟩ := decimalFuel_spec fuel (n / 10) (by omega)
      obtain ⟨c1, c2⟩ := digitChar_facts (n % 10) (Nat.mod_lt _ (by omega))
      refine ⟨?_, ?_, by simp⟩
      · intro c hc
        rcases List.mem_append.1 hc with hc | hc
        · exact a c hc
        · simp only [List.mem_singleton] at hc
          rw [hc]; exact c1
      · rw [List.foldl_append, b]
        simp only [List.foldl_cons, List.foldl_nil, c2]
        omega

theorem decimal_isDigit (n : Nat) : ∀ c ∈ decimal n, c.isDigit = true :=
  (decimalFuel_spec n n le_rfl).1

theorem decimal_ne_nil (n : Nat) : decimal n ≠ [] :=
  (decimalFuel_spec n n le_rfl).2.2

theorem parseDigits_append : ∀ (xs rest : List Char) (acc : Nat),
    (∀ c ∈ xs, c.isDigit = true) →
    parseDigits acc (xs ++ rest)
      = parseDigits (xs.foldl (fun a c => a * 10 + (c.toNat - 48)) acc) rest
  | [], _, _, _ => rfl
  | x :: xs, rest, acc, h => by
    have hx := h x (List.mem_cons_self _ _)
    simp only [List.cons_append, parseDigits, hx, if_true, List.foldl_cons]
    exact parseDigits_append xs rest _ (fun c hc => h c (List.mem_cons_of_mem _ hc))

theorem parseDigits_decimal (n : Nat) : parseDigits 0 (decimal n) = n := by
  have := parseDigits_append (decimal n) [] 0 (decimal_isDigit n)
  rw [List.append_nil] at this
  rw [this]
  unfold decimal
  rw [(decimalFuel_spec n n le_rfl).2.1]
  rfl

/-- `strtoll` reads back what `operator<<` printed. -/
theorem strtoll_decimal (n : Nat) (h : n ≤ LLONG_MAX) : strtoll (decimal n) = (n : Int) := by
  have hne := decimal_ne_nil n
  have hd := decimal_isDigit n
  have hp := parseDigits_decimal n
  generalize decimal n = s at hne hd hp
  cases s with
  | nil => exact absurd rfl hne
  | cons c cs =>
    obtain ⟨f1, f2, f3, _, _⟩ := isDigit_facts c (hd c (List.mem_cons_self _ _))
    have hdw : (c :: cs).dropWhile Char.isWhitespace = c :: cs := by
      simp [List.dropWhile, f1]
    unfold strtoll
    rw [hdw]
    split
    · rename_i heq
      exact absurd (List.cons.inj heq).1 f2
    · rename_i heq
      exact absurd (List.cons.inj heq).1 f3
    · rw [hp]
      simp only [Nat.cast_inj]
      omega

theorem strtoll_flag (fl : Bool) :
    (strtoll [if fl then '1' else '0'] != 0) = fl := by
  cases fl <;> decide

theorem getline_append (xs rest : List Char) (d : Char) (h : ∀ c ∈ xs, c ≠ d) :
    getline (xs ++ d :: rest) d = some (xs, rest) := by
  have hp : ∀ a ∈ xs, (fun c => c != d) a = true := by
    intro a ha
    simpa using h a ha
  have h1 : (xs ++ d :: rest).takeWhile (fun c => c != d) = xs := by
    rw [List.takeWhile_append_of_pos hp]
    simp [List.takeWhile]
  have h2 : (xs ++ d :: rest).dropWhile (fun c => c != d) = d :: rest := by
    rw [List.dropWhile_append_of_pos hp]
    simp [List.dropWhile]
  unfold getline
  split
  · rename_i heq
    simp at heq
  · rw [h1, h2]
    rfl

theorem getline_last (xs : List Char) (d : Char) (hne : xs ≠ []) (h : ∀ c ∈ xs, c ≠ d) :
    getline xs d = some (xs, []) := by
  have hp : ∀ a ∈ xs, (fun c => c != d) a = true := by
    intro a ha
    simpa using h a ha
  have h1 : xs.takeWhile (fun c => c != d) = xs := by
    have := @List.takeWhile_append_of_pos _ _ xs [] hp
    simpa using this
  have h2 : xs.dropWhile (fun c => c != d) = [] := by
    have := @List.dropWhile_append_of_pos _ _ xs [] hp
    simpa using this
  cases xs with
  | nil => exact absurd rfl hne
  | cons c cs =>
    simp only [getline]
    rw [h1, h2]
    rfl

theorem lineText_no_newline (p : ObjectPage) : ∀ c ∈ lineText p, c ≠ '\n' := by
  intro c hc
  simp only [lineText, List.mem_append, List.mem_cons, List.mem_singleton,
    List.not_mem_nil, or_false] at hc
  rcases hc with hc | hc | hc | hc | hc
  · exact (isDigit_facts c (decimal_isDigit _ c hc)).2.2.2.1
  · rw [hc]; decide
  · exact (isDigit_facts c (decimal_isDigit _ c hc)).2.2.2.1
  · rw [hc]; decide
  · rw [hc]; cases p.loaded <;> decide

theorem lineText_ne_nil (p : ObjectPage) : lineText p ≠ [] := by
  simp [lineText]

/-- The three fields of a written line are read back as the page. -/
theorem getline_lineText (p : ObjectPage) :
    getline (lineText p) ':' = some (decimal p.offset,
      decimal p.bytes ++ ':' :: [if p.loaded then '1' else '0']) ∧
    getline (decimal p.bytes ++ ':' :: [if p.loaded then '1' else '0']) ':'
      = some (decimal p.bytes, [if p.loaded then '1' else '0']) ∧
    getline [if p.loaded then '1' else '0'] ':'
      = some ([if p.loaded then '1' else '0'], []) := by
  refine ⟨?_, ?_, ?_⟩
  · exact getline_append _ _ _ (fun c hc => (isDigit_facts c (decimal_isDigit _ c hc)).2.2.2.2)
  · exact getline_append _ _ _ (fun c hc => (isDigit_facts c (decimal_isDigit _ c hc)).2.2.2.2)
  · cases p.loaded <;> decide

theorem readLines_nil : ∀ (fuel : Nat) (l : PageList), readLines fuel [] l = (false, l)
  | 0, _ => rfl
  | _ + 1, _ => rfl

theorem toSizeT_natCast (n : Nat) (h : n ≤ LLONG_MAX) : toSizeT (n : Int) = n := by
  have h63 : (2 : Nat) ^ 63 = 9223372036854775808 := by norm_num
  unfold LLONG_MAX at h
  unfold toSizeT
  omega

theorem cstring_of_no_nul (xs : List Char) (h : ∀ c ∈ xs, c ≠ Char.ofNat 0) :
    cstring xs = xs := by
  unfold cstring
  rw [List.takeWhile_eq_self_iff]
  intro c hc
  simpa using h c hc

theorem isDigit_ne_nul (c : Char) (h : c.isDigit = true) : c ≠ Char.ofNat 0 := by
  intro hc
  subst hc
  exact absurd h (by decide)

/-- The text written in write mode holds no NUL. -/
theorem serializeText_no_nul (l : PageList) : ∀ c ∈ serializeText l, c ≠ Char.ofNat 0 := by
  intro c hc
  simp only [serializeText, List.mem_append, List.mem_flatten, List.mem_map] at hc
  rcases hc with hc | ⟨t, ⟨p, _, hp⟩, hct⟩
  · exact isDigit_ne_nul c (decimal_isDigit _ c hc)
  · rw [← hp] at hct
    simp only [pageText, lineText, List.mem_append, List.mem_cons, List.mem_singleton,
      List.not_mem_nil, or_false] at hct
    rcases hct with hc | hc | hc | hc | hc | hc
    · rw [hc]; decide
    · exact isDigit_ne_nul c (decimal_isDigit _ c hc)
    · rw [hc]; decide
    · exact isDigit_ne_nul c (decimal_isDigit _ c hc)
    · rw [hc]; decide
    · rw [hc]; cases p.loaded <;> decide

/-- One round of the read loop on a written line. -/
theorem readLines_line (fuel : Nat) (p : ObjectPage) (rest : List Char) (acc : PageList)
    (text : List Char) (hg : getline text '\n' = some (lineText p, rest))
    (h1 : p.offset ≤ LLONG_MAX) (h2 : p.bytes ≤ LLONG_MAX) :
    readLines (fuel + 1) text acc = readLines fuel rest (readStep acc p) := by
  obtain ⟨g1, g2, g3⟩ := getline_lineText p
  simp only [readLines, hg, g1, g2, g3, strtoll_decimal _ h1, strtoll_decimal _ h2,
    strtoll_flag, toSizeT_natCast _ h1, toSizeT_natCast _ h2, readStep]

theorem readLines_body : ∀ (ps : List ObjectPage) (p : ObjectPage) (acc : PageList)
    (fuel : Nat), ps.length + 1 ≤ fuel →
    (∀ q ∈ p :: ps, q.offset ≤ LLONG_MAX ∧ q.bytes ≤ LLONG_MAX) →
    readLines fuel (lineText p ++ (ps.map pageText).flatten) acc
      = (false, (p :: ps).foldl readStep acc)
  | [], p, acc, fuel, hf, hb => by
    obtain ⟨f, rfl⟩ : ∃ f, fuel = f + 1 := ⟨fuel - 1, by omega⟩
    have hg : getline (lineText p ++ ([].map pageText).flatten) '\n'
        = some (lineText p, []) := by
      simp only [List.map_nil, List.flatten_nil, List.append_nil]
      exact getline_last _ _ (lineText_ne_nil p) (lineText_no_newline p)
    rw [readLines_line f p [] acc _ hg (hb p (List.mem_cons_self _ _)).1
      (hb p (List.mem_cons_self _ _)).2, readLines_nil]
    rfl
  | q :: qs, p, acc, fuel, hf, hb => by
    obtain ⟨f, rfl⟩ : ∃ f, fuel = f + 1 := ⟨fuel - 1, by omega⟩
    have hg : getline (lineText p ++ ((q :: qs).map pageText).flatten) '\n'
        = some (lineText p, lineText q ++ (qs.map pageText).flatten) := by
      simp only [List.map_cons, List.flatten_cons, pageText, List.cons_append]
      exact getline_append _ _ _ (lineText_no_newline p)
    rw [readLines_line f p _ acc _ hg (hb p (List.mem_cons_self _ _)).1
      (hb p (List.mem_cons_self _ _)).2,
      readLines_body qs q (readStep acc p) f (by simp only [List.length_cons] at hf; omega)
        (fun x hx => hb x (List.mem_cons_of_mem _ hx))]
    rfl

theorem length_le_flatten_pageText : ∀ (ps : List ObjectPage),
    ps.length ≤ ((ps.map pageText).flatten).length
  | [] => le_rfl
  | p :: ps => by
    have := length_le_flatten_pageText ps
    simp only [List.map_cons, List.flatten_cons, List.length_append, List.length_cons,
      pageText]
    omega

namespace ObjectPageList

theorem alternating_append_left : ∀ (a b : List ObjectPage), Alternating (a ++ b) →
    Alternating a
  | [], _, _ => trivial
  | [_], _, _ => trivial
  | _ :: y :: a, b, h => ⟨h.1, alternating_append_left (y :: a) b h.2⟩

theorem contig_append_cons : ∀ (pre : List ObjectPage) (o : Nat) (q : ObjectPage)
    (rest : List ObjectPage), Contig o (pre ++ q :: rest) →
    Contig o pre ∧ q.offset = o + sumBytes pre
  | [], o, q, rest, h => ⟨trivial, by simpa [sumBytes] using h.1⟩
  | p :: pre, o, q, rest, h => by
    obtain ⟨a, b⟩ := contig_append_cons pre p.next q rest h.2
    refine ⟨⟨h.1, a⟩, ?_⟩
    have := h.1
    rw [b, sumBytes_cons, ObjectPage.next]
    omega

theorem contig_next_le : ∀ (l : List ObjectPage) (o : Nat), Contig o l →
    ∀ q ∈ l, q.offset + q.bytes ≤ o + sumBytes l
  | [], _, _, _, hq => by simp at hq
  | p :: ps, o, hc, q, hq => by
    have h0 : p.offset = o := hc.1
    rw [sumBytes_cons]
    rcases List.mem_cons.1 hq with rfl | hq
    · omega
    · have := contig_next_le ps p.next hc.2 q hq
      simp only [ObjectPage.next] at this
      omega

/-- Replaying the pages of a well-formed list, in order, rebuilds the list. -/
theorem readStep_append (pre : List ObjectPage) (q : ObjectPage) (rest : List ObjectPage)
    (h : WellFormed (pre ++ q :: rest)) (hne : pre ≠ []) : readStep pre q = pre ++ [q] := by
  have hpos : Pos (pre ++ q :: rest) := by
    rcases h.2.2 with hp | hl
    · exact hp
    · exfalso
      cases pre with
      | nil => exact hne rfl
      | cons x xs => simp at hl
  obtain ⟨hc, hoff⟩ := contig_append_cons pre 0 q rest h.1
  have hsz : get_size pre = sumBytes pre := get_size_eq_sum pre hc
  have hq : 0 < q.bytes := hpos q (by simp)
  have hpre : 0 < sumBytes pre := by
    cases pre with
    | nil => exact absurd rfl hne
    | cons x xs =>
      have := hpos x (by simp)
      rw [sumBytes_cons]; omega
  have halt : Alternating (pre ++ [q]) := by
    have : pre ++ q :: rest = (pre ++ [q]) ++ rest := by simp
    rw [this] at h
    exact alternating_append_left _ _ h.2.1
  have hqeq : (⟨get_size pre, q.offset + q.bytes - get_size pre, q.loaded⟩ : ObjectPage) = q := by
    cases q with
    | mk o b l =>
      simp only [ObjectPage.mk.injEq, and_true] at hoff ⊢
      omega
  have h1 : get_size pre ≤ q.offset := by omega
  have h2 : ¬ get_size pre < q.offset := by omega
  have h3 : ¬ get_size pre = 0 := by omega
  have h4 : get_size pre < q.offset + q.bytes := by omega
  simp only [readStep, set_page_loaded_status, h1, if_true, h2, if_false, resize, h3, h4, hqeq]
  rw [compress_of_alternating _ halt, compress_of_alternating _ halt]

theorem foldl_readStep : ∀ (rest pre : List ObjectPage), WellFormed (pre ++ rest) →
    pre ≠ [] → rest.foldl readStep pre = pre ++ rest
  | [], pre, _, _ => by simp
  | q :: rest, pre, h, hne => by
    rw [List.foldl_cons, readStep_append pre q rest h hne,
      foldl_readStep rest (pre ++ [q]) (by simpa using h) (by simp)]
    simp

theorem foldl_readStep_nil (l : PageList) (h : WellFormed l) : l.foldl readStep [] = l := by
  cases l with
  | nil => rfl
  | cons p ps =>
    have h0 : p.offset = 0 := h.1.1
    have hp : readStep [] p = [p] := by
      cases p with
      | mk o b fl =>
        subst h0
        simp [readStep, set_page_loaded_status, get_size, resize, init, compress, compressAux]
    rw [List.foldl_cons, hp]
    exact foldl_readStep ps [p] h (by simp)

theorem reachable_nil : Reachable [] :=
  Reachable.resize (construct 1 false) 0 false (Reachable.construct 1 false)

theorem reachable_foldl_readStep : ∀ (ps : List ObjectPage) (a : PageList), Reachable a →
    Reachable (ps.foldl readStep a)
  | [], _, h => h
  | p :: ps, a, h =>
    reachable_foldl_readStep ps (readStep a p)
      (Reachable.set_page_loaded_status a p.offset p.bytes p.loaded h)

/-- The well-formed lists are exactly the lists the operations can produce. -/
theorem reachable_iff_wellFormed (l : PageList) : Reachable l ↔ WellFormed l := by
  constructor
  · exact wellFormed_of_reachable l
  · intro h
    have := reachable_foldl_readStep l [] reachable_nil
    rwa [foldl_readStep_nil l h] at this

end ObjectPageList

/-- A `row_flush` that does not return 0 leaves the entity as it was. -/
theorem DataCacheEntity.row_flush_failed (env : Env) (e : DataCacheEntity) (w : World)
    (tpath : Option String) (force_sync : Bool)
    (hret : (DataCacheEntity.row_flush env e w tpath force_sync).1 ≠ 0) :
    (DataCacheEntity.row_flush env e w tpath force_sync).2.1 = e := by
  revert hret
  simp only [DataCacheEntity.row_flush, ObjectPageList.get_total_unloaded_page_size_default,
    gt_iff_lt, lt_self_iff_false, if_false, ne_eq, not_true_eq_false]
  repeat' first | exact fun _ => rfl | exact fun h => absurd rfl h | split

/-- The three steps that build `base_mask` in `check_object_access`, as one
expression. -/
theorem base_mask_eq (cu cg : Prop) [Decidable cu] [Decidable cg] (r : Int) :
    (if r = 1 then
        (if cg then (if cu then S_IRWXO ||| S_IRWXU else S_IRWXO) ||| S_IRWXG
         else (if cu then S_IRWXO ||| S_IRWXU else S_IRWXO)) ||| S_IRWXG
      else
        (if cg then (if cu then S_IRWXO ||| S_IRWXU else S_IRWXO) ||| S_IRWXG
         else (if cu then S_IRWXO ||| S_IRWXU else S_IRWXO)))
      = S_IRWXO ||| (if cu then S_IRWXU else 0) ||| (if cg ∨ r = 1 then S_IRWXG else 0) := by
  by_cases h1 : cu <;> by_cases h2 : cg <;> by_cases h3 : r = 1 <;> simp [h1, h2, h3] <;> rfl

/-- The value of `check_object_access` for a caller that is neither root nor the
configured uid, and a mask other than `F_OK`. -/
theorem check_object_access_eq (options : BosfsOptions) (ctx : FuseContext) (st : Stat)
    (g : Nat → Nat → Int) (mask : Nat)
    (h : ¬ (ctx.uid = 0 ∨ (options.is_bosfs_uid = true ∧ options.bosfs_uid = ctx.uid) ∨
      mask = F_OK)) (effective : Nat)
    (he : effective =
      (if options.is_bosfs_umask then 0o777 &&& notU32 options.bosfs_mask else st.st_mode) &&&
      (S_IRWXO |||
        (if ctx.uid = (if options.is_bosfs_uid then options.bosfs_uid else st.st_uid)
          then S_IRWXU else 0) |||
        (if ctx.gid = (if options.is_bosfs_gid then options.bosfs_gid else st.st_gid) ∨
            g ctx.uid (if options.is_bosfs_gid then options.bosfs_gid else st.st_gid) = 1
          then S_IRWXG else 0))) :
    check_object_access options (some ctx) (0, st) g mask =
      if X_OK = (mask &&& X_OK) ∧ 0 = (effective &&& (S_IXUSR ||| S_IXGRP ||| S_IXOTH)) then
        - EACCES
      else if W_OK = (mask &&& W_OK) ∧ 0 = (effective &&& (S_IWUSR ||| S_IWGRP ||| S_IWOTH)) then
        - EACCES
      else if R_OK = (mask &&& R_OK) ∧ 0 = (effective &&& (S_IRUSR ||| S_IRGRP ||| S_IROTH)) then
        - EACCES
      else if 0 = effective then - EACCES
      else 0 := by
  have h1 : ¬ ctx.uid = 0 := fun x => h (Or.inl x)
  have h2 : ¬ (options.is_bosfs_uid = true ∧ options.bosfs_uid = ctx.uid) :=
    fun x => h (Or.inr (Or.inl x))
  have h3 : ¬ F_OK = mask := fun x => h (Or.inr (Or.inr x.symm))
  have h0 : ¬ ((0 : Int) ≠ 0) := by simp
  unfold check_object_access
  simp only []
  rw [if_neg h0, if_neg h1, if_neg h2, if_neg h3, base_mask_eq, he]
  rfl

/-- The string stored by a first `setxattr("abcd", "x")` on an object without
attributes, whatever the read of `*xattr.rbegin()` on the empty string yields. -/
theorem setxattr_first (c0 : Char) :
    setxattr c0 [] ['a', 'b', 'c', 'd'] [120] 0 =
      (0, if c0 ≠ ';' then [';', 'a', 'b', 'c', 'd', ':', 'e', 'A', '=', '=']
          else ['a', 'b', 'c', 'd', ':', 'e', 'A', '=', '=']) := by
  by_cases h : c0 = ';'
  · subst h; decide
  · have e : setxattr c0 [] ['a', 'b', 'c', 'd'] [120] 0 =
        (0, if c0 ≠ ';' then ';' :: (['a', 'b', 'c', 'd'] ++ ':' :: base64_encode [120])
            else (['a', 'b', 'c', 'd'] ++ ':' :: base64_encode [120])) := by
      simp [setxattr, locate_xattr, locateLoop, XATTR_REPLACE, str_insert]
    rw [e]
    simp only [h, ne_eq, not_false_eq_true, if_true]
    decide

/-- In the string `;abcd:eA==` the name `abc` is located at the record of `abcd`. -/
theorem locate_xattr_prefix :
    locate_xattr [';', 'a', 'b', 'c', 'd', ':', 'e', 'A', '=', '='] ['a', 'b', 'c'] 0 (some 0)
      = (some 1, 10, some 5) := by decide

/-- A `setxattr("abc", "y")` on the string `;abcd:eA==`, for each choice of flags. -/
theorem setxattr_second (c : Char) (flag : Nat) :
    setxattr c [';', 'a', 'b', 'c', 'd', ':', 'e', 'A', '=', '='] ['a', 'b', 'c'] [121] flag =
      if flag &&& XATTR_CREATE = XATTR_CREATE then
        (- EEXIST, [';', 'a', 'b', 'c', 'd', ':', 'e', 'A', '=', '='])
      else (0, [';', 'a', 'b', 'c', 'd', ':', 'e', 'Q', '=', '=']) := by
  simp only [setxattr, locate_xattr_prefix]
  split_ifs
  · rfl
  · decide

/-- The entries `rename_file` removes, whether the copy succeeds or fails: those of the
two keys without their last character. -/
theorem rename_file_table (env : Env) (client : BosClient) (w : World) (src dst : String)
    (size_hint : Int) :
    (rename_file env client w src dst size_hint).2.table =
      FileManager.del (FileManager.del w.table ("/" ++ dropLastChar src))
        ("/" ++ dropLastChar dst) := by
  unfold rename_file
  dsimp only
  split_ifs <;> rfl

/-- The fallback of `chmod` on the registry: `exist_open`, `set_mode`, `close_cache`. -/
theorem chmod_fallback_registry (env : Env) (dc : DataCache) (w : World) (path : String)
    (mode : Nat) (e : DataCacheEntity) (hv : DataCache.Valid dc) (hf : dc.find path = some e)
    (hfd : 0 ≤ e.fd) (hrc : 1 ≤ e.ref_count) :
    (DataCache.exist_open env dc w path).1 = some e.addr ∧
    (DataCache.exist_open env dc w path).2.2 = w ∧
    (DataCache.exist_open env dc w path).2.1.deref e.addr
      = some { e with ref_count := e.ref_count + 1 } ∧
    (DataCache.close_cache env
        { (DataCache.exist_open env dc w path).2.1 with
          data_cache := DataCache.store (DataCache.exist_open env dc w path).2.1.data_cache e.addr
            (DataCacheEntity.set_mode { e with ref_count := e.ref_count + 1 } mode) }
        w e.addr).2.2 = w ∧
    (DataCache.close_cache env
        { (DataCache.exist_open env dc w path).2.1 with
          data_cache := DataCache.store (DataCache.exist_open env dc w path).2.1.data_cache e.addr
            (DataCacheEntity.set_mode { e with ref_count := e.ref_count + 1 } mode) }
        w e.addr).2.1.find path
      = some { e with
               origin_meta := e.origin_meta.set_user_meta "bosfs-mode"
                 (DataCacheEntity.intText mode) } := by
  have hfd1 : e.fd ≠ -1 := by omega
  obtain ⟨o1, o2, o3, o4⟩ :=
    DataCache.open_cache_dup env dc w path none (-1) (-1) false false e hv hf hfd1
  have hmem := DataCache.mem_of_find _ path _ o4
  have hd := DataCache.deref_of_mem _ path _ o3.2.1 hmem
  obtain ⟨a, b⟩ := DataCache.store_valid _ path { e with ref_count := e.ref_count + 1 }
    (DataCacheEntity.set_mode { e with ref_count := e.ref_count + 1 } mode) o3 hmem rfl rfl
  have hf2 := DataCache.find_of_mem _ path _ a.1 b
  obtain ⟨c1, c2, c3, c4⟩ := DataCache.close_cache_dec env _ w path _ a hf2
    (by simpa [DataCacheEntity.set_mode] using hfd)
    (by simp only [DataCacheEntity.set_mode]; omega)
  refine ⟨o1, o2, hd, c2, ?_⟩
  unfold DataCache.exist_open
  rw [show (DataCacheEntity.set_mode { e with ref_count := e.ref_count + 1 } mode).addr = e.addr
    from rfl] at c4
  rw [c4]
  simp [DataCacheEntity.set_mode]

/-- Copies that keep answering `RET_KEY_NOT_EXIST`: every retry fails. -/
theorem retryCopy_key_not_exist (fa : Facade) (object : String) (meta : ObjectMetaData)
    (h : ∀ n, fa.copy_object_meta object meta n = CopyResult.key_not_exist) :
    ∀ (n i : Nat), retryCopy fa object meta n i = (false, n)
  | 0, _ => rfl
  | n + 1, i => by
    simp only [retryCopy, h, retryCopy_key_not_exist fa object meta h n (i + 1)]
    simp

/-- Copies that keep answering `RET_KEY_NOT_EXIST`: `change_object_meta` sends six
copies and returns `-ENOENT`. -/
theorem change_object_meta_key_not_exist (fa : Facade) (object : String) (meta : ObjectMetaData)
    (h : ∀ n, fa.copy_object_meta object meta n = CopyResult.key_not_exist) :
    change_object_meta fa object meta
      = (- ENOENT, List.replicate 6 (Event.copy_object object object)) := by
  simp only [change_object_meta, h, retryCopy_key_not_exist fa object meta h]
  simp

/-- The mode `getattr` reports is the one of the attribute lookup. -/
theorem getattr_mode (fa : Facade) (s : Fs) (path : String) :
    (getattr fa s path).1 = 0 →
    (getattr fa s path).2.1.st_mode =
      (get_object_attribute fa (check_path_accessible fa s.w.table path).2 path).2.1.st_mode := by
  unfold getattr
  dsimp only
  by_cases h1 : (check_path_accessible fa s.w.table path).1 ≠ 0
  · rw [if_pos h1]; intro h; exact absurd h h1
  · rw [if_neg h1]
    intro _
    split_ifs
    · rfl
    · rfl
    · split
      · split <;> rfl
      · rfl

/-- A hit does not change the attributes of an entry. -/
theorem File.stat_hit (options : BosfsOptions) (f : File) (now : Int) :
    File.stat options (f.hit now) = File.stat options f := rfl

/-- The attributes of a path whose entry is in the attribute cache and is not dropped as
expired are those `File::stat` derives from the entry. -/
theorem get_object_attribute_cached (fa : Facade) (table : FileTable) (path : String)
    (kv : String × File) (hp : path ≠ "/") (hd : path ≠ ".")
    (hf : table.find? (fun x => x.1 == path) = some kv)
    (hx : ¬ (fa.expire_s ≥ 0 ∧ kv.2.load_time_s + fa.expire_s < fa.now ∧
      fa.holders path + 1 ≤ 1)) :
    (get_object_attribute fa table path).1 = 0 ∧
    (get_object_attribute fa table path).2.1 = File.stat fa.options kv.2 ∧
    (get_object_attribute fa table path).2.2.1 = kv.2.meta := by
  have h0 : ¬ (path = "/" ∨ path = ".") := by
    rintro (h | h)
    · exact hp h
    · exact hd h
  have ht : FileManager.try_get fa.expire_s fa.now (fa.holders path + 1) table path
      = (true, some (kv.2.hit fa.now),
          table.map (fun x => if x.1 == path then (x.1, x.2.hit fa.now) else x)) := by
    unfold FileManager.try_get
    rw [hf]
    dsimp only
    rw [if_neg hx]
  have hg : FileManager.get fa table path
      = (.ok (kv.2.hit fa.now),
          table.map (fun x => if x.1 == path then (x.1, x.2.hit fa.now) else x)) := by
    unfold FileManager.get
    rw [ht]
  unfold get_object_attribute
  rw [if_neg h0, hg]
  exact ⟨rfl, rfl, rfl⟩

/-- With the path check and the attribute lookup succeeding, `getattr` returns 0. -/
theorem getattr_ok (fa : Facade) (s : Fs) (path : String)
    (h1 : (check_path_accessible fa s.w.table path).1 = 0)
    (h2 : (get_object_attribute fa (check_path_accessible fa s.w.table path).2 path).1 = 0) :
    (getattr fa s path).1 = 0 := by
  unfold getattr
  dsimp only
  rw [if_neg (by rw [h1]; simp), if_neg (by rw [h2]; simp)]
  split_ifs
  · rfl
  · split <;> rfl

/-! ## Lemmas on `get_unloaded_pages` and `load` -/

namespace ObjectPageList

/-- `pushUnloaded` on an output list that ends with `r`. -/
theorem pushUnloaded_concat (pre : List ObjectPage) (r : ObjectPage) (s z : Nat) :
    pushUnloaded (pre ++ [r]) s z =
      if r.next = s then pre ++ [r.set_bytes (r.bytes + z)]
      else pre ++ [r] ++ [⟨s, z, false⟩] := by
  simp [pushUnloaded]

/-- The runs found up to `o` are the runs up to `o2` when no unloaded byte of the window
lies in between. -/
theorem unloadedRuns_mono (st : Nat → Option Bool) (start next : Nat) (out : List ObjectPage)
    (o o2 : Nat) (h : UnloadedRuns st start next out o) (ho : o ≤ o2)
    (hgap : ∀ pos, o ≤ pos → pos < o2 → start ≤ pos → pos < next → st pos ≠ some false) :
    UnloadedRuns st start next out o2 := by
  obtain ⟨a, b, c⟩ := h
  refine ⟨fun p hp => ?_, b, fun pos h1 h2 h3 h4 => ?_⟩
  · obtain ⟨a1, a2, a3, a4, a5, a6⟩ := a p hp
    exact ⟨a1, a2, a3, a4, by omega, a6⟩
  · by_cases h5 : pos < o
    · exact c pos h1 h2 h5 h4
    · exact absurd h4 (hgap pos (by omega) h3 h1 h2)

/-- One output step of `get_unloaded_pages` keeps the output a list of runs. -/
theorem pushUnloaded_runs (st : Nat → Option Bool) (start next o s z : Nat)
    (out : List ObjectPage) (h : UnloadedRuns st start next out o)
    (ho : o ≤ s) (hz : 0 < z) (hs : start ≤ s) (hn : s + z ≤ next)
    (hst : ∀ pos, s ≤ pos → pos < s + z → st pos = some false)
    (hgap : ∀ pos, o ≤ pos → pos < s → start ≤ pos → st pos ≠ some false) :
    UnloadedRuns st start next (pushUnloaded out s z) (s + z) := by
  obtain ⟨a, b, c⟩ := h
  rcases List.eq_nil_or_concat out with rfl | ⟨pre, r, rfl⟩
  · refine ⟨?_, ?_, ?_⟩
    · intro p hp
      simp only [pushUnloaded, List.getLast?_nil, List.nil_append, List.mem_singleton] at hp
      subst hp
      exact ⟨rfl, hz, hs, hn, le_rfl, fun pos hc => hst pos hc.1 hc.2⟩
    · simp [pushUnloaded]
    · intro pos h1 h2 h3 h4
      refine ⟨⟨s, z, false⟩, by simp [pushUnloaded], ?_⟩
      by_cases h5 : pos < o
      · obtain ⟨p, hp, _⟩ := c pos h1 h2 h5 h4
        simp at hp
      · by_cases h6 : pos < s
        · exact absurd h4 (hgap pos (by omega) h6 h1)
        · exact ⟨by show s ≤ pos; omega, by show pos < s + z; exact h3⟩
  · have hr := a r (by simp)
    obtain ⟨r1, r2, r3, r4, r5, r6⟩ := hr
    rw [List.concat_eq_append] at b c a
    have hb := List.pairwise_append.1 b
    rw [List.concat_eq_append, pushUnloaded_concat]
    by_cases hrs : r.next = s
    · rw [if_pos hrs]
      have hnext : (r.set_bytes (r.bytes + z)).next = s + z := by
        simp only [ObjectPage.set_bytes, ObjectPage.next] at hrs ⊢
        omega
      refine ⟨?_, ?_, ?_⟩
      · intro p hp
        rcases List.mem_append.1 hp with hp | hp
        · obtain ⟨a1, a2, a3, a4, a5, a6⟩ := a p (List.mem_append_left _ hp)
          exact ⟨a1, a2, a3, a4, by omega, a6⟩
        · simp only [List.mem_singleton] at hp
          subst hp
          refine ⟨r1, ?_, r3, ?_, ?_, ?_⟩
          · show 0 < r.bytes + z; omega
          · rw [hnext]; exact hn
          · rw [hnext]
          · intro pos hc
            have h1 : r.offset ≤ pos := hc.1
            have h2 : pos < (r.set_bytes (r.bytes + z)).next := hc.2
            rw [hnext] at h2
            by_cases h3 : pos < r.next
            · exact r6 pos ⟨h1, h3⟩
            · exact hst pos (by omega) h2
      · refine List.pairwise_append.2 ⟨hb.1, by simp, ?_⟩
        intro p hp q hq
        simp only [List.mem_singleton] at hq
        subst hq
        exact hb.2.2 p hp r (by simp)
      · intro pos h1 h2 h3 h4
        by_cases h5 : pos < o
        · obtain ⟨p, hp, hc⟩ := c pos h1 h2 h5 h4
          rcases List.mem_append.1 hp with hp | hp
          · exact ⟨p, List.mem_append_left _ hp, hc⟩
          · simp only [List.mem_singleton] at hp
            rw [hp] at hc
            refine ⟨r.set_bytes (r.bytes + z), by simp, hc.1, ?_⟩
            show pos < (r.set_bytes (r.bytes + z)).next
            rw [hnext]
            have := hc.2
            omega
        · by_cases h6 : pos < s
          · exact absurd h4 (hgap pos (by omega) h6 h1)
          · refine ⟨r.set_bytes (r.bytes + z), by simp, ?_, ?_⟩
            · show r.offset ≤ pos
              simp only [ObjectPage.next] at hrs
              omega
            · show pos < (r.set_bytes (r.bytes + z)).next
              rw [hnext]; exact h3
    · rw [if_neg hrs]
      refine ⟨?_, ?_, ?_⟩
      · intro p hp
        rcases List.mem_append.1 hp with hp | hp
        · obtain ⟨a1, a2, a3, a4, a5, a6⟩ := a p hp
          exact ⟨a1, a2, a3, a4, by omega, a6⟩
        · simp only [List.mem_singleton] at hp
          subst hp
          exact ⟨rfl, hz, hs, hn, le_rfl, fun pos hc => hst pos hc.1 hc.2⟩
      · refine List.pairwise_append.2 ⟨b, by simp, ?_⟩
        intro p hp q hq
        simp only [List.mem_singleton] at hq
        subst hq
        show p.next < s
        rcases List.mem_append.1 hp with hp | hp
        · have h1 := hb.2.2 p hp r (by simp)
          simp only [ObjectPage.next] at *
          omega
        · simp only [List.mem_singleton] at hp
          subst hp
          omega
      · intro pos h1 h2 h3 h4
        by_cases h5 : pos < o
        · obtain ⟨p, hp, hc⟩ := c pos h1 h2 h5 h4
          exact ⟨p, List.mem_append_left _ hp, hc⟩
        · by_cases h6 : pos < s
          · exact absurd h4 (hgap pos (by omega) h6 h1)
          · exact ⟨⟨s, z, false⟩, by simp, by show s ≤ pos; omega, by show pos < s + z; exact h3⟩


/-- The loop of `get_unloaded_pages` keeps the output a list of runs, and ends with the
runs of the whole window. -/
theorem unloadedLoop_runs (st : Nat → Option Bool) (start next : Nat) (hsn : start < next) :
    ∀ (l out : List ObjectPage) (o : Nat), Contig o l →
    (∀ p ∈ l, 0 < p.bytes ∨ p.next ≤ start) →
    (∀ pos, o ≤ pos → st pos = loadedAt l pos) →
    UnloadedRuns st start next out o →
    UnloadedRuns st start next (unloadedLoop start next l out) next
  | [], out, o, _, _, hst, h => by
    simp only [unloadedLoop]
    obtain ⟨a, b, c⟩ := h
    refine ⟨fun p hp => ?_, b, fun pos h1 h2 _ h4 => ?_⟩
    · obtain ⟨a1, a2, a3, a4, a5, a6⟩ := a p hp
      exact ⟨a1, a2, a3, a4, a4, a6⟩
    · by_cases h5 : pos < o
      · exact c pos h1 h2 h5 h4
      · rw [hst pos (by omega)] at h4
        simp [loadedAt] at h4
  | p :: ps, out, o, hc, hpos, hst, h => by
    have h0 : p.offset = o := hc.1
    have hps : ∀ q ∈ ps, 0 < q.bytes ∨ q.next ≤ start :=
      fun q hq => hpos q (List.mem_cons_of_mem _ hq)
    have hst2 : ∀ pos, p.next ≤ pos → st pos = loadedAt ps pos := by
      intro pos hp
      rw [hst pos (by simp only [ObjectPage.next] at hp; omega)]
      have h1 : ¬ (p.offset ≤ pos ∧ pos < p.next) := by omega
      simp only [loadedAt, h1, if_false]
    have hin : ∀ pos, p.offset ≤ pos → pos < p.next → st pos = some p.loaded := by
      intro pos h1 h2
      rw [hst pos (by omega)]
      simp only [loadedAt, h1, h2, and_self, if_true]
    have hle : o ≤ p.next := by simp only [ObjectPage.next]; omega
    simp only [unloadedLoop]
    by_cases c1 : p.next ≤ start
    · rw [if_pos c1]
      exact unloadedLoop_runs st start next hsn ps out p.next hc.2 hps hst2
        (unloadedRuns_mono st start next out o p.next h hle (fun pos _ h2 h3 _ => by omega))
    · rw [if_neg c1]
      by_cases c2 : next ≤ p.offset
      · rw [if_pos c2]
        obtain ⟨a, b, c⟩ := h
        refine ⟨fun q hq => ?_, b, fun pos h1 h2 _ h4 => c pos h1 h2 (by omega) h4⟩
        obtain ⟨a1, a2, a3, a4, a5, a6⟩ := a q hq
        exact ⟨a1, a2, a3, a4, a4, a6⟩
      · rw [if_neg c2]
        by_cases c3 : p.loaded = true
        · rw [if_pos c3]
          refine unloadedLoop_runs st start next hsn ps out p.next hc.2 hps hst2
            (unloadedRuns_mono st start next out o p.next h hle (fun pos h1 h2 _ _ => ?_))
          rw [hin pos (by omega) h2, c3]
          simp
        · rw [if_neg c3]
          have c3f : p.loaded = false := by simpa using c3
          have hb : 0 < p.bytes := by
            rcases hpos p (List.mem_cons_self _ _) with hb | hb
            · exact hb
            · exact absurd hb c1
          have hnx : p.next = p.offset + p.bytes := rfl
          have hpush := pushUnloaded_runs st start next o (max p.offset start)
            (min p.next next - max p.offset start) out h (by omega) (by omega) (by omega)
            (by omega)
            (fun pos h1 h2 => by rw [hin pos (by omega) (by omega), c3f])
            (fun pos h1 h2 h3 => by omega)
          have hsum : max p.offset start + (min p.next next - max p.offset start)
              = min p.next next := by omega
          rw [hsum] at hpush
          refine unloadedLoop_runs st start next hsn ps _ p.next hc.2 hps hst2
            (unloadedRuns_mono st start next _ (min p.next next) p.next hpush (by omega)
              (fun pos h1 h2 _ h4 => by omega))

/-- On a well-formed list and a window of positive length `get_unloaded_pages` returns
the runs of unloaded bytes of the window: non-empty ranges inside the window and inside
the list, in ascending order, neither overlapping nor abutting, that hold unloaded bytes
only and together every unloaded byte of the window. -/
theorem get_unloaded_pages_spec (l : PageList) (start size : Nat) (hwf : WellFormed l)
    (hsize : 0 < size) :
    (∀ p ∈ get_unloaded_pages l [] start size,
      p.loaded = false ∧ 0 < p.bytes ∧ start ≤ p.offset ∧ p.next ≤ start + size ∧
      p.next ≤ get_size l ∧ ∀ pos, p.covers pos → loadedAt l pos = some false) ∧
    (get_unloaded_pages l [] start size).Pairwise (fun p q => p.next < q.offset) ∧
    (∀ pos, start ≤ pos → pos < start + size → loadedAt l pos = some false →
      ∃ p ∈ get_unloaded_pages l [] start size, p.covers pos) := by
  have hne : size ≠ 0 := by omega
  have hpos : ∀ p ∈ l, 0 < p.bytes ∨ p.next ≤ start := by
    intro p hp
    rcases hwf.2.2 with h | h
    · exact Or.inl (h p hp)
    · match l, hwf.1, h, hp with
      | [q], hc, _, hp =>
        simp only [List.mem_singleton] at hp
        subst hp
        have h0 : p.offset = 0 := hc.1
        by_cases hb : 0 < p.bytes
        · exact Or.inl hb
        · right
          simp only [ObjectPage.next]
          omega
  have h := unloadedLoop_runs (loadedAt l) start (start + size) (by omega) l [] 0 hwf.1 hpos
    (fun _ _ => rfl) ⟨by simp, by simp, fun pos _ _ h3 _ => by omega⟩
  unfold get_unloaded_pages
  simp only [hne, if_false]
  obtain ⟨a, b, c⟩ := h
  refine ⟨fun p hp => ?_, b, fun pos h1 h2 h4 => c pos h1 h2 h2 h4⟩
  obtain ⟨a1, a2, a3, a4, _, a6⟩ := a p hp
  refine ⟨a1, a2, a3, a4, ?_, a6⟩
  by_contra hlt
  have hcov : p.covers (p.next - 1) := by
    simp only [ObjectPage.covers, ObjectPage.next]
    omega
  have h1 := a6 _ hcov
  rw [loadedAt_none_of_ge l 0 (p.next - 1) hwf.1 (by
    rw [← get_size_eq_sum l hwf.1]; simp only [ObjectPage.next] at hlt ⊢; omega)] at h1
  simp at h1

end ObjectPageList

namespace DataCacheEntity
open ObjectPageList

/-- The download requests of `load`, range by range. -/
theorem loadRequests_cons (path : String) (origin : Nat) (p : ObjectPage)
    (ps : List ObjectPage) :
    loadRequests path origin (p :: ps) =
      (if 0 < need_load_size origin p
        then [Event.parallel_download path p.offset (need_load_size origin p)] else []) ++
      loadRequests path origin ps := by
  unfold loadRequests
  by_cases h : 0 < need_load_size origin p
  · simp [h, List.filter_cons]
  · simp [h, List.filter_cons]

/-- A `load` loop that runs through all ranges and returns 0: the state it leaves. -/
theorem loadLoop_ok (env : Env) (end_ : Nat)
    (hfill : ∀ n o, env.fill_file_errno n o ≠ some 0) :
    ∀ (pages : List ObjectPage) (e : DataCacheEntity) (w : World),
    (∀ p ∈ pages, p.offset < end_) → (loadLoop env end_ pages e w).1 = 0 →
    (loadLoop env end_ pages e w).2.1.page_list = markLoaded e.page_list pages ∧
    (loadLoop env end_ pages e w).2.1.file
      = loadWrites env e.origin_meta_size e.file pages ∧
    (loadLoop env end_ pages e w).2.2.trace
      = w.trace ++ loadRequests e.path e.origin_meta_size pages ∧
    (loadLoop env end_ pages e w).2.2.table = w.table ∧
    (loadLoop env end_ pages e w).2.1.fd = e.fd ∧
    (loadLoop env end_ pages e w).2.1.origin_meta_size = e.origin_meta_size ∧
    (loadLoop env end_ pages e w).2.1.path = e.path ∧
    ∀ p ∈ pages, 0 < need_load_size e.origin_meta_size p →
      (env.parallel_download p.offset (need_load_size e.origin_meta_size p)).1 = 0
  | [], e, w, _, _ => by
    simp [loadLoop, markLoaded, loadWrites, loadRequests]
  | page :: rest, e, w, hoff, hret => by
    have h1 : ¬ end_ ≤ page.offset := by
      have := hoff page (List.mem_cons_self _ _); omega
    have hrest : ∀ p ∈ rest, p.offset < end_ := fun p hp => hoff p (List.mem_cons_of_mem _ hp)
    simp only [loadLoop] at hret ⊢
    rw [if_neg h1] at hret ⊢
    by_cases h2 : 0 < need_load_size e.origin_meta_size page ∧
        (env.parallel_download page.offset (need_load_size e.origin_meta_size page)).1 ≠ 0
    · rw [if_pos h2] at hret
      exact absurd hret h2.2
    · rw [if_neg h2] at hret ⊢
      cases hx : (if 0 < over_size e.origin_meta_size page then
          env.fill_file_errno (over_size e.origin_meta_size page)
            (page.offset + need_load_size e.origin_meta_size page) else none) with
      | some errno =>
        rw [hx] at hret
        dsimp only at hret
        have he : errno = 0 := by omega
        subst he
        by_cases h3 : 0 < over_size e.origin_meta_size page
        · rw [if_pos h3] at hx
          exact absurd hx (hfill _ _)
        · rw [if_neg h3] at hx
          simp at hx
      | none =>
        rw [hx] at hret
        dsimp only at hret ⊢
        have key : ∀ (m : Bool) (f : List Byte) (w1 : World),
            f = loadWrite env e.origin_meta_size e.file page →
            w1.trace = w.trace ++
              (if 0 < need_load_size e.origin_meta_size page
                then [Event.parallel_download e.path page.offset
                  (need_load_size e.origin_meta_size page)] else []) →
            w1.table = w.table →
            (loadLoop env end_ rest
              { e with
                is_modified := m, file := f,
                page_list := set_page_loaded_status e.page_list page.offset page.bytes true true }
              w1).1 = 0 →
            (loadLoop env end_ rest
              { e with
                is_modified := m, file := f,
                page_list := set_page_loaded_status e.page_list page.offset page.bytes true true }
              w1).2.1.page_list = markLoaded e.page_list (page :: rest) ∧
            (loadLoop env end_ rest
              { e with
                is_modified := m, file := f,
                page_list := set_page_loaded_status e.page_list page.offset page.bytes true true }
              w1).2.1.file = loadWrites env e.origin_meta_size e.file (page :: rest) ∧
            (loadLoop env end_ rest
              { e with
                is_modified := m, file := f,
                page_list := set_page_loaded_status e.page_list page.offset page.bytes true true }
              w1).2.2.trace = w.trace ++ loadRequests e.path e.origin_meta_size (page :: rest) ∧
            (loadLoop env end_ rest
              { e with
                is_modified := m, file := f,
                page_list := set_page_loaded_status e.page_list page.offset page.bytes true true }
              w1).2.2.table = w.table ∧
            (loadLoop env end_ rest
              { e with
                is_modified := m, file := f,
                page_list := set_page_loaded_status e.page_list page.offset page.bytes true true }
              w1).2.1.fd = e.fd ∧
            (loadLoop env end_ rest
              { e with
                is_modified := m, file := f,
                page_list := set_page_loaded_status e.page_list page.offset page.bytes true true }
              w1).2.1.origin_meta_size = e.origin_meta_size ∧
            (loadLoop env end_ rest
              { e with
                is_modified := m, file := f,
                page_list := set_page_loaded_status e.page_list page.offset page.bytes true true }
              w1).2.1.path = e.path ∧
            ∀ p ∈ page :: rest, 0 < need_load_size e.origin_meta_size p →
              (env.parallel_download p.offset (need_load_size e.origin_meta_size p)).1 = 0 := by
          intro m f w1 hfile htr htab hr
          obtain ⟨i1, i2, i3, i4, i5, i6, i7, i8⟩ := loadLoop_ok env end_ hfill rest
            { e with
              is_modified := m, file := f,
              page_list := set_page_loaded_status e.page_list page.offset page.bytes true true }
            w1 hrest hr
          refine ⟨?_, ?_, ?_, ?_, ?_, ?_, ?_, ?_⟩
          rotate_right
          · intro p hp hn
            rcases List.mem_cons.1 hp with rfl | hp
            · by_contra hd
              exact h2 ⟨hn, hd⟩
            · exact i8 p hp hn
          · rw [i1]; rfl
          · rw [i2]; dsimp only; rw [hfile]; rfl
          · rw [i3]; dsimp only
            rw [htr, loadRequests_cons, List.append_assoc]
          · rw [i4, htab]
          · rw [i5]
          · rw [i6]
          · rw [i7]
        by_cases hn : 0 < need_load_size e.origin_meta_size page <;>
          by_cases hv : 0 < over_size e.origin_meta_size page <;>
          simp only [hn, hv, if_true, if_false] at hret ⊢ <;>
          exact key _ _ _ (by simp [loadWrite, hn, hv]) (by simp [hn]) rfl hret
end DataCacheEntity

namespace DataCacheEntity
open ObjectPageList

/-- The file after a `pwrite`, byte by byte. -/
theorem getElem?_pwrite_file (f b : List Byte) (s pos : Nat) :
    (pwrite_file f b s)[pos]? =
      if pos < s then some (byteAt f pos)
      else if pos < s + b.length then b[pos - s]? else f[pos]? := by
  have hlen : ((f ++ List.replicate (s - f.length) (0 : Byte)).take s).length = s := by
    simp only [List.length_take, List.length_append, List.length_replicate]
    omega
  unfold pwrite_file
  by_cases h1 : pos < s
  · rw [if_pos h1, List.append_assoc, List.getElem?_append_left (by rw [hlen]; exact h1),
      List.getElem?_take_of_lt h1]
    unfold byteAt
    by_cases h2 : pos < f.length
    · rw [List.getElem?_append_left h2, List.getD_eq_getElem?_getD]
      rw [List.getElem?_eq_getElem h2]
      rfl
    · rw [List.getElem?_append_right (by omega), List.getD_eq_default _ _ (by omega)]
      rw [List.getElem?_replicate]
      simp
      omega
  · rw [if_neg h1, List.append_assoc, List.getElem?_append_right (by rw [hlen]; omega), hlen]
    by_cases h2 : pos < s + b.length
    · rw [if_pos h2, List.getElem?_append_left (by omega)]
    · rw [if_neg h2, List.getElem?_append_right (by omega), List.getElem?_drop]
      congr 1
      omega

/-- `byteAt` in terms of the optional byte. -/
theorem byteAt_eq (f : List Byte) (pos : Nat) : byteAt f pos = (f[pos]?).getD 0 := by
  unfold byteAt
  rw [List.getD_eq_getElem?_getD]

/-- A write leaves the bytes outside its range as they are. -/
theorem pwrite_file_outside (f b : List Byte) (s pos : Nat)
    (h : ¬ (s ≤ pos ∧ pos < s + b.length)) :
    byteAt (pwrite_file f b s) pos = byteAt f pos ∧
    (f[pos]? = some 0 → (pwrite_file f b s)[pos]? = some 0) := by
  have hg := getElem?_pwrite_file f b s pos
  by_cases h1 : pos < s
  · rw [if_pos h1] at hg
    refine ⟨by rw [byteAt_eq, hg]; rfl, fun h0 => ?_⟩
    rw [hg, byteAt_eq, h0]; rfl
  · rw [if_neg h1, if_neg (by omega)] at hg
    exact ⟨by rw [byteAt_eq, byteAt_eq, hg], fun h0 => by rw [hg, h0]⟩

/-- The two parts `need_load_size` and `over_size` of a range. -/
theorem need_over (origin : Nat) (p : ObjectPage) :
    (origin ≤ p.offset → need_load_size origin p = 0 ∧ over_size origin p = 0) ∧
    (p.offset < origin →
      p.offset + need_load_size origin p = min origin p.next ∧
      p.offset + need_load_size origin p + over_size origin p = p.next) := by
  unfold need_load_size over_size
  simp only [ObjectPage.next]
  constructor
  · intro h
    rw [if_neg (by omega), if_neg (by omega)]
    exact ⟨rfl, rfl⟩
  · intro h
    have hgt : origin > p.offset := h
    simp only [hgt, if_true]
    by_cases hge : origin ≥ p.offset + p.bytes
    · simp only [hge, if_true]
      rw [Nat.min_eq_right hge]
      omega
    · simp only [hge, if_false]
      rw [Nat.min_eq_left (by omega)]
      omega

/-- The writes of `load` for one range stay inside the range. -/
theorem loadWrite_outside (env : Env) (origin : Nat) (f : List Byte) (p : ObjectPage)
    (pos : Nat)
    (hdl : 0 < need_load_size origin p →
      (env.parallel_download p.offset (need_load_size origin p)).2.length
        = need_load_size origin p)
    (h : ¬ p.covers pos) :
    byteAt (loadWrite env origin f p) pos = byteAt f pos ∧
    (f[pos]? = some 0 → (loadWrite env origin f p)[pos]? = some 0) := by
  obtain ⟨n1, n2⟩ := need_over origin p
  have hc : ¬ (p.offset ≤ pos ∧ pos < p.next) := h
  unfold loadWrite
  dsimp only
  by_cases hn : 0 < need_load_size origin p
  · have ho : p.offset < origin := by
      by_contra hh
      have := (n1 (by omega)).1
      omega
    obtain ⟨m1, m2⟩ := n2 ho
    have a := pwrite_file_outside f (env.parallel_download p.offset (need_load_size origin p)).2
      p.offset pos (by rw [hdl hn]; omega)
    rw [if_pos hn]
    by_cases hv : 0 < over_size origin p
    · rw [if_pos hv]
      have b := pwrite_file_outside
        (pwrite_file f (env.parallel_download p.offset (need_load_size origin p)).2 p.offset)
        (List.replicate (over_size origin p) 0) (p.offset + need_load_size origin p) pos
        (by rw [List.length_replicate]; omega)
      exact ⟨b.1.trans a.1, fun h0 => b.2 (a.2 h0)⟩
    · rw [if_neg hv]
      exact a
  · rw [if_neg hn]
    by_cases hv : 0 < over_size origin p
    · rw [if_pos hv]
      have ho : p.offset < origin := by
        by_contra hh
        have := (n1 (by omega)).2
        omega
      obtain ⟨m1, m2⟩ := n2 ho
      exact pwrite_file_outside f (List.replicate (over_size origin p) 0)
        (p.offset + need_load_size origin p) pos (by rw [List.length_replicate]; omega)
    · rw [if_neg hv]
      exact ⟨rfl, fun h0 => h0⟩

/-- A range that starts at or beyond the original size is not written. -/
theorem loadWrite_beyond (env : Env) (origin : Nat) (f : List Byte) (p : ObjectPage)
    (h : origin ≤ p.offset) : loadWrite env origin f p = f := by
  obtain ⟨n1, _⟩ := need_over origin p
  obtain ⟨a, b⟩ := n1 h
  unfold loadWrite
  dsimp only
  rw [if_neg (by omega), if_neg (by omega)]

/-- In a range that starts below the original size and ends beyond it, the part at or
beyond the original size is filled with zeros. -/
theorem loadWrite_zero (env : Env) (origin : Nat) (f : List Byte) (p : ObjectPage) (pos : Nat)
    (h : p.offset < origin) (h1 : origin ≤ pos) (h2 : pos < p.next) :
    (loadWrite env origin f p)[pos]? = some 0 := by
  obtain ⟨_, n2⟩ := need_over origin p
  obtain ⟨m1, m2⟩ := n2 h
  have hv : 0 < over_size origin p := by omega
  unfold loadWrite
  dsimp only
  rw [if_pos hv, getElem?_pwrite_file, if_neg (by omega),
    if_pos (by rw [List.length_replicate]; omega), List.getElem?_replicate]
  simp
  omega

/-- The writes of `load` change no byte outside the ranges that start below the original
size. -/
theorem loadWrites_outside (env : Env) (origin : Nat) (pos : Nat) :
    ∀ (pages : List ObjectPage) (f : List Byte),
    (∀ p ∈ pages, 0 < need_load_size origin p →
      (env.parallel_download p.offset (need_load_size origin p)).2.length
        = need_load_size origin p) →
    (∀ p ∈ pages, p.covers pos → origin ≤ p.offset) →
    byteAt (loadWrites env origin f pages) pos = byteAt f pos ∧
    (f[pos]? = some 0 → (loadWrites env origin f pages)[pos]? = some 0)
  | [], f, _, _ => ⟨rfl, fun h => h⟩
  | p :: ps, f, hdl, h => by
    have ih := loadWrites_outside env origin pos ps (loadWrite env origin f p)
      (fun q hq => hdl q (List.mem_cons_of_mem _ hq))
      (fun q hq => h q (List.mem_cons_of_mem _ hq))
    have hstep : byteAt (loadWrite env origin f p) pos = byteAt f pos ∧
        (f[pos]? = some 0 → (loadWrite env origin f p)[pos]? = some 0) := by
      by_cases hc : p.covers pos
      · rw [loadWrite_beyond env origin f p (h p (List.mem_cons_self _ _) hc)]
        exact ⟨rfl, fun h0 => h0⟩
      · exact loadWrite_outside env origin f p pos (hdl p (List.mem_cons_self _ _)) hc
    show byteAt (loadWrites env origin (loadWrite env origin f p) ps) pos = byteAt f pos ∧
      (f[pos]? = some 0 →
        (loadWrites env origin (loadWrite env origin f p) ps)[pos]? = some 0)
    exact ⟨ih.1.trans hstep.1, fun h0 => ih.2 (hstep.2 h0)⟩

/-- After the writes of `load`, the part at or beyond the original size of a range that
starts below the original size reads as zeros. -/
theorem loadWrites_zero (env : Env) (origin : Nat) (pos : Nat) :
    ∀ (pages : List ObjectPage) (f : List Byte),
    (∀ p ∈ pages, 0 < need_load_size origin p →
      (env.parallel_download p.offset (need_load_size origin p)).2.length
        = need_load_size origin p) →
    pages.Pairwise (fun p q => p.next < q.offset) →
    ∀ p ∈ pages, p.offset < origin → origin ≤ pos → pos < p.next →
    (loadWrites env origin f pages)[pos]? = some 0
  | [], _, _, _, p, hp, _, _, _ => by simp at hp
  | q :: qs, f, hdl, hpw, p, hp, h0, h1, h2 => by
    have hdl2 : ∀ r ∈ qs, 0 < need_load_size origin r →
        (env.parallel_download r.offset (need_load_size origin r)).2.length
          = need_load_size origin r := fun r hr => hdl r (List.mem_cons_of_mem _ hr)
    obtain ⟨hq, hqs⟩ := List.pairwise_cons.1 hpw
    show (loadWrites env origin (loadWrite env origin f q) qs)[pos]? = some 0
    rcases List.mem_cons.1 hp with rfl | hp
    · refine (loadWrites_outside env origin pos qs _ hdl2 (fun r hr hc => ?_)).2
        (loadWrite_zero env origin f p pos h0 h1 h2)
      have := hq r hr
      have := hc.1
      omega
    · exact loadWrites_zero env origin pos qs _ hdl2 hqs p hp h0 h1 h2

/-- The marking steps of `load` for ranges inside the list: the list stays well formed
and keeps its size, the bytes of the ranges are loaded, every other byte is as it was. -/
theorem markLoaded_spec : ∀ (pages : List ObjectPage) (l : PageList), WellFormed l →
    (∀ p ∈ pages, p.next ≤ ObjectPageList.get_size l) →
    WellFormed (markLoaded l pages) ∧
    ObjectPageList.get_size (markLoaded l pages) = ObjectPageList.get_size l ∧
    ∀ pos, ((∃ p ∈ pages, p.covers pos) → loadedAt (markLoaded l pages) pos = some true) ∧
      ((∀ p ∈ pages, ¬ p.covers pos) → loadedAt (markLoaded l pages) pos = loadedAt l pos)
  | [], l, hwf, _ => ⟨hwf, rfl, fun pos => ⟨fun ⟨p, hp, _⟩ => by simp at hp, fun _ => rfl⟩⟩
  | p :: ps, l, hwf, hin => by
    obtain ⟨a, b, c⟩ := set_page_loaded_status_spec l p.offset p.bytes true hwf
    have hp := hin p (List.mem_cons_self _ _)
    have hnx : p.next = p.offset + p.bytes := rfl
    have hsz : ObjectPageList.get_size (set_page_loaded_status l p.offset p.bytes true true)
        = ObjectPageList.get_size l := by
      rw [b]; omega
    obtain ⟨i1, i2, i3⟩ := markLoaded_spec ps
      (set_page_loaded_status l p.offset p.bytes true true) a
      (fun q hq => by rw [hsz]; exact hin q (List.mem_cons_of_mem _ hq))
    have hone : ∀ pos, loadedAt (set_page_loaded_status l p.offset p.bytes true true) pos =
        if p.covers pos then some true else loadedAt l pos := by
      intro pos
      rw [c pos]
      by_cases hc : p.offset ≤ pos ∧ pos < p.offset + p.bytes
      · rw [if_pos hc, if_pos (show p.covers pos from hc)]
      · rw [if_neg hc, if_neg (show ¬ p.covers pos from hc)]
        by_cases hlt : pos < ObjectPageList.get_size l
        · rw [if_pos hlt]
        · rw [if_neg hlt, if_neg (by omega)]
          exact (loadedAt_none_of_ge l 0 pos hwf.1 (by
            rw [← get_size_eq_sum l hwf.1]; omega)).symm
    refine ⟨i1, i2.trans hsz, fun pos => ⟨?_, ?_⟩⟩
    · rintro ⟨q, hq, hc⟩
      by_cases hex : ∃ r ∈ ps, r.covers pos
      · exact (i3 pos).1 hex
      · have hnone : ∀ r ∈ ps, ¬ r.covers pos := fun r hr hcr => hex ⟨r, hr, hcr⟩
        show loadedAt (markLoaded (set_page_loaded_status l p.offset p.bytes true true) ps) pos
          = some true
        rw [(i3 pos).2 hnone, hone pos]
        rcases List.mem_cons.1 hq with rfl | hq
        · rw [if_pos hc]
        · exact absurd hc (hnone q hq)
    · intro hnone
      show loadedAt (markLoaded (set_page_loaded_status l p.offset p.bytes true true) ps) pos
        = loadedAt l pos
      rw [(i3 pos).2 (fun r hr => hnone r (List.mem_cons_of_mem _ hr)), hone pos,
        if_neg (hnone p (List.mem_cons_self _ _))]

end DataCacheEntity

/-- A `load` over a window of positive length that returns 0: the state it leaves, in
terms of the unloaded runs that `get_unloaded_pages` finds in the window. -/
theorem DataCacheEntity.load_ok (env : Env) (e : DataCacheEntity) (w : World)
    (start size : Nat) (hfd : e.fd ≠ -1) (hsize : 0 < size)
    (hwf : ObjectPageList.WellFormed e.page_list)
    (hfill : ∀ n o, env.fill_file_errno n o ≠ some 0)
    (hok : (DataCacheEntity.load env e w start size).1 = 0) :
    (DataCacheEntity.load env e w start size).2.1.page_list
      = DataCacheEntity.markLoaded e.page_list (ObjectPageList.get_unloaded_pages e.page_list [] start size) ∧
    (DataCacheEntity.load env e w start size).2.1.file
      = DataCacheEntity.loadWrites env e.origin_meta_size e.file
          (ObjectPageList.get_unloaded_pages e.page_list [] start size) ∧
    (DataCacheEntity.load env e w start size).2.2.trace
      = w.trace ++ DataCacheEntity.loadRequests e.path e.origin_meta_size
          (ObjectPageList.get_unloaded_pages e.page_list [] start size) ∧
    (DataCacheEntity.load env e w start size).2.2.table = w.table ∧
    (DataCacheEntity.load env e w start size).2.1.fd = e.fd ∧
    (DataCacheEntity.load env e w start size).2.1.origin_meta_size = e.origin_meta_size ∧
    (DataCacheEntity.load env e w start size).2.1.path = e.path ∧
    ∀ p ∈ ObjectPageList.get_unloaded_pages e.page_list [] start size,
      0 < DataCacheEntity.need_load_size e.origin_meta_size p →
      (env.parallel_download p.offset
        (DataCacheEntity.need_load_size e.origin_meta_size p)).1 = 0 := by
  have hne : size ≠ 0 := by omega
  obtain ⟨a, _, _⟩ := ObjectPageList.get_unloaded_pages_spec e.page_list start size hwf hsize
  have hoff : ∀ p ∈ ObjectPageList.get_unloaded_pages e.page_list [] start size, p.offset < start + size := by
    intro p hp
    obtain ⟨_, a2, _, a4, _, _⟩ := a p hp
    simp only [ObjectPage.next] at a4
    omega
  unfold DataCacheEntity.load at hok ⊢
  rw [if_neg hfd, if_neg hne] at hok ⊢
  dsimp only at hok ⊢
  by_cases hem : (ObjectPageList.get_unloaded_pages e.page_list [] start size).isEmpty = true
  · rw [if_pos hem]
    have hnil : ObjectPageList.get_unloaded_pages e.page_list [] start size = [] := by
      simpa [List.isEmpty_iff] using hem
    rw [hnil]
    simp [DataCacheEntity.markLoaded, DataCacheEntity.loadWrites, DataCacheEntity.loadRequests]
  · rw [if_neg hem] at hok ⊢
    exact DataCacheEntity.loadLoop_ok env (start + size) hfill _ e w hoff hok

namespace ObjectPageList

theorem alternating_tail (p : ObjectPage) (ps : List ObjectPage) (h : Alternating (p :: ps)) :
    Alternating ps := by
  cases ps with
  | nil => trivial
  | cons q qs => exact h.2

/-- Two coalesced lists of non-empty ranges that start at the same offset and record
the same state for every byte position are the same list. -/
theorem eq_of_loadedAt_eq : ∀ (l l2 : List ObjectPage) (o : Nat), Contig o l → Contig o l2 →
    Alternating l → Alternating l2 → Pos l → Pos l2 →
    (∀ pos, loadedAt l pos = loadedAt l2 pos) → l = l2
  | [], [], _, _, _, _, _, _, _, _ => rfl
  | [], q :: qs, _, _, _, _, _, _, hq, h => by
    have hb := hq q (List.mem_cons_self _ _)
    have := h q.offset
    simp [loadedAt, ObjectPage.next, hb] at this
  | p :: ps, [], _, _, _, _, _, hp, _, h => by
    have hb := hp p (List.mem_cons_self _ _)
    have := h p.offset
    simp [loadedAt, ObjectPage.next, hb] at this
  | p :: ps, q :: qs, o, hc, hc2, ha, ha2, hp, hq, h => by
    have hpb := hp p (List.mem_cons_self _ _)
    have hqb := hq q (List.mem_cons_self _ _)
    have hpo : p.offset = o := hc.1
    have hqo : q.offset = o := hc2.1
    have hfl : p.loaded = q.loaded := by
      have := h o
      simpa [loadedAt, ObjectPage.next, hpo, hqo, hpb, hqb] using this
    -- the state just after a first range that is followed by more bytes
    have after : ∀ (a : ObjectPage) (as : List ObjectPage), Contig o (a :: as) →
        Alternating (a :: as) → Pos (a :: as) →
        loadedAt (a :: as) a.next = none ∨ loadedAt (a :: as) a.next = some (!a.loaded) := by
      intro a as hca haa hpa
      have h1 : ¬ (a.offset ≤ a.next ∧ a.next < a.next) := by omega
      simp only [loadedAt, h1, if_false]
      cases as with
      | nil => left; rfl
      | cons b bs =>
        right
        have hbo : b.offset = a.next := hca.2.1
        have hbb := hpa b (by simp)
        have hne : a.loaded ≠ b.loaded := haa.1
        have h2 : b.offset ≤ a.next ∧ a.next < b.next := by
          simp only [ObjectPage.next] at hbo ⊢; omega
        simp only [loadedAt, h2, and_self, if_true]
        cases ha : a.loaded <;> cases hb : b.loaded <;> simp_all
    have hby : p.bytes = q.bytes := by
      rcases Nat.lt_trichotomy p.bytes q.bytes with hlt | heq | hgt
      · exfalso
        have h1 := h p.next
        have h2 : q.offset ≤ p.next ∧ p.next < q.next := by
          simp only [ObjectPage.next]; omega
        have h3 : loadedAt (q :: qs) p.next = some q.loaded := by
          simp only [loadedAt, h2, and_self, if_true]
        rw [h3] at h1
        rcases after p ps hc ha hp with h4 | h4
        · rw [h4] at h1; simp at h1
        · rw [h4, hfl] at h1
          cases hq : q.loaded <;> simp [hq] at h1
      · exact heq
      · exfalso
        have h1 := h q.next
        have h2 : p.offset ≤ q.next ∧ q.next < p.next := by
          simp only [ObjectPage.next]; omega
        have h3 : loadedAt (p :: ps) q.next = some p.loaded := by
          simp only [loadedAt, h2, and_self, if_true]
        rw [h3] at h1
        rcases after q qs hc2 ha2 hq with h4 | h4
        · rw [h4] at h1; simp at h1
        · rw [h4, hfl] at h1
          cases hq : q.loaded <;> simp [hq] at h1
    have hpq : p = q := by
      cases p; cases q
      simp only at hpo hqo hfl hby
      simp only [ObjectPage.mk.injEq]
      exact ⟨by omega, hby, hfl⟩
    subst hpq
    have htail : ps = qs := by
      refine eq_of_loadedAt_eq ps qs p.next hc.2 hc2.2 (alternating_tail p ps ha)
        (alternating_tail p qs ha2) (fun x hx => hp x (List.mem_cons_of_mem _ hx))
        (fun x hx => hq x (List.mem_cons_of_mem _ hx)) (fun pos => ?_)
      by_cases hlt : pos < p.next
      · rw [loadedAt_none_of_lt ps p.next pos hc.2 hlt, loadedAt_none_of_lt qs p.next pos hc2.2 hlt]
      · have h1 : ¬ (p.offset ≤ pos ∧ pos < p.next) := by omega
        have := h pos
        simpa only [loadedAt, h1, if_false] using this
    rw [htail]

/-- Well-formed lists of the same positive size that record the same state for every
byte position are the same list. -/
theorem wellFormed_ext (l l2 : PageList) (h : WellFormed l) (h2 : WellFormed l2)
    (hs : get_size l ≠ 0) (hs2 : get_size l2 ≠ 0)
    (hl : ∀ pos, loadedAt l pos = loadedAt l2 pos) : l = l2 :=
  eq_of_loadedAt_eq l l2 0 h.1 h2.1 h.2.1 h2.2.1 (pos_of_size_ne_zero l h hs)
    (pos_of_size_ne_zero l2 h2 hs2) hl

end ObjectPageList

theorem ObjectPageList.unloadedLoop_skip (start next : Nat) : ∀ (l out : List ObjectPage),
    (∀ p ∈ l, p.next ≤ start) → ObjectPageList.unloadedLoop start next l out = out
  | [], _, _ => rfl
  | p :: ps, out, h => by
    unfold ObjectPageList.unloadedLoop
    rw [if_pos (h p (List.mem_cons_self _ _))]
    exact ObjectPageList.unloadedLoop_skip start next ps out
      (fun q hq => h q (List.mem_cons_of_mem _ hq))

theorem deleteLoop_trace : ∀ (keys : List String) (w : World),
    (deleteLoop keys w).trace = w.trace ++ keys.map Event.delete_object
  | [], w => by simp [deleteLoop]
  | key :: keys, w => by
    have h := deleteLoop_trace keys
      { trace := w.trace ++ [Event.delete_object key],
        table := FileManager.del w.table ("/" ++ key) }
    simp only [deleteLoop, List.foldl_cons] at h ⊢
    rw [h]
    simp

/-- The copy loop up to the first copy that fails with an error other than
key-not-exist: it stops there, with the destination keys of the items before it. -/
theorem copyLoop_fail (client : BosClient) (codes : SdkCodes) (pfx dst_pfx : String)
    (item : String) (post : List String)
    (hlen : pfx.length ≤ item.length)
    (hfail : client.copy_object item (dst_object pfx dst_pfx item) ≠ 0 ∧
      client.copy_object item (dst_object pfx dst_pfx item) ≠ codes.RET_KEY_NOT_EXIST) :
    ∀ (pre dst_items : List String) (w : World),
    (∀ it ∈ pre, pfx.length ≤ it.length ∧
      (client.copy_object it (dst_object pfx dst_pfx it) = 0 ∨
        client.copy_object it (dst_object pfx dst_pfx it) = codes.RET_KEY_NOT_EXIST)) →
    ∃ t, copyLoop client codes pfx dst_pfx (pre ++ item :: post) dst_items w
      = some (dst_items ++ pre.map (dst_object pfx dst_pfx),
          { trace := w.trace ++
              (pre ++ [item]).map (fun it => Event.copy_object it (dst_object pfx dst_pfx it)),
            table := t })
  | [], dst_items, w, _ => by
    refine ⟨w.table, ?_⟩
    simp only [List.nil_append, copyLoop, if_pos hlen, if_pos hfail]
    simp
  | p :: pre, dst_items, w, h => by
    obtain ⟨h1, h2⟩ := h p (List.mem_cons_self _ _)
    have hnot : ¬ (client.copy_object p (dst_object pfx dst_pfx p) ≠ 0 ∧
        client.copy_object p (dst_object pfx dst_pfx p) ≠ codes.RET_KEY_NOT_EXIST) := by
      rintro ⟨a, b⟩
      rcases h2 with h2 | h2
      · exact a h2
      · exact b h2
    obtain ⟨t, ht⟩ := copyLoop_fail client codes pfx dst_pfx item post hlen hfail pre
      (dst_items ++ [dst_object pfx dst_pfx p])
      { trace := w.trace ++ [Event.copy_object p (dst_object pfx dst_pfx p)],
        table := FileManager.del w.table ("/" ++ dst_object pfx dst_pfx p) }
      (fun it hit => h it (List.mem_cons_of_mem _ hit))
    refine ⟨t, ?_⟩
    rw [List.cons_append, copyLoop, if_pos h1]
    dsimp only
    rw [if_neg hnot, ht]
    simp

theorem bitCount_succ (k bits : Nat) :
    bitCount (k + 1) bits = (if bits.testBit 0 then 1 else 0) + bitCount k (bits / 2) := by
  unfold bitCount
  rw [List.range_succ_eq_map, List.filter_cons, List.filter_map]
  have h : ((fun i => bits.testBit i) ∘ Nat.succ) = (fun i => (bits / 2).testBit i) := by
    funext i
    exact Nat.testBit_succ bits i
  rw [h]
  by_cases h0 : bits.testBit 0 = true
  · simp only [h0, if_true, List.length_cons, List.length_map]
    omega
  · simp only [h0, if_false, List.length_map]
    simp

theorem bitCount_le (k bits : Nat) : bitCount k bits ≤ k := by
  unfold bitCount
  calc ((List.range k).filter (fun i => bits.testBit i)).length
      ≤ (List.range k).length := List.length_filter_le _ _
    _ = k := List.length_range k

theorem bitCount_zero (k : Nat) : bitCount k 0 = 0 := by
  unfold bitCount
  simp

/-- One round of the loop of `hit_count` clears one set bit. -/
theorem bitCount_clear_lowest : ∀ (k bits : Nat), bits ≠ 0 → bits < 2 ^ k →
    bitCount k (bits &&& (bits - 1)) + 1 = bitCount k bits
  | 0, bits, h0, hlt => by
    simp at hlt
    exact absurd hlt h0
  | k + 1, bits, h0, hlt => by
    rw [bitCount_succ, bitCount_succ, Nat.and_div_two, Nat.testBit_and, Nat.testBit_zero,
      Nat.testBit_zero]
    rcases Nat.mod_two_eq_zero_or_one bits with hb | hb
    · have h1 : (bits - 1) / 2 = bits / 2 - 1 := by omega
      have ih := bitCount_clear_lowest k (bits / 2) (by omega) (by
        rw [pow_succ] at hlt
        omega)
      rw [h1]
      simp only [hb]
      simp only [zero_ne_one, decide_False, Bool.false_and, if_false, Bool.false_eq_true]
      omega
    · have h1 : (bits - 1) / 2 = bits / 2 := by omega
      have h2 : (bits - 1) % 2 = 0 := by omega
      rw [h1, Nat.and_self]
      simp only [hb, h2]
      simp only [zero_ne_one, decide_False, decide_True, Bool.and_false, if_false, if_true,
        Bool.false_eq_true]
      omega

theorem hitCountLoop_eq (k : Nat) : ∀ (fuel bits : Nat), bits < 2 ^ k →
    bitCount k bits ≤ fuel → hitCountLoop fuel bits = bitCount k bits
  | 0, bits, _, h => by
    simp only [hitCountLoop]
    omega
  | fuel + 1, bits, hlt, h => by
    unfold hitCountLoop
    by_cases h0 : bits = 0
    · rw [if_pos h0, h0, bitCount_zero]
    · rw [if_neg h0]
      have hc := bitCount_clear_lowest k bits h0 hlt
      have hle : bits &&& (bits - 1) < 2 ^ k := lt_of_le_of_lt Nat.and_le_left hlt
      rw [hitCountLoop_eq k fuel _ hle (by omega)]
      exact hc

/-- `hit_count` is the number of set bits of a 64-bit history. -/
theorem File.hit_count_eq (f : File) (h : f.hit_bit < 2 ^ 64) :
    f.hit_count = bitCount 64 f.hit_bit :=
  hitCountLoop_eq 64 64 f.hit_bit h (bitCount_le 64 f.hit_bit)

theorem File.hit_inv (f : File) (ts : List Nat) (H N : Nat) (hinv : HitInv f ts H)
    (hle : H ≤ N) : HitInv (File.hit f (N : Int)) (ts ++ [N]) N := by
  obtain ⟨hH, hB, hts, hbits⟩ := hinv
  have hn : (((N : Int) % 64).toNat) = N % 64 := by omega
  have hh : (((H : Int) % 64).toNat) = H % 64 := by omega
  have hn64 : N % 64 < 64 := Nat.mod_lt _ (by decide)
  have hpow : 2 ^ (N % 64) < 2 ^ 64 := Nat.pow_lt_pow_right (by decide) hn64
  have hbit : ∀ i, (File.hit f (N : Int)).hit_bit.testBit i =
      (((decide (N < H + 64)) && f.hit_bit.testBit i &&
        (if H % 64 > N % 64 then decide (i ≤ H % 64) && decide (N % 64 ≤ i)
         else decide (i ≤ H % 64) || decide (N % 64 ≤ i))) || decide (N % 64 = i)) := by
    intro i
    simp only [File.hit, hH, hn, hh]
    rw [Nat.testBit_or, Nat.testBit_two_pow]
    congr 1
    by_cases hfar : (N : Int) - (H : Int) ≥ 64
    · have h1 : ¬ N < H + 64 := by omega
      simp [hfar, h1]
    · have h1 : N < H + 64 := by omega
      rw [if_neg hfar]
      simp only [h1, decide_True, Bool.true_and]
      rw [Nat.testBit_and]
      by_cases hi : i < 64
      · congr 1
        have hx : ((2 ^ 64 - 1) ^^^ (2 ^ (N % 64) - 1)).testBit i = decide (N % 64 ≤ i) := by
          rw [Nat.testBit_xor, Nat.testBit_two_pow_sub_one, Nat.testBit_two_pow_sub_one]
          by_cases h2 : i < N % 64 <;> simp [hi, h2]
          omega
        have hy : ((2 ^ (H % 64) - 1) ||| 2 ^ (H % 64)).testBit i = decide (i ≤ H % 64) := by
          rw [Nat.testBit_or, Nat.testBit_two_pow_sub_one, Nat.testBit_two_pow]
          by_cases h2 : i < H % 64 <;> by_cases h3 : H % 64 = i <;> simp [h2, h3] <;> omega
        by_cases hgt : H % 64 > N % 64
        · rw [if_pos hgt, if_pos hgt, Nat.testBit_and, hx, hy]
        · rw [if_neg hgt, if_neg hgt, Nat.testBit_or, hx, hy]
      · have hz : f.hit_bit.testBit i = false :=
          Nat.testBit_lt_two_pow
            (lt_of_lt_of_le hB (Nat.pow_le_pow_right (by decide) (by omega)))
        rw [hz, Bool.false_and, Bool.false_and]
  refine ⟨by simp [File.hit], ?_, ?_, ?_⟩
  · simp only [File.hit, hH, hn]
    refine Nat.or_lt_two_pow ?_ hpow
    by_cases hfar : (N : Int) - (H : Int) ≥ 64
    · rw [if_pos hfar]
      decide
    · rw [if_neg hfar]
      exact lt_of_le_of_lt Nat.and_le_left hB
  · intro t ht
    rcases List.mem_append.1 ht with h | h
    · exact le_trans (hts t h) hle
    · simp only [List.mem_singleton] at h
      omega
  · intro i
    rw [hbit i]
    constructor
    · intro h
      by_cases hiN : N % 64 = i
      · exact ⟨N, by simp, hiN, by omega⟩
      · simp only [hiN, decide_False, Bool.or_false, Bool.and_eq_true, decide_eq_true_eq] at h
        obtain ⟨⟨h1, h2⟩, h3⟩ := h
        obtain ⟨t, ht, hti, htH⟩ := (hbits i).1 h2
        have htle := hts t ht
        refine ⟨t, List.mem_append_left _ ht, hti, ?_⟩
        by_cases hgt : H % 64 > N % 64
        · rw [if_pos hgt] at h3
          simp only [Bool.and_eq_true, decide_eq_true_eq] at h3
          omega
        · rw [if_neg hgt] at h3
          simp only [Bool.or_eq_true, decide_eq_true_eq] at h3
          omega
    · rintro ⟨t, ht, hti, htN⟩
      rcases List.mem_append.1 ht with h | h
      · have htle := hts t h
        have h2 : f.hit_bit.testBit i = true := (hbits i).2 ⟨t, h, hti, by omega⟩
        have h1 : N < H + 64 := by omega
        by_cases hiN : N % 64 = i
        · simp [hiN]
        · simp only [h1, h2, hiN, decide_True, decide_False, Bool.true_and, Bool.or_false]
          by_cases hgt : H % 64 > N % 64
          · rw [if_pos hgt]
            simp only [Bool.and_eq_true, decide_eq_true_eq]
            omega
          · rw [if_neg hgt]
            simp only [Bool.or_eq_true, decide_eq_true_eq]
            omega
      · simp only [List.mem_singleton] at h
        subst h
        simp [hti]

theorem File.hits_inv : ∀ (ts : List Nat) (f : File) (pre : List Nat) (H : Nat),
    HitInv f pre H → (H :: ts).Pairwise (fun a b => a ≤ b) →
    HitInv ((ts.map (fun (x : Nat) => (x : Int))).foldl File.hit f) (pre ++ ts) (ts.getLastD H)
  | [], f, pre, H, h, _ => by simpa using h
  | N :: ts, f, pre, H, h, hs => by
    have hle : H ≤ N := (List.pairwise_cons.1 hs).1 N (List.mem_cons_self _ _)
    have h2 := File.hits_inv ts (File.hit f (N : Int)) (pre ++ [N]) N
      (File.hit_inv f pre H N h hle) (List.pairwise_cons.1 hs).2
    have h3 : pre ++ N :: ts = pre ++ [N] ++ ts := by simp
    rw [List.map_cons, List.foldl_cons, List.getLastD_cons, h3]
    exact h2

theorem File.construct_inv (name : String) (t : Nat) :
    HitInv (File.construct name (t : Int)) [t] t := by
  have h := File.hit_inv
    { name := name, is_dir_obj := false, is_prefix := false, meta := ObjectMetaData.clear,
      load_time_s := (t : Int), hit_time_s := 0, hit_bit := 0 } [] 0 t
    ⟨rfl, Nat.two_pow_pos 64, by simp, by simp⟩ (Nat.zero_le t)
  simpa [File.construct] using h

/-- The round trip through a stat-cache file that is empty at first, when the system
calls succeed and the read buffer happens to end with a NUL (`heap = []`): write-mode
`serialize` succeeds and leaves `l` as it is, and read-mode `serialize` on the written
file succeeds and rebuilds exactly `l`, whatever list the reading object held before. -/
theorem serialize_roundtrip (l l0 : PageList) (file : StatCacheFile)
    (hwf : ObjectPageList.WellFormed l) (hsize : ObjectPageList.get_size l ≤ LLONG_MAX)
    (hopen : file.open_ok = true) (hfstat : file.fstat_ok = true)
    (hpread : file.pread_ok = true) (hpwrite : file.pwrite_ok = true)
    (hempty : file.content = []) (hheap : file.heap = []) :
    (serialize l file true).1 = true ∧ (serialize l file true).2.1 = l ∧
    (serialize l file true).2.2.content = serializeText l ∧
    (serialize l0 (serialize l file true).2.2 false).1 = true ∧
    (serialize l0 (serialize l file true).2.2 false).2.1 = l := by
  have hw : serialize l file true = (true, l, file.pwrite0 (serializeText l)) := by
    simp [serialize, hopen, hpwrite]
  have hcontent : (file.pwrite0 (serializeText l)).content = serializeText l := by
    simp [StatCacheFile.pwrite0, hempty]
  rw [hw]
  refine ⟨rfl, rfl, hcontent, ?_⟩
  have hnl : ∀ c ∈ decimal (ObjectPageList.get_size l), c ≠ '\n' :=
    fun c hc => (isDigit_facts c (decimal_isDigit _ c hc)).2.2.2.1
  have hlen : ¬ (serializeText l).length = 0 := by
    have := decimal_ne_nil (ObjectPageList.get_size l)
    simp [serializeText, this]
  have hbound : ∀ q ∈ l, q.offset ≤ LLONG_MAX ∧ q.bytes ≤ LLONG_MAX := by
    intro q hq
    have := ObjectPageList.contig_next_le l 0 hwf.1 q hq
    have := ObjectPageList.get_size_eq_sum l hwf.1
    omega
  have hcs : cstring (serializeText l) = serializeText l :=
    cstring_of_no_nul _ (serializeText_no_nul l)
  have key : serialize l0 (file.pwrite0 (serializeText l)) false
      = (true, l, file.pwrite0 (serializeText l)) := by
    have ho : (file.pwrite0 (serializeText l)).open_ok = true := hopen
    have hf : (file.pwrite0 (serializeText l)).fstat_ok = true := hfstat
    have hp : (file.pwrite0 (serializeText l)).pread_ok = true := hpread
    have hh : (file.pwrite0 (serializeText l)).heap = [] := hheap
    simp only [serialize, ho, hf, hp, hh, hcontent, hlen, List.append_nil, hcs,
      Bool.not_true, Bool.false_eq_true, if_false]
    cases l with
    | nil =>
      have hg : getline (serializeText []) '\n' = some (decimal 0, []) := by
        simp only [serializeText, List.map_nil, List.flatten_nil, List.append_nil]
        exact getline_last _ _ (decimal_ne_nil _) hnl
      simp only [hg, List.length_nil, readLines_nil]
      rw [strtoll_decimal 0 (by decide), toSizeT_natCast 0 (by decide)]
      simp [ObjectPageList.get_size]
    | cons p ps =>
      have hg : getline (serializeText (p :: ps)) '\n'
          = some (decimal (ObjectPageList.get_size (p :: ps)),
              lineText p ++ (ps.map pageText).flatten) := by
        simp only [serializeText, List.map_cons, List.flatten_cons, pageText,
          List.cons_append]
        exact getline_append _ _ _ hnl
      have hfuel : ps.length + 1 ≤ (lineText p ++ (ps.map pageText).flatten).length + 1 := by
        have := length_le_flatten_pageText ps
        simp only [List.length_append]
        omega
      simp only [hg, readLines_body ps p [] _ hfuel hbound,
        ObjectPageList.foldl_readStep_nil _ hwf, strtoll_decimal _ hsize,
        toSizeT_natCast _ hsize, ne_eq, not_true_eq_false, if_false]
  rw [key]
  exact ⟨rfl, rfl⟩

/-! ## Claims -/

/-- C1. Every page list reached from construction by any sequence of `init`, `resize`
and `set_page_loaded_status` calls (compression on) has contiguous ranges that start at
offset 0, no two adjacent ranges with the same loaded flag, and range lengths that sum
to `get_size()`. -/
theorem C1_reachable_invariant (l : PageList) (h : ObjectPageList.Reachable l) :
    ObjectPageList.Contig 0 l ∧ ObjectPageList.Alternating l ∧
      ObjectPageList.sumBytes l = ObjectPageList.get_size l :=
  have hw := ObjectPageList.wellFormed_of_reachable l h
  ⟨hw.1, hw.2.1, (ObjectPageList.get_size_eq_sum l hw.1).symm⟩

theorem C1_reachable_invariant_witness :
    ObjectPageList.Reachable
        (ObjectPageList.set_page_loaded_status
          (ObjectPageList.resize (ObjectPageList.construct 0 false) 10 false) 2 3 true true) ∧
      (ObjectPageList.Contig 0
        (ObjectPageList.set_page_loaded_status
          (ObjectPageList.resize (ObjectPageList.construct 0 false) 10 false) 2 3 true true) ∧
       ObjectPageList.Alternating
        (ObjectPageList.set_page_loaded_status
          (ObjectPageList.resize (ObjectPageList.construct 0 false) 10 false) 2 3 true true) ∧
       ObjectPageList.sumBytes
        (ObjectPageList.set_page_loaded_status
          (ObjectPageList.resize (ObjectPageList.construct 0 false) 10 false) 2 3 true true) =
       ObjectPageList.get_size
        (ObjectPageList.set_page_loaded_status
          (ObjectPageList.resize (ObjectPageList.construct 0 false) 10 false) 2 3 true true)) :=
  ⟨.set_page_loaded_status _ 2 3 true (.resize _ 10 false (.construct 0 false)),
   C1_reachable_invariant _
     (.set_page_loaded_status _ 2 3 true (.resize _ 10 false (.construct 0 false)))⟩

/-- C2. On a well-formed page list of size `S`, `set_page_loaded_status(o, n, l)` gives
a list of size `max(S, o+n)` in which every position of `[o, o+n)` has loaded state
`l`, every position of the new gap `[S, o)` is unloaded, and every other position below
`S` keeps the state it had. -/
theorem C2_set_page_loaded_status (l : PageList) (o n : Nat) (fl : Bool)
    (h : ObjectPageList.WellFormed l) :
    ObjectPageList.get_size (ObjectPageList.set_page_loaded_status l o n fl true)
        = max (ObjectPageList.get_size l) (o + n) ∧
    (∀ pos, o ≤ pos → pos < o + n →
      ObjectPageList.loadedAt (ObjectPageList.set_page_loaded_status l o n fl true) pos
        = some fl) ∧
    (∀ pos, ObjectPageList.get_size l ≤ pos → pos < o →
      ObjectPageList.loadedAt (ObjectPageList.set_page_loaded_status l o n fl true) pos
        = some false) ∧
    (∀ pos, pos < ObjectPageList.get_size l → ¬ (o ≤ pos ∧ pos < o + n) →
      ObjectPageList.loadedAt (ObjectPageList.set_page_loaded_status l o n fl true) pos
        = ObjectPageList.loadedAt l pos) := by
  obtain ⟨_, hs, hl⟩ := ObjectPageList.set_page_loaded_status_spec l o n fl h
  refine ⟨hs, ?_, ?_, ?_⟩
  · intro pos h1 h2
    rw [hl pos, if_pos ⟨h1, h2⟩]
  · intro pos h1 h2
    rw [hl pos, if_neg (by omega), if_neg (by omega), if_pos h2]
  · intro pos h1 h2
    rw [hl pos, if_neg h2, if_pos h1]

theorem C2_set_page_loaded_status_witness :
    ObjectPageList.WellFormed [⟨0, 4, true⟩, ⟨4, 2, false⟩] ∧
    ObjectPageList.get_size
        (ObjectPageList.set_page_loaded_status [⟨0, 4, true⟩, ⟨4, 2, false⟩] 8 3 true true)
      = 11 ∧
    ObjectPageList.loadedAt
        (ObjectPageList.set_page_loaded_status [⟨0, 4, true⟩, ⟨4, 2, false⟩] 8 3 true true) 9
      = some true :=
  ⟨by decide,
   (C2_set_page_loaded_status [⟨0, 4, true⟩, ⟨4, 2, false⟩] 8 3 true (by decide)).1.trans
     (by decide),
   (C2_set_page_loaded_status [⟨0, 4, true⟩, ⟨4, 2, false⟩] 8 3 true (by decide)).2.1 9
     (by decide) (by decide)⟩

/-- C3 (the code at the failing input). On the one-range unloaded list of a 10-byte
object, `get_total_unloaded_page_size(0, 0)` is `0`, while `get_unloaded_pages(0, 0)`
appends one range of 10 bytes to an empty output list. -/
theorem C3_total_unloaded_len_zero :
    ObjectPageList.WellFormed [⟨0, 10, false⟩] ∧
    ObjectPageList.get_total_unloaded_page_size [⟨0, 10, false⟩] 0 0 = 0 ∧
    ObjectPageList.get_unloaded_pages [⟨0, 10, false⟩] [] 0 0 = [⟨0, 10, false⟩] ∧
    ObjectPageList.sumBytes (ObjectPageList.get_unloaded_pages [⟨0, 10, false⟩] [] 0 0) = 10 := by
  decide


/-- C4 (the code at the failing input). A modified open entity whose 10-byte object is
still wholly unloaded, ample free disk space, every download succeeding: `flush`
returns 0 after one `upload_file` call and no download, and the page list handed to
that upload still marks byte 0 (and the whole range) as unloaded. -/
theorem C4_flush_uploads_unloaded :
    (DataCacheEntity.flush (Env.allOk (2 ^ 40))
        (DataCacheEntity.sample [⟨0, 10, false⟩] (List.replicate 10 0) true 10)
        World.empty false).1 = 0 ∧
    (DataCacheEntity.flush (Env.allOk (2 ^ 40))
        (DataCacheEntity.sample [⟨0, 10, false⟩] (List.replicate 10 0) true 10)
        World.empty false).2.2.trace = [Event.upload_file "f" (List.replicate 10 0)] ∧
    (DataCacheEntity.flush (Env.allOk (2 ^ 40))
        (DataCacheEntity.sample [⟨0, 10, false⟩] (List.replicate 10 0) true 10)
        World.empty false).2.1.page_list = [⟨0, 10, false⟩] ∧
    ObjectPageList.loadedAt
      (DataCacheEntity.flush (Env.allOk (2 ^ 40))
        (DataCacheEntity.sample [⟨0, 10, false⟩] (List.replicate 10 0) true 10)
        World.empty false).2.1.page_list 0 = some false ∧
    DataCacheEntity.is_safe_disk_space (Env.allOk (2 ^ 40))
      (DataCacheEntity.sample [⟨0, 10, false⟩] (List.replicate 10 0) true 10) 10 = true := by
  decide

/-- C6 (counterexample). With no free disk space a write of 3 bytes at offset 5 into a
newly opened empty file fails the disk-space guard (asked for the 5 unloaded bytes
before the offset plus the 3 to write) and returns `-ENOSPC`, yet the page list has
grown to the one unloaded range `[0, 5)` and the local file has been extended to 5
bytes. -/
theorem C6_write_no_space_counterexample :
    DataCacheEntity.is_safe_disk_space (Env.allOk 0)
        (DataCacheEntity.sample [⟨0, 0, false⟩] [] false 0)
        (ObjectPageList.get_total_unloaded_page_size [⟨0, 5, false⟩] 0 5 + 3) = false ∧
    (DataCacheEntity.write (Env.allOk 0) (DataCacheEntity.sample [⟨0, 0, false⟩] [] false 0)
        World.empty [1, 2, 3] 5).1 = -ENOSPC ∧
    (DataCacheEntity.write (Env.allOk 0) (DataCacheEntity.sample [⟨0, 0, false⟩] [] false 0)
        World.empty [1, 2, 3] 5).2.1.page_list = [⟨0, 5, false⟩] ∧
    (DataCacheEntity.write (Env.allOk 0) (DataCacheEntity.sample [⟨0, 0, false⟩] [] false 0)
        World.empty [1, 2, 3] 5).2.1.file.length = 5 ∧
    ¬ ((DataCacheEntity.write (Env.allOk 0) (DataCacheEntity.sample [⟨0, 0, false⟩] [] false 0)
          World.empty [1, 2, 3] 5).2.1.page_list
        = (DataCacheEntity.sample [⟨0, 0, false⟩] [] false 0).page_list ∧
       (DataCacheEntity.write (Env.allOk 0) (DataCacheEntity.sample [⟨0, 0, false⟩] [] false 0)
          World.empty [1, 2, 3] 5).2.1.file.length
        = (DataCacheEntity.sample [⟨0, 0, false⟩] [] false 0).file.length) := by
  decide

/-- C6 (amended). On an open entity with a well-formed page list, when the disk-space
guard of `write(buf, offset, len)` fails (any `ftruncate` before it having succeeded),
`write` returns `-ENOSPC`, makes no remote call and leaves the modified flag as it was;
with `offset <= get_size()` the whole entity (page list, local file) is unchanged, and
with `offset > get_size()` the local file has been extended to `offset` bytes and the
page list has grown to size `offset`, the new gap unloaded and every position below
the old size in the state it had. -/
theorem C6_write_no_space (env : Env) (e : DataCacheEntity) (w : World) (buf : List Byte)
    (offset : Nat) (hfd : e.fd ≠ -1) (hwf : ObjectPageList.WellFormed e.page_list)
    (htr : ObjectPageList.get_size e.page_list < offset → env.ftruncate_ok offset = true)
    (hguard : DataCacheEntity.is_safe_disk_space env e
      (ObjectPageList.get_total_unloaded_page_size
        (if ObjectPageList.get_size e.page_list < offset then
          ObjectPageList.set_page_loaded_status e.page_list (ObjectPageList.get_size e.page_list)
            (offset - ObjectPageList.get_size e.page_list) false true
         else e.page_list) 0 offset + buf.length) = false) :
    (DataCacheEntity.write env e w buf offset).1 = -ENOSPC ∧
    (DataCacheEntity.write env e w buf offset).2.1.is_modified = e.is_modified ∧
    (DataCacheEntity.write env e w buf offset).2.2 = w ∧
    (offset ≤ ObjectPageList.get_size e.page_list →
      (DataCacheEntity.write env e w buf offset).2.1 = e) ∧
    (ObjectPageList.get_size e.page_list < offset →
      ObjectPageList.get_size (DataCacheEntity.write env e w buf offset).2.1.page_list = offset ∧
      (DataCacheEntity.write env e w buf offset).2.1.file.length = offset ∧
      (∀ pos, ObjectPageList.get_size e.page_list ≤ pos → pos < offset →
        ObjectPageList.loadedAt (DataCacheEntity.write env e w buf offset).2.1.page_list pos
          = some false) ∧
      (∀ pos, pos < ObjectPageList.get_size e.page_list →
        ObjectPageList.loadedAt (DataCacheEntity.write env e w buf offset).2.1.page_list pos
          = ObjectPageList.loadedAt e.page_list pos)) := by
  by_cases hlt : ObjectPageList.get_size e.page_list < offset
  · have hw : DataCacheEntity.write env e w buf offset =
        (-ENOSPC,
         { e with
           file := ftruncate_file e.file offset,
           page_list := ObjectPageList.set_page_loaded_status e.page_list
             (ObjectPageList.get_size e.page_list)
             (offset - ObjectPageList.get_size e.page_list) false true }, w) := by
      simp only [hlt, if_true] at hguard
      simp only [DataCacheEntity.write, hfd, if_false, hlt, htr hlt, true_and, if_true,
        Bool.true_eq_false]
      simp only [DataCacheEntity.is_safe_disk_space] at hguard ⊢
      simp only [hguard, Bool.false_eq_true, if_false]
    rw [hw]
    obtain ⟨_, h2, h3⟩ := ObjectPageList.set_page_loaded_status_spec e.page_list
      (ObjectPageList.get_size e.page_list) (offset - ObjectPageList.get_size e.page_list)
      false hwf
    refine ⟨rfl, rfl, rfl, fun h => absurd hlt (by omega), fun _ => ⟨?_, ?_, ?_, ?_⟩⟩
    · dsimp only
      rw [h2]; omega
    · exact DataCacheEntity.length_ftruncate_file _ _
    · intro pos hp1 hp2
      dsimp only
      rw [h3 pos, if_pos (by omega)]
    · intro pos hp
      dsimp only
      rw [h3 pos, if_neg (by omega), if_pos hp]
  · have hw : DataCacheEntity.write env e w buf offset = (-ENOSPC, e, w) := by
      simp only [hlt, if_false] at hguard
      simp only [DataCacheEntity.write, hfd, if_false, hlt, false_and, hguard,
        Bool.false_eq_true]
    rw [hw]
    exact ⟨rfl, rfl, rfl, fun _ => rfl, fun h => absurd h hlt⟩

theorem C6_write_no_space_witness :
    (DataCacheEntity.write (Env.allOk 0)
        (DataCacheEntity.sample [⟨0, 4, true⟩] [1, 2, 3, 4] false 4) World.empty [9, 9] 2).1
      = -ENOSPC ∧
    (DataCacheEntity.write (Env.allOk 0)
        (DataCacheEntity.sample [⟨0, 4, true⟩] [1, 2, 3, 4] false 4) World.empty [9, 9] 2).2.1
      = DataCacheEntity.sample [⟨0, 4, true⟩] [1, 2, 3, 4] false 4 :=
  ⟨(C6_write_no_space (Env.allOk 0) (DataCacheEntity.sample [⟨0, 4, true⟩] [1, 2, 3, 4] false 4)
      World.empty [9, 9] 2 (by decide) (by decide) (by decide) (by decide)).1,
   (C6_write_no_space (Env.allOk 0) (DataCacheEntity.sample [⟨0, 4, true⟩] [1, 2, 3, 4] false 4)
      World.empty [9, 9] 2 (by decide) (by decide) (by decide) (by decide)).2.2.2.1
      (by decide)⟩

/-- C10. When `flush` reaches its upload (the entity is open, modified or forced, and
the descriptor can be rewound) it makes exactly one upload call: `upload_file` when the
page-list size is below `multipart_threshold`, `upload_super_file` otherwise; when that
call returns 0, `flush` returns 0, `modified` is false and the attribute cache holds no
entry for the path of the entity. -/
theorem C10_flush_upload_choice (env : Env) (e : DataCacheEntity) (w : World)
    (force_sync : Bool) (hfd : e.fd ≠ -1)
    (hm : force_sync = true ∨ e.is_modified = true) (hseek : env.lseek_errno = none) :
    (((ObjectPageList.get_size e.page_list : Int) < env.multipart_threshold →
        (DataCacheEntity.flush env e w force_sync).2.2.trace
          = w.trace ++ [Event.upload_file (e.path.drop 1) e.file] ∧
        (env.upload_file (e.path.drop 1) e.file = 0 →
          (DataCacheEntity.flush env e w force_sync).1 = 0 ∧
          (DataCacheEntity.flush env e w force_sync).2.1.is_modified = false ∧
          (DataCacheEntity.flush env e w force_sync).2.2.table
            = FileManager.del w.table e.path ∧
          (DataCacheEntity.flush env e w force_sync).2.2.table.find?
            (fun kv => kv.1 = e.path) = none)) ∧
     (env.multipart_threshold ≤ (ObjectPageList.get_size e.page_list : Int) →
        (DataCacheEntity.flush env e w force_sync).2.2.trace
          = w.trace ++ [Event.upload_super_file (e.path.drop 1) e.file] ∧
        (env.upload_super_file (e.path.drop 1) e.file = 0 →
          (DataCacheEntity.flush env e w force_sync).1 = 0 ∧
          (DataCacheEntity.flush env e w force_sync).2.1.is_modified = false ∧
          (DataCacheEntity.flush env e w force_sync).2.2.table
            = FileManager.del w.table e.path ∧
          (DataCacheEntity.flush env e w force_sync).2.2.table.find?
            (fun kv => kv.1 = e.path) = none))) := by
  rw [DataCacheEntity.flush, DataCacheEntity.row_flush_eq env e w none force_sync hfd hm hseek]
  constructor
  · intro hlt
    have hd : decide ((ObjectPageList.get_size e.page_list : Int) < env.multipart_threshold)
        = true := by simpa using hlt
    simp only [hd, if_true]
    constructor
    · split_ifs <;> rfl
    · intro hok
      simp only [hok, ne_eq, not_true_eq_false, if_false, true_and]
      exact DataCacheEntity.FileManager_del_absent _ _
  · intro hge
    have hd : decide ((ObjectPageList.get_size e.page_list : Int) < env.multipart_threshold)
        = false := by simpa using hge
    simp only [hd, Bool.false_eq_true, if_false]
    constructor
    · split_ifs <;> rfl
    · intro hok
      simp only [hok, ne_eq, not_true_eq_false, if_false, true_and]
      exact DataCacheEntity.FileManager_del_absent _ _

theorem C10_flush_upload_choice_witness :
    (DataCacheEntity.flush
        { Env.allOk (2 ^ 40) with multipart_threshold := 4 }
        (DataCacheEntity.sample [⟨0, 5, true⟩] [1, 2, 3, 4, 5] true 0)
        { trace := [], table := [("/f", ⟨"/f", false, false, ObjectMetaData.clear, 0, 0, 1⟩)] }
        false).2.2.trace = [] ++ [Event.upload_super_file "f" [1, 2, 3, 4, 5]] :=
  ((C10_flush_upload_choice { Env.allOk (2 ^ 40) with multipart_threshold := 4 }
      (DataCacheEntity.sample [⟨0, 5, true⟩] [1, 2, 3, 4, 5] true 0)
      { trace := [], table := [("/f", ⟨"/f", false, false, ObjectMetaData.clear, 0, 0, 1⟩)] }
      false (by decide) (by decide) rfl).2 (by decide)).1

/-- C5. On an open entity with a well-formed page list, when `write(b, o, n)` succeeds
with all `n` bytes written, an immediately following `read(o, n)` (its `pread`
succeeding) returns `n` and exactly the bytes of `b`, changes neither the entity nor
the record of remote calls (no download is issued), and `get_size() >= o + n`. -/
theorem C5_write_then_read (env env2 : Env) (e : DataCacheEntity) (w : World)
    (b : List Byte) (o : Nat) (hfd : e.fd ≠ -1) (hwf : ObjectPageList.WellFormed e.page_list)
    (hpw : env.pwrite b.length o = .ok b.length)
    (hret : (DataCacheEntity.write env e w b o).1 = (b.length : Int))
    (hpr : env2.pread_errno b.length o = none) :
    DataCacheEntity.read env2 (DataCacheEntity.write env e w b o).2.1
        (DataCacheEntity.write env e w b o).2.2 o b.length false
      = ((b.length : Int), b, (DataCacheEntity.write env e w b o).2.1,
          (DataCacheEntity.write env e w b o).2.2) ∧
    DataCacheEntity.get_size (DataCacheEntity.write env e w b o).2.1
      = some (ObjectPageList.get_size (DataCacheEntity.write env e w b o).2.1.page_list) ∧
    o + b.length ≤ ObjectPageList.get_size (DataCacheEntity.write env e w b o).2.1.page_list := by
  generalize hres : DataCacheEntity.write env e w b o = res at hret ⊢
  simp only [DataCacheEntity.write, hfd, if_false] at hres
  by_cases hA : ObjectPageList.get_size e.page_list < o ∧ env.ftruncate_ok o = false
  · rw [if_pos hA] at hres
    subst hres
    simp only [ EIO] at hret
    omega
  · rw [if_neg hA] at hres
    obtain ⟨e1, he1wf, he1sz, he1fd, hres⟩ : ∃ e1 : DataCacheEntity,
        ObjectPageList.WellFormed e1.page_list ∧ o ≤ ObjectPageList.get_size e1.page_list ∧
        e1.fd = e.fd ∧
        (if DataCacheEntity.is_safe_disk_space env e1
            (ObjectPageList.get_total_unloaded_page_size e1.page_list 0 o + b.length) = true then
          if (if o > 0 then DataCacheEntity.load env e1 w 0 o else (0, e1, w)).1 ≠ 0 then
            (- EIO, (if o > 0 then DataCacheEntity.load env e1 w 0 o else (0, e1, w)).2.1,
              (if o > 0 then DataCacheEntity.load env e1 w 0 o else (0, e1, w)).2.2)
          else
            match env.pwrite b.length o with
            | .error errno =>
              (-errno, (if o > 0 then DataCacheEntity.load env e1 w 0 o else (0, e1, w)).2.1,
                (if o > 0 then DataCacheEntity.load env e1 w 0 o else (0, e1, w)).2.2)
            | .ok write_size =>
              if write_size > 0 then
                ((write_size : Int),
                 { (if o > 0 then DataCacheEntity.load env e1 w 0 o else (0, e1, w)).2.1 with
                   file := pwrite_file
                     (if o > 0 then DataCacheEntity.load env e1 w 0 o else (0, e1, w)).2.1.file
                     (b.take write_size) o,
                   is_modified := true,
                   page_list := ObjectPageList.set_page_loaded_status
                     (if o > 0 then DataCacheEntity.load env e1 w 0 o
                      else (0, e1, w)).2.1.page_list o write_size true true },
                 (if o > 0 then DataCacheEntity.load env e1 w 0 o else (0, e1, w)).2.2)
              else
                ((write_size : Int),
                 { (if o > 0 then DataCacheEntity.load env e1 w 0 o else (0, e1, w)).2.1 with
                   file := pwrite_file
                     (if o > 0 then DataCacheEntity.load env e1 w 0 o else (0, e1, w)).2.1.file
                     (b.take write_size) o },
                 (if o > 0 then DataCacheEntity.load env e1 w 0 o else (0, e1, w)).2.2)
         else (-ENOSPC, e1, w)) = res := by
      refine ⟨_, ?_, ?_, ?_, hres⟩
      · split_ifs
        · exact (ObjectPageList.set_page_loaded_status_spec _ _ _ _ hwf).1
        · exact hwf
      · split_ifs with hlt
        · dsimp only
          rw [(ObjectPageList.set_page_loaded_status_spec _ _ _ _ hwf).2.1]
          omega
        · omega
      · split_ifs <;> rfl
    by_cases hG : DataCacheEntity.is_safe_disk_space env e1
        (ObjectPageList.get_total_unloaded_page_size e1.page_list 0 o + b.length) = true
    swap
    · rw [if_neg hG] at hres
      subst hres
      simp only [ENOSPC] at hret
      omega
    rw [if_pos hG] at hres
    obtain ⟨r, hrwf, hrsz, hrfd, hres⟩ : ∃ r : Int × DataCacheEntity × World,
        ObjectPageList.WellFormed r.2.1.page_list ∧ o ≤ ObjectPageList.get_size r.2.1.page_list ∧
        r.2.1.fd = e.fd ∧
        (if r.1 ≠ 0 then (- EIO, r.2.1, r.2.2)
          else
            match env.pwrite b.length o with
            | .error errno => (-errno, r.2.1, r.2.2)
            | .ok write_size =>
              if write_size > 0 then
                ((write_size : Int),
                 { r.2.1 with
                   file := pwrite_file r.2.1.file (b.take write_size) o,
                   is_modified := true,
                   page_list := ObjectPageList.set_page_loaded_status r.2.1.page_list o
                     write_size true true },
                 r.2.2)
              else
                ((write_size : Int),
                 { r.2.1 with file := pwrite_file r.2.1.file (b.take write_size) o }, r.2.2))
          = res := by
      refine ⟨_, ?_, ?_, ?_, hres⟩
      · split_ifs
        · exact (DataCacheEntity.load_spec env e1 w 0 o he1wf).1
        · exact he1wf
      · split_ifs
        · exact le_trans he1sz (DataCacheEntity.load_spec env e1 w 0 o he1wf).2.1
        · exact he1sz
      · split_ifs
        · exact (DataCacheEntity.load_spec env e1 w 0 o he1wf).2.2.trans he1fd
        · exact he1fd
    by_cases hL : r.1 ≠ 0
    · rw [if_pos hL] at hres
      subst hres
      simp only [ EIO] at hret
      omega
    rw [if_neg hL, hpw] at hres
    dsimp only at hres
    have hfd2 : ¬ r.2.1.fd = -1 := by rw [hrfd]; exact hfd
    by_cases hn : b.length > 0
    · rw [if_pos hn, List.take_length] at hres
      subst hres
      obtain ⟨s1, s2, s3⟩ := ObjectPageList.set_page_loaded_status_spec r.2.1.page_list o
        b.length true hrwf
      have hz : ObjectPageList.get_total_unloaded_page_size
          (ObjectPageList.set_page_loaded_status r.2.1.page_list o b.length true true) o
          b.length = 0 :=
        DataCacheEntity.get_total_unloaded_page_size_loaded _ _ _ s1.1
          (fun pos h1 h2 => by rw [s3 pos, if_pos ⟨h1, h2⟩])
      refine ⟨?_, ?_, ?_⟩
      · have hn0 : ¬ b.length = 0 := by omega
        simp only [DataCacheEntity.read, hfd2, if_false, hn0, Bool.false_eq_true, hz,
          lt_self_iff_false, ne_eq, not_true_eq_false, hpr, DataCacheEntity.pread_pwrite]
      · simp only [DataCacheEntity.get_size, hfd2, if_false]
      · dsimp only
        rw [s2]
        exact le_max_right _ _
    · rw [if_neg hn] at hres
      subst hres
      have hb : b = [] := List.length_eq_zero.1 (by omega)
      subst hb
      refine ⟨?_, ?_, ?_⟩
      · simp only [DataCacheEntity.read, hfd2, if_false, List.length_nil, if_true,
          Nat.cast_zero]
      · simp only [DataCacheEntity.get_size, hfd2, if_false]
      · simpa using hrsz

theorem C5_write_then_read_witness :
    DataCacheEntity.read (Env.allOk (2 ^ 40))
        (DataCacheEntity.write (Env.allOk (2 ^ 40))
          (DataCacheEntity.sample [⟨0, 4, false⟩] [0, 0, 0, 0] false 4) World.empty
          [7, 8, 9] 6).2.1
        (DataCacheEntity.write (Env.allOk (2 ^ 40))
          (DataCacheEntity.sample [⟨0, 4, false⟩] [0, 0, 0, 0] false 4) World.empty
          [7, 8, 9] 6).2.2 6 ([7, 8, 9] : List Byte).length false
      = ((([7, 8, 9] : List Byte).length : Int), [7, 8, 9],
          (DataCacheEntity.write (Env.allOk (2 ^ 40))
            (DataCacheEntity.sample [⟨0, 4, false⟩] [0, 0, 0, 0] false 4) World.empty
            [7, 8, 9] 6).2.1,
          (DataCacheEntity.write (Env.allOk (2 ^ 40))
            (DataCacheEntity.sample [⟨0, 4, false⟩] [0, 0, 0, 0] false 4) World.empty
            [7, 8, 9] 6).2.2) :=
  (C5_write_then_read (Env.allOk (2 ^ 40)) (Env.allOk (2 ^ 40))
    (DataCacheEntity.sample [⟨0, 4, false⟩] [0, 0, 0, 0] false 4) World.empty [7, 8, 9] 6
    (by decide) (by decide) rfl (by decide) rfl).1

/-- C7. The stat-cache file is empty at first, every system call succeeds, and the list
`[0, 5)` loaded, `[5, 12)` unloaded is written: the file holds `12\n0:5:1\n5:7:0`.  Read
mode copies these 14 bytes into `new char[15]` and hands the buffer to the
`stringstream` without writing a terminator.  When the last char of the buffer holds
`1` (and a NUL follows), the last line reads `5:7:01`: read mode returns `true` with the
one range `[0, 12)` loaded, not the list written.  With a NUL in that char the list
written comes back. -/
theorem C7_serialize_unterminated_buffer :
    ObjectPageList.WellFormed [⟨0, 5, true⟩, ⟨5, 7, false⟩] ∧
    (serialize [⟨0, 5, true⟩, ⟨5, 7, false⟩]
        { open_ok := true, fstat_ok := true, pread_ok := true, pwrite_ok := true,
          heap := ['1'], content := [] } true).1 = true ∧
    (serialize [⟨0, 5, true⟩, ⟨5, 7, false⟩]
        { open_ok := true, fstat_ok := true, pread_ok := true, pwrite_ok := true,
          heap := ['1'], content := [] } true).2.2.content = "12\n0:5:1\n5:7:0".toList ∧
    (serialize []
        (serialize [⟨0, 5, true⟩, ⟨5, 7, false⟩]
          { open_ok := true, fstat_ok := true, pread_ok := true, pwrite_ok := true,
            heap := ['1'], content := [] } true).2.2 false).1 = true ∧
    (serialize []
        (serialize [⟨0, 5, true⟩, ⟨5, 7, false⟩]
          { open_ok := true, fstat_ok := true, pread_ok := true, pwrite_ok := true,
            heap := ['1'], content := [] } true).2.2 false).2.1 = [⟨0, 12, true⟩] ∧
    (serialize []
        (serialize [⟨0, 5, true⟩, ⟨5, 7, false⟩]
          { open_ok := true, fstat_ok := true, pread_ok := true, pwrite_ok := true,
            heap := [], content := [] } true).2.2 false).2.1
      = [⟨0, 5, true⟩, ⟨5, 7, false⟩] := by
  decide

/-- C8 (counterexample). A tmp-file entity with modified data and reference count 1 is
closed while the upload fails: `close_file` takes the count to 0 and returns its flush
error with the descriptor still open, `close_cache` returns `false`, and the entity is
still in the registry. -/
theorem C8_close_cache_flush_fails_counterexample :
    (DataCache.find
        { data_cache := [("/f", DataCacheEntity.sample [⟨0, 5, true⟩] [1, 2, 3, 4, 5] true 0)],
          next_addr := 2 } "/f").map (fun e => e.ref_count) = some 1 ∧
    (DataCache.close_cache (Env.uploadFails (2 ^ 40))
        { data_cache := [("/f", DataCacheEntity.sample [⟨0, 5, true⟩] [1, 2, 3, 4, 5] true 0)],
          next_addr := 2 } World.empty 1).1 = false ∧
    ((DataCache.close_cache (Env.uploadFails (2 ^ 40))
        { data_cache := [("/f", DataCacheEntity.sample [⟨0, 5, true⟩] [1, 2, 3, 4, 5] true 0)],
          next_addr := 2 } World.empty 1).2.1.find "/f").map (fun e => e.ref_count) = some 0 ∧
    (DataCache.close_cache (Env.uploadFails (2 ^ 40))
        { data_cache := [("/f", DataCacheEntity.sample [⟨0, 5, true⟩] [1, 2, 3, 4, 5] true 0)],
          next_addr := 2 } World.empty 1).2.1.registered 1 = true := by
  decide

/-- C8 (amended). In a registry whose entries hold distinct entities, none under the
key of another, a `close_cache` call on a registered open entity with reference count 1
takes the count to 0; when the entity is no tmp-file entity, or is one whose closing
flush and whose unlink of the tmp file succeed, `close_cache` returns `true` and the
entity is no longer in the registry; when it is a tmp-file entity whose closing flush
(or unlink) fails, `close_cache` returns `false` and the entity stays in the registry,
its descriptor open and its count 0. -/
theorem C8_close_cache_erases (env : Env) (dc : DataCache) (w : World) (ent : Nat)
    (e : DataCacheEntity) (hs : DataCache.Sound dc) (hd : dc.deref ent = some e)
    (hfd : 0 ≤ e.fd) (hrc : e.ref_count = 1) :
    ((e.is_tmpfile = true →
        (DataCacheEntity.flush env { e with ref_count := e.ref_count - 1 } w false).1 = 0 ∧
        env.unlink_tmp_errno = none) →
      (DataCache.close_cache env dc w ent).1 = true ∧
      (DataCache.close_cache env dc w ent).2.1.registered ent = false) ∧
    (e.is_tmpfile = true →
      ((DataCacheEntity.flush env { e with ref_count := e.ref_count - 1 } w false).1 ≠ 0 ∨
        env.unlink_tmp_errno ≠ none) →
      (DataCache.close_cache env dc w ent).1 = false ∧
      (DataCache.close_cache env dc w ent).2.1.registered ent = true ∧
      ((DataCache.close_cache env dc w ent).2.1.deref ent).map
        (fun e2 => (e2.ref_count, e2.fd)) = some (0, e.fd)) := by
  obtain ⟨k, hmem, haddr, heq⟩ := DataCache.close_cache_eq env dc w ent e hs hd
  obtain ⟨c1, _, c3, c4, c5⟩ := DataCacheEntity.close_file_last env e w hfd hrc
  rw [heq]
  constructor
  · intro hok
    have hclosed : (DataCacheEntity.close_file env e w).2.1.is_open = false := by
      simp [DataCacheEntity.is_open, c4 hok]
    simp only [hclosed, Bool.not_false, if_true, true_and]
    exact DataCache.not_registered_after_erase dc ent k e _ hs hmem haddr
  · intro ht hfail
    have hfdeq := c5 ht hfail
    have hopen : (DataCacheEntity.close_file env e w).2.1.is_open = true := by
      simp only [DataCacheEntity.is_open, hfdeq, bne_iff_ne, ne_eq]
      omega
    simp only [hopen, Bool.not_true, Bool.false_eq_true, if_false, true_and]
    obtain ⟨r1, r2⟩ := DataCache.registered_after_store dc ent k e
      (DataCacheEntity.close_file env e w).2.1 hmem haddr (c1.trans haddr)
    refine ⟨r1, ?_⟩
    -- the stored entity is the only one at this address
    have hnd : ∀ kv ∈ DataCache.store dc.data_cache ent (DataCacheEntity.close_file env e w).2.1,
        kv.2.addr = ent → kv.2 = (DataCacheEntity.close_file env e w).2.1 := by
      intro kv hkv ha
      simp only [DataCache.store, List.mem_map] at hkv
      obtain ⟨kv0, _, hkv0⟩ := hkv
      by_cases hc : kv0.2.addr = ent
      · rw [if_pos hc] at hkv0; rw [← hkv0]
      · rw [if_neg hc] at hkv0; rw [← hkv0] at ha; exact absurd ha hc
    cases hf : (DataCache.store dc.data_cache ent (DataCacheEntity.close_file env e w).2.1).find?
        (fun kv => kv.2.addr = ent) with
    | none =>
      rw [List.find?_eq_none] at hf
      exact absurd (by simpa using c1.trans haddr) (hf _ r2)
    | some kv =>
      have h1 := List.mem_of_find?_eq_some hf
      have h2 : kv.2.addr = ent := by simpa using List.find?_some hf
      simp only [DataCache.deref, hf, Option.map_some', hnd kv h1 h2, c3, hfdeq]

theorem C8_close_cache_erases_witness :
    (DataCache.close_cache (Env.allOk (2 ^ 40))
        { data_cache := [("/g", DataCacheEntity.sample [⟨0, 2, true⟩] [1, 2] true 0)],
          next_addr := 2 } World.empty 1).1 = true ∧
    (DataCache.close_cache (Env.allOk (2 ^ 40))
        { data_cache := [("/g", DataCacheEntity.sample [⟨0, 2, true⟩] [1, 2] true 0)],
          next_addr := 2 } World.empty 1).2.1.registered 1 = false :=
  (C8_close_cache_erases (Env.allOk (2 ^ 40))
    { data_cache := [("/g", DataCacheEntity.sample [⟨0, 2, true⟩] [1, 2] true 0)],
      next_addr := 2 } World.empty 1 (DataCacheEntity.sample [⟨0, 2, true⟩] [1, 2] true 0)
    ⟨by decide, by decide⟩ (by decide) (by decide) (by decide)).1 (fun _ => by decide)

/-- C9 (counterexample). A tmp-file entity with modified data and reference count 1,
every local file operation succeeding and the upload failing: `close_cache` takes the
count from 1 to 0, and the entity is not erased from the registry. -/
theorem C9_count_zero_not_erased_counterexample :
    DataCache.Valid
      { data_cache := [("/f", DataCacheEntity.sample [⟨0, 3, true⟩] [7, 8, 9] true 0)],
        next_addr := 2 } ∧
    (Env.uploadFails (2 ^ 40)).localOk ∧
    DataCache.refCount
      { data_cache := [("/f", DataCacheEntity.sample [⟨0, 3, true⟩] [7, 8, 9] true 0)],
        next_addr := 2 } "/f" = 1 ∧
    DataCache.refCount
      (DataCache.close_cache (Env.uploadFails (2 ^ 40))
        { data_cache := [("/f", DataCacheEntity.sample [⟨0, 3, true⟩] [7, 8, 9] true 0)],
          next_addr := 2 } World.empty 1).2.1 "/f" = 0 ∧
    ((DataCache.close_cache (Env.uploadFails (2 ^ 40))
        { data_cache := [("/f", DataCacheEntity.sample [⟨0, 3, true⟩] [7, 8, 9] true 0)],
          next_addr := 2 } World.empty 1).2.1.find "/f").isSome = true :=
  ⟨⟨by decide, by decide, by decide, by decide⟩,
   ⟨rfl, rfl, rfl, ⟨5, rfl⟩, by decide, ⟨4, rfl⟩, fun _ => ⟨"", rfl⟩, rfl, rfl, rfl⟩,
   by decide, by decide, by decide⟩

/-- C9 (amended). In a registry built by `open_cache` and `close_cache`, with local
file operations succeeding: `open_cache` on a new path files one entity with count 1;
`open_cache` and `exist_open` on an open path raise the count by exactly one;
`close_cache` on an entity with count at least 2 lowers it by exactly one and keeps the
entity; `close_cache` on an entity with count 1 erases it, provided the closing flush of
a tmp-file entity succeeds; and after a sequence of opens and closes of a path that was
not registered, every close matched by an earlier open, the count recorded for the path
is the number of opens minus the number of closes, and when that is positive exactly
one entity is filed under the path. -/
theorem C9_reference_counting (env : Env) (dc : DataCache) (w : World) (path : String)
    (hv : DataCache.Valid dc) (hok : env.localOk) :
    (dc.find path = none →
      ∀ (pmeta : Option ObjectMetaData) (size time : Int) (force_tmpfile : Bool),
        DataCache.refCount
          (DataCache.open_cache env dc w path pmeta size time force_tmpfile true).2.1 path
          = DataCache.refCount dc path + 1) ∧
    (∀ e, dc.find path = some e → 0 ≤ e.fd →
      (∀ (pmeta : Option ObjectMetaData) (size time : Int) (force_tmpfile is_create : Bool),
        DataCache.refCount
          (DataCache.open_cache env dc w path pmeta size time force_tmpfile is_create).2.1 path
          = DataCache.refCount dc path + 1) ∧
      DataCache.refCount (DataCache.exist_open env dc w path).2.1 path
        = DataCache.refCount dc path + 1 ∧
      (2 ≤ e.ref_count →
        DataCache.refCount (DataCache.close_cache env dc w e.addr).2.1 path
          = DataCache.refCount dc path - 1 ∧
        (DataCache.close_cache env dc w e.addr).2.1.registered e.addr = true) ∧
      (e.ref_count = 1 →
        (e.is_tmpfile = true →
          (DataCacheEntity.flush env { e with ref_count := e.ref_count - 1 } w false).1 = 0) →
        (DataCache.close_cache env dc w e.addr).2.1.find path = none ∧
        (DataCache.close_cache env dc w e.addr).2.1.registered e.addr = false)) ∧
    (dc.find path = none → ∀ (ops : List (DataCache.Op × Env)), (∀ op ∈ ops, op.2.localOk) →
      ∀ n, DataCache.balance ops 0 = some n →
        DataCache.refCount (DataCache.runOps path ops (dc, w)).1 path = (n : Int) ∧
        (n : Int) = (DataCache.opens ops : Int) - (DataCache.closes ops : Int) ∧
        (0 < n →
          ((DataCache.runOps path ops (dc, w)).1.data_cache.filter
            (fun kv => decide (kv.1 = path))).length = 1)) := by
  refine ⟨?_, ?_, ?_⟩
  · intro hnone pmeta size time force_tmpfile
    obtain ⟨e2, _, _, b, r, _, _⟩ := DataCache.open_cache_new env dc w path pmeta size time
      force_tmpfile hv hnone hok
    rw [DataCache.refCount_of_find _ _ _ b, DataCache.refCount_of_none _ _ hnone, r]
    rfl
  · intro e hf hfd
    have hfd1 : e.fd ≠ -1 := by omega
    have hopen : ∀ (pmeta : Option ObjectMetaData) (size time : Int)
        (force_tmpfile is_create : Bool),
        DataCache.refCount
          (DataCache.open_cache env dc w path pmeta size time force_tmpfile is_create).2.1 path
          = DataCache.refCount dc path + 1 := by
      intro pmeta size time force_tmpfile is_create
      obtain ⟨_, _, _, b⟩ := DataCache.open_cache_dup env dc w path pmeta size time
        force_tmpfile is_create e hv hf hfd1
      rw [DataCache.refCount_of_find _ _ _ b, DataCache.refCount_of_find _ _ _ hf]
    refine ⟨hopen, hopen none (-1) (-1) false false, ?_, ?_⟩
    · intro hrc
      obtain ⟨_, _, a, b⟩ := DataCache.close_cache_dec env dc w path e hv hf hfd hrc
      rw [DataCache.refCount_of_find _ _ _ b, DataCache.refCount_of_find _ _ _ hf]
      exact ⟨rfl, DataCache.registered_of_mem _ path { e with ref_count := e.ref_count - 1 }
        (DataCache.mem_of_find _ _ _ b)⟩
    · intro hrc hflush
      obtain ⟨_, _, b, c⟩ := DataCache.close_cache_last env dc w path e hv hf hfd hrc
        (fun ht => ⟨hflush ht, hok.2.2.2.2.2.2.2.1⟩)
      exact ⟨b, c⟩
  · intro hnone ops hops n hb
    have hc := DataCache.runOps_counted path ops 0 (dc, w)
      ⟨hv, fun _ => hnone, fun h => absurd h (by omega)⟩ hops n hb
    have hcount := DataCache.balance_count ops 0 n hb
    refine ⟨?_, by omega, ?_⟩
    · by_cases hn : n = 0
      · rw [DataCache.refCount_of_none _ _ (hc.2.1 hn), hn]; rfl
      · obtain ⟨e, hf, hr, _, _⟩ := hc.2.2 (by omega)
        rw [DataCache.refCount_of_find _ _ _ hf, hr]
    · intro hn
      obtain ⟨e, hf, _, _, _⟩ := hc.2.2 hn
      exact DataCache.filter_key_length path _ hc.1.1 ⟨e, DataCache.mem_of_find _ _ _ hf⟩

theorem C9_reference_counting_witness :
    DataCache.refCount
      (DataCache.open_cache (Env.allOk (2 ^ 40)) { data_cache := [], next_addr := 1 }
        World.empty "/f" none 0 (-1) false true).2.1 "/f"
      = DataCache.refCount { data_cache := [], next_addr := 1 } "/f" + 1 :=
  (C9_reference_counting (Env.allOk (2 ^ 40)) { data_cache := [], next_addr := 1 }
    World.empty "/f"
    ⟨by decide, by decide, by decide, by decide⟩
    ⟨rfl, rfl, rfl, ⟨5, rfl⟩, by decide, ⟨4, rfl⟩, fun _ => ⟨"", rfl⟩, rfl, rfl, rfl⟩).1
    (by decide) none 0 (-1) false

/-- C11. On an open entity whose modified flag is set, a `flush` (forced or not) that
returns a non-zero status leaves the modified flag set and the page list and the local
file as they were; a later `flush` (its rewind succeeding) therefore issues the upload
of the same local file again. -/
theorem C11_flush_failure_keeps_state (env : Env) (e : DataCacheEntity) (w : World)
    (force_sync : Bool) (hfd : e.fd ≠ -1) (hm : e.is_modified = true)
    (hret : (DataCacheEntity.flush env e w force_sync).1 ≠ 0) :
    (DataCacheEntity.flush env e w force_sync).2.1.is_modified = true ∧
    (DataCacheEntity.flush env e w force_sync).2.1.page_list = e.page_list ∧
    (DataCacheEntity.flush env e w force_sync).2.1.file = e.file ∧
    ∀ (env2 : Env) (force2 : Bool), env2.lseek_errno = none →
      (DataCacheEntity.flush env2 (DataCacheEntity.flush env e w force_sync).2.1
          (DataCacheEntity.flush env e w force_sync).2.2 force2).2.2.trace
        = (DataCacheEntity.flush env e w force_sync).2.2.trace ++
            [if (ObjectPageList.get_size e.page_list : Int) < env2.multipart_threshold
             then Event.upload_file (e.path.drop 1) e.file
             else Event.upload_super_file (e.path.drop 1) e.file] := by
  have he : (DataCacheEntity.flush env e w force_sync).2.1 = e :=
    DataCacheEntity.row_flush_failed env e w none force_sync hret
  rw [he]
  refine ⟨hm, rfl, rfl, ?_⟩
  intro env2 force2 hseek
  rw [DataCacheEntity.flush, DataCacheEntity.flush,
    DataCacheEntity.row_flush_eq env2 e _ none force2 hfd (Or.inr hm) hseek]
  dsimp only
  split_ifs <;> simp_all

theorem C11_flush_failure_keeps_state_witness :
    (DataCacheEntity.flush (Env.uploadFails (2 ^ 40))
        (DataCacheEntity.sample [⟨0, 3, true⟩] [1, 2, 3] true 0) World.empty false).1 ≠ 0 ∧
    (DataCacheEntity.flush (Env.uploadFails (2 ^ 40))
        (DataCacheEntity.sample [⟨0, 3, true⟩] [1, 2, 3] true 0) World.empty
        false).2.1.is_modified = true :=
  ⟨by decide,
   (C11_flush_failure_keeps_state (Env.uploadFails (2 ^ 40))
    (DataCacheEntity.sample [⟨0, 3, true⟩] [1, 2, 3] true 0) World.empty false
    (by decide) rfl (by decide)).1⟩

/-- C18, counterexample. With a umask configured (`022`), a caller that is neither the
owner nor in the group of an object of mode `0100600` is granted `R_OK`: the call
returns 0, although the mode of the object has no bit in the positions of others. -/
theorem C18_umask_counterexample :
    check_object_access { BosfsOptions.sample with is_bosfs_umask := true, bosfs_mask := 0o022 }
      (some ⟨2000, 2000⟩)
      (0, { init_default_stat BosfsOptions.sample with st_mode := 0o100600 })
      (fun _ _ => 0) R_OK = 0 ∧
    (0o100600 &&& S_IRWXO = 0) := by decide

/-- C18. For an existing object (`get_object_attribute` answers 0) and a caller with a
fuse context, `check_object_access` returns 0 when the caller uid is 0 or is the
configured bosfs uid, or when the mask is `F_OK`; otherwise it returns 0 or `-EACCES`,
and 0 exactly when `effective` is non-zero and has, for each of `R_OK`, `W_OK`, `X_OK`
in the mask, the matching bit in one of the three positions.  Here `effective` is
`object_mode & base_mask`; `object_mode` is `0777 & ~bosfs_mask` when a umask is
configured and `st_mode` of the object otherwise; the owner uid and gid are the
configured bosfs uid and gid when configured and `st_uid`, `st_gid` otherwise;
`base_mask` is `S_IRWXO`, plus `S_IRWXU` for the owner, plus `S_IRWXG` when the caller
gid is the owner gid or the caller is a member of that group. -/
theorem C18_check_object_access (options : BosfsOptions) (ctx : FuseContext) (st : Stat)
    (is_uid_in_group : Nat → Nat → Int) (mask : Nat) :
    let r := check_object_access options (some ctx) (0, st) is_uid_in_group mask
    let owner_uid := if options.is_bosfs_uid then options.bosfs_uid else st.st_uid
    let owner_gid := if options.is_bosfs_gid then options.bosfs_gid else st.st_gid
    let object_mode :=
      if options.is_bosfs_umask then 0o777 &&& notU32 options.bosfs_mask else st.st_mode
    let base_mask := S_IRWXO ||| (if ctx.uid = owner_uid then S_IRWXU else 0) |||
      (if ctx.gid = owner_gid ∨ is_uid_in_group ctx.uid owner_gid = 1 then S_IRWXG else 0)
    let effective := object_mode &&& base_mask
    ((ctx.uid = 0 ∨ (options.is_bosfs_uid = true ∧ options.bosfs_uid = ctx.uid) ∨ mask = F_OK) →
      r = 0) ∧
    (¬ (ctx.uid = 0 ∨ (options.is_bosfs_uid = true ∧ options.bosfs_uid = ctx.uid) ∨ mask = F_OK) →
      (r = 0 ∨ r = - EACCES) ∧
      (r = 0 ↔ effective ≠ 0 ∧
        (mask &&& R_OK = R_OK → effective &&& (S_IRUSR ||| S_IRGRP ||| S_IROTH) ≠ 0) ∧
        (mask &&& W_OK = W_OK → effective &&& (S_IWUSR ||| S_IWGRP ||| S_IWOTH) ≠ 0) ∧
        (mask &&& X_OK = X_OK → effective &&& (S_IXUSR ||| S_IXGRP ||| S_IXOTH) ≠ 0))) := by
  intro r owner_uid owner_gid object_mode base_mask effective
  have hE : ¬ (- EACCES = 0) := by decide
  constructor
  · intro h
    show check_object_access options (some ctx) (0, st) is_uid_in_group mask = 0
    unfold check_object_access
    simp only []
    rw [if_neg (by simp)]
    by_cases h1 : ctx.uid = 0
    · rw [if_pos h1]
    · rw [if_neg h1]
      by_cases h2 : options.is_bosfs_uid = true ∧ options.bosfs_uid = ctx.uid
      · rw [if_pos h2]
      · rw [if_neg h2]
        rcases h with h | h | h
        · exact absurd h h1
        · exact absurd h h2
        · rw [if_pos h.symm]
  · intro h
    have hr : r = _ := check_object_access_eq options ctx st is_uid_in_group mask h effective rfl
    rw [hr]
    by_cases hx : X_OK = (mask &&& X_OK) ∧ 0 = (effective &&& (S_IXUSR ||| S_IXGRP ||| S_IXOTH))
    · rw [if_pos hx]
      refine ⟨Or.inr rfl, ⟨fun h0 => absurd h0 hE, fun h0 => ?_⟩⟩
      exact absurd hx.2.symm (h0.2.2.2 hx.1.symm)
    · rw [if_neg hx]
      by_cases hw : W_OK = (mask &&& W_OK) ∧
          0 = (effective &&& (S_IWUSR ||| S_IWGRP ||| S_IWOTH))
      · rw [if_pos hw]
        refine ⟨Or.inr rfl, ⟨fun h0 => absurd h0 hE, fun h0 => ?_⟩⟩
        exact absurd hw.2.symm (h0.2.2.1 hw.1.symm)
      · rw [if_neg hw]
        by_cases hrd : R_OK = (mask &&& R_OK) ∧
            0 = (effective &&& (S_IRUSR ||| S_IRGRP ||| S_IROTH))
        · rw [if_pos hrd]
          refine ⟨Or.inr rfl, ⟨fun h0 => absurd h0 hE, fun h0 => ?_⟩⟩
          exact absurd hrd.2.symm (h0.2.1 hrd.1.symm)
        · rw [if_neg hrd]
          by_cases hz : 0 = effective
          · rw [if_pos hz]
            exact ⟨Or.inr rfl, ⟨fun h0 => absurd h0 hE, fun h0 => absurd hz.symm h0.1⟩⟩
          · rw [if_neg hz]
            refine ⟨Or.inl rfl, ⟨fun _ => ⟨fun h0 => hz h0.symm, ?_, ?_, ?_⟩, fun _ => rfl⟩⟩
            · exact fun hm h0 => hrd ⟨hm.symm, h0.symm⟩
            · exact fun hm h0 => hw ⟨hm.symm, h0.symm⟩
            · exact fun hm h0 => hx ⟨hm.symm, h0.symm⟩

theorem C18_check_object_access_witness :
    check_object_access BosfsOptions.sample (some ⟨1000, 1000⟩)
      (0, { init_default_stat BosfsOptions.sample with st_mode := 0o100600 })
      (fun _ _ => 0) (R_OK ||| W_OK) = 0 :=
  ((C18_check_object_access BosfsOptions.sample ⟨1000, 1000⟩
      { init_default_stat BosfsOptions.sample with st_mode := 0o100600 }
      (fun _ _ => 0) (R_OK ||| W_OK)).2 (by decide)).2.2 (by decide)

/-- C19, counterexample. The object found under the key `d/` (so `is_dir_obj` is set, as
`head_object` does for every object under a key with a trailing slash) has 5 bytes, the
content type `text/plain` and the mode `0755`, without file-type bits: `File::stat`
reports a regular file, `S_IFREG | 0755`, not `S_IFDIR | 0755`. -/
theorem C19_dir_obj_with_content_counterexample :
    (File.sample "/d" true false "text/plain" 5 [("bosfs-mode", "0755")]).is_dir_obj = true ∧
    toU32 (strtol "0755".toList) = 0o755 ∧
    0o755 &&& S_IFMT = 0 ∧
    (File.stat BosfsOptions.sample
      (File.sample "/d" true false "text/plain" 5 [("bosfs-mode", "0755")])).st_mode
      = 0o755 ||| S_IFREG ∧
    0o755 ||| S_IFREG ≠ 0o755 ||| S_IFDIR := by
  decide

/-- C19. For an entry that is neither the root nor a pure prefix and whose `bosfs-mode`
value (or, that one being empty, `mode` value) is a non-empty text with numeric value
`v`: `File::stat` sets `st_mode` to `v` when `v` has file-type bits; otherwise to
`v | S_IFDIR` when the entry was found under the key with a trailing slash
(`is_dir_obj`) and has length zero, or its content type up to a `;` is
`application/x-directory`, and to `v | S_IFREG` in every other case, also for an entry
with `is_dir_obj` set that has a length other than zero and another content type. -/
theorem C19_stat_mode (options : BosfsOptions) (f : File) (text : String)
    (hroot : f.name ≠ "/") (hpre : f.is_prefix = false)
    (htext : text = if (f.meta.get_user_meta "bosfs-mode").isEmpty
      then f.meta.get_user_meta "mode" else f.meta.get_user_meta "bosfs-mode")
    (hv : text.isEmpty = false) :
    let v := toU32 (strtol text.toList)
    let directory : Prop := (f.is_dir_obj = true ∧ f.meta.content_length = 0) ∨
      String.mk (f.meta.content_type.toList.takeWhile (fun c => c != ';'))
        = "application/x-directory"
    (v &&& S_IFMT ≠ 0 → (File.stat options f).st_mode = v) ∧
    (v &&& S_IFMT = 0 → directory → (File.stat options f).st_mode = v ||| S_IFDIR) ∧
    (v &&& S_IFMT = 0 → ¬ directory → (File.stat options f).st_mode = v ||| S_IFREG) := by
  intro v directory
  have hm : File.meta_text f "mode" = text := by
    rw [htext]; rfl
  have hd : f.is_dir = true ↔ directory := by
    unfold File.is_dir
    by_cases h1 : f.is_dir_obj = true ∧ f.meta.content_length = 0
    · simp only [h1, and_self, if_true, true_iff]
      exact Or.inl h1
    · rw [if_neg h1]
      by_cases h2 : f.meta.content_type.isEmpty = true
      · have h3 : f.meta.content_type = "" := by
          simpa [String.isEmpty_iff] using h2
        simp only [h2, not_true_eq_false, if_false, Bool.false_eq_true, false_iff]
        rintro (h | h)
        · exact h1 h
        · rw [h3] at h
          exact absurd h (by decide)
      · have h2f : f.meta.content_type.isEmpty = false := by simpa using h2
        rw [h2f, if_pos (by simp), beq_iff_eq]
        constructor
        · exact fun h => Or.inr h
        · rintro (h | h)
          · exact absurd h h1
          · exact h
  have hst : (File.stat options f).st_mode =
      if v &&& S_IFMT = 0 then v ||| (if f.is_dir then S_IFDIR else S_IFREG) else v := by
    unfold File.stat
    have h0 : ¬ (f.name = "/" ∨ f.is_prefix = true) := by
      rintro (h | h)
      · exact hroot h
      · rw [hpre] at h; exact absurd h (by decide)
    rw [if_neg h0]
    simp only [hm, hv, Bool.false_eq_true, not_false_eq_true, if_true]
  rw [hst]
  refine ⟨fun h => by rw [if_neg h], fun h hdir => ?_, fun h hdir => ?_⟩
  · rw [if_pos h, hd.2 hdir]; rfl
  · have : f.is_dir = false := by
      cases hfd : f.is_dir
      · rfl
      · exact absurd (hd.1 hfd) hdir
    rw [if_pos h, this]; rfl

theorem C19_stat_mode_witness :
    (File.stat BosfsOptions.sample
      (File.sample "/d" true false "application/x-directory" 0
        [("bosfs-mode", "0755")])).st_mode = 0o755 ||| S_IFDIR :=
  (C19_stat_mode BosfsOptions.sample
    (File.sample "/d" true false "application/x-directory" 0 [("bosfs-mode", "0755")]) "0755"
    (by decide) rfl (by decide) (by decide)).2.1 (by decide) (Or.inl (by decide))

/-- C20, counterexample. For the root and for a pure prefix `File::stat` reports
`st_size = 4096`, not 0. -/
theorem C20_root_stat_size_counterexample :
    (File.stat BosfsOptions.sample (File.sample "/" false false "" 0 [])).st_size = 4096 ∧
    (File.stat BosfsOptions.sample (File.sample "/dir" false true "" 0 [])).st_size = 4096 := by
  decide

/-- C20. For an entry whose name is `/` or whose `is_prefix` flag is set, whatever
metadata it holds, `File::stat` returns the values of `init_default_stat` (the mount
mode; the configured bosfs uid and gid when configured, else the mount uid and gid; the
mount time) with `st_size = ST_BLKSIZE` and `st_blocks = ST_MINBLOCKS`. -/
theorem C20_root_or_prefix_stat (options : BosfsOptions) (f : File)
    (h : f.name = "/" ∨ f.is_prefix = true) :
    (File.stat options f).st_mode = options.mount_mode ∧
    (File.stat options f).st_uid
      = (if options.is_bosfs_uid then options.bosfs_uid else options.mount_uid) ∧
    (File.stat options f).st_gid
      = (if options.is_bosfs_gid then options.bosfs_gid else options.mount_gid) ∧
    (File.stat options f).st_size = ST_BLKSIZE ∧
    (File.stat options f).st_blocks = ST_MINBLOCKS ∧
    (File.stat options f).st_mtime = options.mount_time := by
  unfold File.stat
  rw [if_pos h]
  exact ⟨rfl, rfl, rfl, rfl, rfl, rfl⟩

theorem C20_root_or_prefix_stat_witness :
    (File.stat BosfsOptions.sample
      (File.sample "/dir" false true "text/plain" 7 [("bosfs-mode", "0100600")])).st_size
      = ST_BLKSIZE :=
  (C20_root_or_prefix_stat BosfsOptions.sample
    (File.sample "/dir" false true "text/plain" 7 [("bosfs-mode", "0100600")])
    (Or.inr rfl)).2.2.2.1

/-- C14 (fails). On an object without attributes `setxattr("abcd", "x")` and then
`setxattr("abc", "y")`, both with flags 0, both return 0; afterwards `listxattr` does
not report the name `abc` (it reports the names it reported before the second call),
and `getxattr("abcd")` returns `y`: the second call was carried out on the record of
`abcd`, whose name begins with `abc`. -/
theorem C14_setxattr_prefix_name (c0 : Char) :
    (setxattr c0 [] ['a', 'b', 'c', 'd'] [120] 0).1 = 0 ∧
    (setxattr c0 (setxattr c0 [] ['a', 'b', 'c', 'd'] [120] 0).2 ['a', 'b', 'c'] [121] 0).1 = 0 ∧
    ['a', 'b', 'c'] ∉
      listxattr
        (setxattr c0 (setxattr c0 [] ['a', 'b', 'c', 'd'] [120] 0).2 ['a', 'b', 'c'] [121] 0).2 ∧
    listxattr
        (setxattr c0 (setxattr c0 [] ['a', 'b', 'c', 'd'] [120] 0).2 ['a', 'b', 'c'] [121] 0).2
      = listxattr (setxattr c0 [] ['a', 'b', 'c', 'd'] [120] 0).2 ∧
    getxattr
        (setxattr c0 (setxattr c0 [] ['a', 'b', 'c', 'd'] [120] 0).2 ['a', 'b', 'c'] [121] 0).2
        ['a', 'b', 'c', 'd'] 8 = (1, [121]) := by
  rw [setxattr_first]
  by_cases h : c0 = ';'
  · subst h; decide
  · simp only [h, ne_eq, not_false_eq_true, if_true]
    rw [setxattr_second]
    decide

/-- C15 (fails). After `setxattr("abcd", "x")` on an object without attributes no record
is named `abc`, yet `setxattr("abc", "y")` with `XATTR_CREATE` fails with `-EEXIST`, and
with `XATTR_REPLACE` it does not fail with `-ENOATTR`: it returns 0 and stores a changed
string, the value of `abcd` replaced. -/
theorem C15_setxattr_flags_prefix_name (c0 : Char) :
    ['a', 'b', 'c'] ∉ listxattr (setxattr c0 [] ['a', 'b', 'c', 'd'] [120] 0).2 ∧
    setxattr c0 (setxattr c0 [] ['a', 'b', 'c', 'd'] [120] 0).2 ['a', 'b', 'c'] [121]
        XATTR_CREATE = (- EEXIST, (setxattr c0 [] ['a', 'b', 'c', 'd'] [120] 0).2) ∧
    (setxattr c0 (setxattr c0 [] ['a', 'b', 'c', 'd'] [120] 0).2 ['a', 'b', 'c'] [121]
        XATTR_REPLACE).1 = 0 ∧
    (setxattr c0 (setxattr c0 [] ['a', 'b', 'c', 'd'] [120] 0).2 ['a', 'b', 'c'] [121]
        XATTR_REPLACE).2 ≠ (setxattr c0 [] ['a', 'b', 'c', 'd'] [120] 0).2 := by
  rw [setxattr_first]
  by_cases h : c0 = ';'
  · subst h; decide
  · simp only [h, ne_eq, not_false_eq_true, if_true]
    rw [setxattr_second, setxattr_second]
    decide

/-- C16 (fails). With the regular files `/a` and `/b` in the attribute cache,
`rename_file("a", "b", 3)` returns 0 after a successful copy and leaves the cache as it
was: a following `try_get` on `/a` and on `/b` returns true.  The same holds for `/a`
when the copy fails.  The two `del` calls are made on `"/" + src.substr(0, size - 1)`,
which for a key without a trailing slash is not the path of the entry. -/
theorem C16_rename_file_keeps_entries :
    (rename_file (Env.allOk (2 ^ 40)) (BosClient.copyAnswers 0) World.twoFiles "a" "b" 3).1 = 0 ∧
    (rename_file (Env.allOk (2 ^ 40)) (BosClient.copyAnswers 0) World.twoFiles "a" "b" 3).2.table
      = World.twoFiles.table ∧
    (FileManager.try_get (-1) 100 1
        (rename_file (Env.allOk (2 ^ 40)) (BosClient.copyAnswers 0) World.twoFiles "a" "b"
          3).2.table "/a").1 = true ∧
    (FileManager.try_get (-1) 100 1
        (rename_file (Env.allOk (2 ^ 40)) (BosClient.copyAnswers 0) World.twoFiles "a" "b"
          3).2.table "/b").1 = true ∧
    (rename_file (Env.allOk (2 ^ 40)) (BosClient.copyAnswers 1) World.twoFiles "a" "b" 3).1 = 1 ∧
    (FileManager.try_get (-1) 100 1
        (rename_file (Env.allOk (2 ^ 40)) (BosClient.copyAnswers 1) World.twoFiles "a" "b"
          3).2.table "/a").1 = true := by
  decide

/-- C17. When `chmod(path, m)` on a path other than `/` passes its checks, every copy of
`change_object_meta` answers key-not-exist, and the path is open in the registry (count
at least 1): `chmod` returns 0; the entity afterwards is the entity before with
`bosfs-mode` set to `m` in its metadata (count and descriptor as before); the attribute
cache is left as the attribute lookup of `chmod` left it (no entry is deleted).  The
mode a successful `getattr` reports is always the mode of its attribute lookup; when
the attribute cache holds an entry for the path that is not dropped as expired, it is
the mode `File::stat` derives from the metadata of that entry, not the mode stored on
the entity. -/
theorem C17_chmod_fallback (fa : Facade) (s : Fs) (path : String) (mode : Nat)
    (e : DataCacheEntity) (hp : path ≠ "/")
    (h1 : (check_path_accessible fa s.w.table path).1 = 0)
    (h2 : (check_object_owner fa (check_path_accessible fa s.w.table path).2 path).1 = 0)
    (h3 : (get_object_attribute fa
      (check_object_owner fa (check_path_accessible fa s.w.table path).2 path).2.2 path).1 = 0)
    (hcopy : ∀ object meta n, fa.copy_object_meta object meta n = CopyResult.key_not_exist)
    (hv : DataCache.Valid s.dc) (hf : s.dc.find path = some e) (hfd : 0 ≤ e.fd)
    (hrc : 1 ≤ e.ref_count) :
    (chmod fa s path mode).1 = 0 ∧
    (chmod fa s path mode).2.dc.find path
      = some { e with
               origin_meta := e.origin_meta.set_user_meta "bosfs-mode"
                 (DataCacheEntity.intText mode) } ∧
    (chmod fa s path mode).2.w.table
      = (get_object_attribute fa
          (check_object_owner fa (check_path_accessible fa s.w.table path).2 path).2.2
          path).2.2.2 ∧
    (∀ (fa2 : Facade) (s2 : Fs), (getattr fa2 s2 path).1 = 0 →
      (getattr fa2 s2 path).2.1.st_mode =
        (get_object_attribute fa2 (check_path_accessible fa2 s2.w.table path).2
          path).2.1.st_mode) ∧
    ∀ (fa2 : Facade) (s2 : Fs) (kv : String × File), path ≠ "." →
      (check_path_accessible fa2 s2.w.table path).1 = 0 →
      (check_path_accessible fa2 s2.w.table path).2.find? (fun x => x.1 == path) = some kv →
      ¬ (fa2.expire_s ≥ 0 ∧ kv.2.load_time_s + fa2.expire_s < fa2.now ∧
        fa2.holders path + 1 ≤ 1) →
      (getattr fa2 s2 path).1 = 0 ∧
      (getattr fa2 s2 path).2.1.st_mode = (File.stat fa2.options kv.2).st_mode := by
  have hE : (- ENOENT : Int) ≠ 0 := by decide
  have hch : ∃ w1 : World,
      w1.table = (get_object_attribute fa
          (check_object_owner fa (check_path_accessible fa s.w.table path).2 path).2.2
          path).2.2.2 ∧
      chmod fa s path mode = (0,
        { dc := (DataCache.close_cache fa.env
            { (DataCache.exist_open fa.env s.dc w1 path).2.1 with
              data_cache := DataCache.store
                (DataCache.exist_open fa.env s.dc w1 path).2.1.data_cache e.addr
                (DataCacheEntity.set_mode { e with ref_count := e.ref_count + 1 } mode) }
            w1 e.addr).2.1,
          w := w1 }) := by
    obtain ⟨obj, hobj⟩ : ∃ obj : String, obj =
        (if S_ISDIR (get_object_attribute fa
            (check_object_owner fa (check_path_accessible fa s.w.table path).2 path).2.2
            path).2.1.st_mode then path.drop 1 ++ "/" else path.drop 1) := ⟨_, rfl⟩
    refine ⟨{ trace := s.w.trace ++ List.replicate 6 (Event.copy_object obj obj),
              table := (get_object_attribute fa
                (check_object_owner fa (check_path_accessible fa s.w.table path).2 path).2.2
                path).2.2.2 }, rfl, ?_⟩
    subst hobj
    unfold chmod
    rw [if_neg hp]
    dsimp only
    rw [if_neg (by rw [h1]; simp), if_neg (by rw [h2]; simp), if_neg (by rw [h3]; simp)]
    rw [change_object_meta_key_not_exist fa _ _ (hcopy _ _)]
    dsimp only
    rw [if_pos hE, if_pos rfl]
    obtain ⟨a1, a2, a3, a4, _⟩ :=
      chmod_fallback_registry fa.env s.dc
        { trace := s.w.trace ++ List.replicate 6 (Event.copy_object
            (if S_ISDIR (get_object_attribute fa
              (check_object_owner fa (check_path_accessible fa s.w.table path).2 path).2.2
              path).2.1.st_mode then path.drop 1 ++ "/" else path.drop 1)
            (if S_ISDIR (get_object_attribute fa
              (check_object_owner fa (check_path_accessible fa s.w.table path).2 path).2.2
              path).2.1.st_mode then path.drop 1 ++ "/" else path.drop 1)),
          table := (get_object_attribute fa
            (check_object_owner fa (check_path_accessible fa s.w.table path).2 path).2.2
            path).2.2.2 } path mode e hv hf hfd hrc
    rw [a1]
    dsimp only
    rw [a3, a2]
    dsimp only
    rw [a4]
  obtain ⟨w1, ht, hch⟩ := hch
  obtain ⟨_, _, _, _, a5⟩ := chmod_fallback_registry fa.env s.dc w1 path mode e hv hf hfd hrc
  rw [hch]
  refine ⟨rfl, a5, ht, fun fa2 s2 => getattr_mode fa2 s2 path, ?_⟩
  intro fa2 s2 kv hd hc hfind hx
  obtain ⟨g1, g2, _⟩ := get_object_attribute_cached fa2 _ path kv hp hd hfind hx
  have hok := getattr_ok fa2 s2 path hc g1
  exact ⟨hok, by rw [getattr_mode fa2 s2 path hok, g2]⟩

theorem C17_chmod_fallback_witness :
    (chmod Facade.sample Fs.sample "/f" 0o600).1 = 0 :=
  (C17_chmod_fallback Facade.sample Fs.sample "/f" 0o600
    (DataCacheEntity.sample [⟨0, 3, true⟩] [1, 2, 3] true 0) (by decide) (by decide)
    (by decide) (by decide) (fun _ _ _ => rfl) ⟨by decide, by decide, by decide, by decide⟩
    (by decide) (by decide) (by decide)).1

/-- C17, counterexample. `/f` was created with mode `0100644` and is open, not yet
uploaded.  `chmod("/f", 0600)` returns 0 and stores `384` (octal 600) on the entity; the
following `getattr("/f")` returns 0 and reports `st_mode = 0100644`. -/
theorem C17_getattr_after_chmod_counterexample :
    (chmod Facade.sample Fs.sample "/f" 0o600).1 = 0 ∧
    ((chmod Facade.sample Fs.sample "/f" 0o600).2.dc.find "/f").map
        (fun e => (e.origin_meta.get_user_meta "bosfs-mode", e.fd, e.ref_count))
      = some ("384", 4, 1) ∧
    (getattr Facade.sample (chmod Facade.sample Fs.sample "/f" 0o600).2 "/f").1 = 0 ∧
    (getattr Facade.sample (chmod Facade.sample Fs.sample "/f" 0o600).2 "/f").2.1.st_mode
      = 0o100644 ∧
    0o100644 &&& 0o777 ≠ 0o600 := by
  decide

/-- C12, counterexample. The object has 4 bytes, the local file 8, the bytes `[4, 8)` not
loaded and holding `5, 6, 7, 8`.  `load(4, 4)` returns 0 and marks `[4, 8)` loaded without
a download and without a write: byte 4, unloaded before and at the original size, reads
as 5 afterwards. -/
theorem C12_load_beyond_origin_counterexample :
    (DataCacheEntity.load (Env.allOk (2 ^ 40))
        (DataCacheEntity.sample [⟨0, 4, true⟩, ⟨4, 4, false⟩] [1, 2, 3, 4, 5, 6, 7, 8] false 4)
        World.empty 4 4).1 = 0 ∧
    ObjectPageList.loadedAt [⟨0, 4, true⟩, ⟨4, 4, false⟩] 4 = some false ∧
    (DataCacheEntity.load (Env.allOk (2 ^ 40))
        (DataCacheEntity.sample [⟨0, 4, true⟩, ⟨4, 4, false⟩] [1, 2, 3, 4, 5, 6, 7, 8] false 4)
        World.empty 4 4).2.1.page_list = [⟨0, 8, true⟩] ∧
    (DataCacheEntity.load (Env.allOk (2 ^ 40))
        (DataCacheEntity.sample [⟨0, 4, true⟩, ⟨4, 4, false⟩] [1, 2, 3, 4, 5, 6, 7, 8] false 4)
        World.empty 4 4).2.2.trace = [] ∧
    (DataCacheEntity.load (Env.allOk (2 ^ 40))
        (DataCacheEntity.sample [⟨0, 4, true⟩, ⟨4, 4, false⟩] [1, 2, 3, 4, 5, 6, 7, 8] false 4)
        World.empty 4 4).2.1.file[4]? = some 5 := by
  decide

/-- C12. On an open entity with a well-formed page list, when `load(offset, len)` with
`len > 0` returns 0 (a failing `pwrite` setting `errno`, a successful download writing
the bytes requested): every byte of the window below the size of the list is marked
loaded, and every byte other than the unloaded bytes of the window keeps its state; the
ranges of `get_unloaded_pages` are the runs of unloaded bytes of the window; the
downloads are, in order, one for each run that starts below `origin_meta_size`, from its
start to `min(origin_meta_size, next)`; in such a run the bytes at or beyond
`origin_meta_size` are zero in the local file afterwards; and the local file is left as
it was at every position outside the runs that start below `origin_meta_size`, so a run
that starts at or beyond `origin_meta_size` is marked loaded with the bytes the file
held. -/
theorem C12_load (env : Env) (e : DataCacheEntity) (w : World) (offset len : Nat)
    (hfd : e.fd ≠ -1) (hlen : 0 < len) (hwf : ObjectPageList.WellFormed e.page_list)
    (hfill : ∀ n o, env.fill_file_errno n o ≠ some 0)
    (hdl : ∀ o n, (env.parallel_download o n).1 = 0 → (env.parallel_download o n).2.length = n)
    (hok : (DataCacheEntity.load env e w offset len).1 = 0) :
    (∀ pos, offset ≤ pos → pos < offset + len → pos < ObjectPageList.get_size e.page_list →
      ObjectPageList.loadedAt (DataCacheEntity.load env e w offset len).2.1.page_list pos = some true) ∧
    (∀ pos,
      ¬ (offset ≤ pos ∧ pos < offset + len ∧
        ObjectPageList.loadedAt e.page_list pos = some false) →
      ObjectPageList.loadedAt (DataCacheEntity.load env e w offset len).2.1.page_list pos
        = ObjectPageList.loadedAt e.page_list pos) ∧
    ((∀ p ∈ ObjectPageList.get_unloaded_pages e.page_list [] offset len,
        p.loaded = false ∧ 0 < p.bytes ∧ offset ≤ p.offset ∧ p.next ≤ offset + len ∧
        p.next ≤ ObjectPageList.get_size e.page_list ∧
        ∀ pos, p.covers pos → ObjectPageList.loadedAt e.page_list pos = some false) ∧
      (ObjectPageList.get_unloaded_pages e.page_list [] offset len).Pairwise (fun p q => p.next < q.offset) ∧
      (∀ pos, offset ≤ pos → pos < offset + len → ObjectPageList.loadedAt e.page_list pos = some false →
        ∃ p ∈ ObjectPageList.get_unloaded_pages e.page_list [] offset len, p.covers pos)) ∧
    (DataCacheEntity.load env e w offset len).2.2.trace
      = w.trace ++
        ((ObjectPageList.get_unloaded_pages e.page_list [] offset len).filter
          (fun p => decide (p.offset < e.origin_meta_size))).map
          (fun p => Event.parallel_download e.path p.offset
            (min e.origin_meta_size p.next - p.offset)) ∧
    (∀ p ∈ ObjectPageList.get_unloaded_pages e.page_list [] offset len, p.offset < e.origin_meta_size →
      ∀ pos, e.origin_meta_size ≤ pos → pos < p.next →
      (DataCacheEntity.load env e w offset len).2.1.file[pos]? = some 0) ∧
    (∀ pos,
      (∀ p ∈ ObjectPageList.get_unloaded_pages e.page_list [] offset len, p.covers pos →
        e.origin_meta_size ≤ p.offset) →
      byteAt (DataCacheEntity.load env e w offset len).2.1.file pos = byteAt e.file pos) := by
  obtain ⟨k1, k2, k3, _, _, _, _, k8⟩ :=
    DataCacheEntity.load_ok env e w offset len hfd hlen hwf hfill hok
  obtain ⟨a, b, c⟩ := ObjectPageList.get_unloaded_pages_spec e.page_list offset len hwf hlen
  obtain ⟨m1, m2, m3⟩ := DataCacheEntity.markLoaded_spec
    (ObjectPageList.get_unloaded_pages e.page_list [] offset len) e.page_list hwf (fun p hp => (a p hp).2.2.2.2.1)
  have hdl2 : ∀ p ∈ ObjectPageList.get_unloaded_pages e.page_list [] offset len,
      0 < DataCacheEntity.need_load_size e.origin_meta_size p →
      (env.parallel_download p.offset
        (DataCacheEntity.need_load_size e.origin_meta_size p)).2.length
        = DataCacheEntity.need_load_size e.origin_meta_size p :=
    fun p hp hn => hdl _ _ (k8 p hp hn)
  refine ⟨?_, ?_, ⟨a, b, c⟩, ?_, ?_, ?_⟩
  · intro pos h1 h2 h3
    rw [k1]
    obtain ⟨bl, hb⟩ := ObjectPageList.loadedAt_isSome e.page_list 0 pos hwf.1 (by omega)
      (by rw [← ObjectPageList.get_size_eq_sum e.page_list hwf.1]; omega)
    cases bl with
    | false => exact (m3 pos).1 (c pos h1 h2 hb)
    | true =>
      rw [(m3 pos).2 (fun p hp hc => by
        have := (a p hp).2.2.2.2.2 pos hc
        rw [hb] at this
        simp at this), hb]
  · intro pos hne
    rw [k1]
    refine (m3 pos).2 (fun p hp hc => hne ?_)
    obtain ⟨_, _, a3, a4, _, a6⟩ := a p hp
    have hc1 : p.offset ≤ pos := hc.1
    have hc2 : pos < p.next := hc.2
    exact ⟨by omega, by omega, a6 pos hc⟩
  · rw [k3]
    congr 1
    unfold DataCacheEntity.loadRequests
    have hfilter : ∀ p : ObjectPage, p ∈ ObjectPageList.get_unloaded_pages e.page_list [] offset len →
        (decide (0 < DataCacheEntity.need_load_size e.origin_meta_size p)
          = decide (p.offset < e.origin_meta_size)) := by
      intro p hp
      obtain ⟨n1, n2⟩ := DataCacheEntity.need_over e.origin_meta_size p
      have hb := (a p hp).2.1
      have hnx : p.next = p.offset + p.bytes := rfl
      by_cases h : p.offset < e.origin_meta_size
      · have := (n2 h).1
        have hm : p.offset < min e.origin_meta_size p.next := by
          rw [lt_min_iff]; omega
        simp only [h, decide_True, decide_eq_true_eq]
        omega
      · have := (n1 (by omega)).1
        simp only [h, decide_False, decide_eq_false_iff_not]
        omega
    rw [List.filter_congr hfilter]
    apply List.map_congr_left
    intro p hp
    have hlt : p.offset < e.origin_meta_size := by
      simpa using (List.mem_filter.1 hp).2
    have := ((DataCacheEntity.need_over e.origin_meta_size p).2 hlt).1
    congr 1
    omega
  · intro p hp h0 pos h1 h2
    rw [k2]
    exact DataCacheEntity.loadWrites_zero env e.origin_meta_size pos _ e.file hdl2 b p hp h0 h1 h2
  · intro pos h
    rw [k2]
    exact (DataCacheEntity.loadWrites_outside env e.origin_meta_size pos _ e.file hdl2 h).1

theorem C12_load_witness :
    (DataCacheEntity.load (Env.allOk (2 ^ 40))
        (DataCacheEntity.sample [⟨0, 10, false⟩] [7, 7, 7, 7, 7, 7, 7, 7, 7, 7] false 6)
        World.empty 0 10).2.1.file[8]? = some 0 :=
  (C12_load (Env.allOk (2 ^ 40))
    (DataCacheEntity.sample [⟨0, 10, false⟩] [7, 7, 7, 7, 7, 7, 7, 7, 7, 7] false 6)
    World.empty 0 10 (by decide) (by decide) (by decide) (fun _ _ => by simp [Env.allOk])
    (fun _ _ _ => by simp [Env.allOk]) (by decide)).2.2.2.2.1
    ⟨0, 10, false⟩ (by decide) (by decide) 8 (by decide) (by decide)

/-- C13. On an open entity with a well-formed page list of size `S`, a `read(start, len)`
with `len > 0` whose window holds an unloaded byte, with enough disk space and the read
succeeding, and with `P = multipart_size * multipart_parallel`: the size of the list
stays `S`, every unloaded byte of `[start, min(start + max(len, P), S))` is loaded
afterwards, and every other byte keeps the state it had. -/
theorem C13_read_prefetch (env : Env) (e : DataCacheEntity) (w : World) (start len : Nat)
    (hfd : e.fd ≠ -1) (hlen : 0 < len) (hwf : ObjectPageList.WellFormed e.page_list)
    (hun : 0 < ObjectPageList.get_total_unloaded_page_size e.page_list start len)
    (hsafe : DataCacheEntity.is_safe_disk_space env e len = true)
    (hfill : ∀ n o, env.fill_file_errno n o ≠ some 0)
    (hret : 0 ≤ (DataCacheEntity.read env e w start len false).1) :
    ObjectPageList.get_size (DataCacheEntity.read env e w start len false).2.2.1.page_list
      = ObjectPageList.get_size e.page_list ∧
    (∀ pos, start ≤ pos →
      pos < min (start + max len (env.multipart_size * env.multipart_parallel))
        (ObjectPageList.get_size e.page_list) →
      ObjectPageList.loadedAt e.page_list pos = some false →
      ObjectPageList.loadedAt (DataCacheEntity.read env e w start len false).2.2.1.page_list pos = some true) ∧
    (∀ pos,
      ¬ (start ≤ pos ∧
        pos < min (start + max len (env.multipart_size * env.multipart_parallel))
          (ObjectPageList.get_size e.page_list) ∧
        ObjectPageList.loadedAt e.page_list pos = some false) →
      ObjectPageList.loadedAt (DataCacheEntity.read env e w start len false).2.2.1.page_list pos
        = ObjectPageList.loadedAt e.page_list pos) := by
  have hne : len ≠ 0 := by omega
  obtain ⟨ls, hls⟩ : ∃ ls : Nat, ls =
      (if start + len < ObjectPageList.get_size e.page_list then
        (if start + max len (env.multipart_size * env.multipart_parallel) < ObjectPageList.get_size e.page_list
          then max len (env.multipart_size * env.multipart_parallel)
          else ObjectPageList.get_size e.page_list - start)
      else len) := ⟨_, rfl⟩
  have hpl : (DataCacheEntity.read env e w start len false).2.2.1.page_list
      = (DataCacheEntity.load env e w start ls).2.1.page_list ∧
      (DataCacheEntity.load env e w start ls).1 = 0 := by
    rw [hls]
    revert hret
    unfold DataCacheEntity.read
    rw [if_neg hfd, if_neg hne]
    simp only [Bool.false_eq_true, if_false, hun, if_true, hsafe, Bool.not_true, Bool.false_and,
      false_and]
    by_cases hl : (DataCacheEntity.load env e w start
        (if start + len < ObjectPageList.get_size e.page_list then
          (if start + max len (env.multipart_size * env.multipart_parallel)
              < ObjectPageList.get_size e.page_list
            then max len (env.multipart_size * env.multipart_parallel)
            else ObjectPageList.get_size e.page_list - start)
        else len)).1 ≠ 0
    · have hE : (- EIO : Int) ≠ 0 := by decide
      have hE2 : ¬ (0 ≤ (- EIO : Int)) := by decide
      rw [if_pos hl]
      dsimp only
      rw [if_pos hE]
      intro h
      exact absurd h hE2
    · rw [if_neg hl]
      dsimp only
      rw [if_neg (by simp)]
      intro _
      refine ⟨?_, by simpa using hl⟩
      split <;> rfl
  obtain ⟨hpl, hl0⟩ := hpl
  have hmax : len ≤ max len (env.multipart_size * env.multipart_parallel) := le_max_left _ _
  have hls0 : 0 < ls := by
    rw [hls]
    split_ifs <;> omega
  have hwin : ∀ pos, pos < ObjectPageList.get_size e.page_list →
      (pos < start + ls ↔
        pos < min (start + max len (env.multipart_size * env.multipart_parallel))
          (ObjectPageList.get_size e.page_list)) := by
    intro pos hp
    rw [hls, lt_min_iff]
    split_ifs <;> constructor <;> intro h <;> omega
  have hsz : ∀ pos, ObjectPageList.loadedAt e.page_list pos = some false → pos < ObjectPageList.get_size e.page_list := by
    intro pos h
    by_contra hge
    rw [ObjectPageList.loadedAt_none_of_ge e.page_list 0 pos hwf.1 (by
      rw [← ObjectPageList.get_size_eq_sum e.page_list hwf.1]; omega)] at h
    simp at h
  obtain ⟨k1, _⟩ := DataCacheEntity.load_ok env e w start ls hfd hls0 hwf hfill hl0
  obtain ⟨a, _, c⟩ := ObjectPageList.get_unloaded_pages_spec e.page_list start ls hwf hls0
  obtain ⟨_, m2, m3⟩ := DataCacheEntity.markLoaded_spec
    (ObjectPageList.get_unloaded_pages e.page_list [] start ls) e.page_list hwf (fun p hp => (a p hp).2.2.2.2.1)
  rw [hpl, k1]
  refine ⟨m2, ?_, ?_⟩
  · intro pos h1 h2 h3
    exact (m3 pos).1 (c pos h1 ((hwin pos (hsz pos h3)).2 h2) h3)
  · intro pos hn
    refine (m3 pos).2 (fun p hp hc => hn ?_)
    obtain ⟨_, _, a3, a4, _, a6⟩ := a p hp
    have h3 := a6 pos hc
    have hc1 : p.offset ≤ pos := hc.1
    have hc2 : pos < p.next := hc.2
    exact ⟨by omega, (hwin pos (hsz pos h3)).1 (by omega), h3⟩

theorem C13_read_prefetch_witness :
    ObjectPageList.loadedAt
      (DataCacheEntity.read (Env.allOk (2 ^ 40))
        (DataCacheEntity.sample [⟨0, 10, false⟩] [0, 0, 0, 0, 0, 0, 0, 0, 0, 0] false 10)
        World.empty 0 1 false).2.2.1.page_list 9 = some true :=
  (C13_read_prefetch (Env.allOk (2 ^ 40))
    (DataCacheEntity.sample [⟨0, 10, false⟩] [0, 0, 0, 0, 0, 0, 0, 0, 0, 0] false 10)
    World.empty 0 1 (by decide) (by decide) (by decide) (by decide) (by decide)
    (fun _ _ => by simp [Env.allOk]) (by decide)).2.1 9 (by decide) (by decide) (by decide)

/-- Claim C23. Marking a window of a well-formed page list as loaded a second time
leaves exactly the list of ranges (offsets, lengths, flags) that the first call left. -/
theorem C23_set_loaded_idempotent (l : PageList) (o n : Nat) (hwf : ObjectPageList.WellFormed l) :
    ObjectPageList.set_page_loaded_status (ObjectPageList.set_page_loaded_status l o n true true) o n true true
      = ObjectPageList.set_page_loaded_status l o n true true := by
  obtain ⟨a, b, c⟩ := ObjectPageList.set_page_loaded_status_spec l o n true hwf
  obtain ⟨a2, b2, c2⟩ := ObjectPageList.set_page_loaded_status_spec
    (ObjectPageList.set_page_loaded_status l o n true true) o n true a
  have hsz : ObjectPageList.get_size (ObjectPageList.set_page_loaded_status (ObjectPageList.set_page_loaded_status l o n true true) o n
      true true) = ObjectPageList.get_size (ObjectPageList.set_page_loaded_status l o n true true) := by
    rw [b2, b]; omega
  by_cases h0 : ObjectPageList.get_size (ObjectPageList.set_page_loaded_status l o n true true) = 0
  · -- an empty object: both lists are the one empty range that `ObjectPageList.init` leaves
    have hS : ObjectPageList.get_size l = 0 := by rw [b] at h0; omega
    have ho : o = 0 := by rw [b] at h0; omega
    have hn : n = 0 := by rw [b] at h0; omega
    subst ho hn
    have h1 : ObjectPageList.set_page_loaded_status l 0 0 true true = [⟨0, 0, true⟩] := by
      simp [ObjectPageList.set_page_loaded_status, ObjectPageList.resize, hS, ObjectPageList.init, ObjectPageList.compress, ObjectPageList.compressAux]
    rw [h1]
    decide
  · refine ObjectPageList.wellFormed_ext _ _ a2 a (by rw [hsz]; exact h0) h0 (fun pos => ?_)
    rw [c2 pos, b]
    rw [c pos]
    by_cases hw : o ≤ pos ∧ pos < o + n
    · simp only [hw, and_self, if_true]
    · simp only [hw, if_false]
      by_cases h1 : pos < max (ObjectPageList.get_size l) (o + n)
      · rw [if_pos h1]
      · rw [if_neg h1]
        have h2 : ¬ pos < ObjectPageList.get_size l := by omega
        have h3 : ¬ pos < o := by omega
        rw [if_neg h2, if_neg h3]

theorem C23_set_loaded_idempotent_witness :
    ObjectPageList.set_page_loaded_status
        (ObjectPageList.set_page_loaded_status [⟨0, 3, false⟩, ⟨3, 4, true⟩, ⟨7, 2, false⟩] 1 7 true true)
        1 7 true true
      = ObjectPageList.set_page_loaded_status [⟨0, 3, false⟩, ⟨3, 4, true⟩, ⟨7, 2, false⟩] 1 7 true true :=
  C23_set_loaded_idempotent _ 1 7 (by decide)

/-- Claim C24. After `resize(n, l)` on a well-formed list of size `S` the size is `n`,
every byte position below `min S n` keeps its state, and every position of `[S, n)` has
the state `l`. -/
theorem C24_resize (l : PageList) (n : Nat) (fl : Bool) (hwf : ObjectPageList.WellFormed l) :
    ObjectPageList.get_size (ObjectPageList.resize l n fl) = n ∧
    (∀ pos, pos < min (ObjectPageList.get_size l) n →
      ObjectPageList.loadedAt (ObjectPageList.resize l n fl) pos
        = ObjectPageList.loadedAt l pos) ∧
    (∀ pos, ObjectPageList.get_size l ≤ pos → pos < n →
      ObjectPageList.loadedAt (ObjectPageList.resize l n fl) pos = some fl) := by
  refine ⟨ObjectPageList.resize_size l n fl hwf, fun pos hpos => ?_, fun pos h1 h2 => ?_⟩
  · rw [ObjectPageList.loadedAt_resize l n pos fl hwf, if_pos (by omega), if_pos (by omega)]
  · rw [ObjectPageList.loadedAt_resize l n pos fl hwf, if_pos h2, if_neg (by omega)]

theorem C24_resize_witness :
    ObjectPageList.WellFormed [⟨0, 3, false⟩, ⟨3, 4, true⟩] ∧
    ObjectPageList.get_size (ObjectPageList.resize [⟨0, 3, false⟩, ⟨3, 4, true⟩] 10 false) = 10 ∧
    ObjectPageList.loadedAt (ObjectPageList.resize [⟨0, 3, false⟩, ⟨3, 4, true⟩] 10 false) 8
      = some false :=
  ⟨by decide, (C24_resize [⟨0, 3, false⟩, ⟨3, 4, true⟩] 10 false (by decide)).1,
    (C24_resize [⟨0, 3, false⟩, ⟨3, 4, true⟩] 10 false (by decide)).2.2 8 (by decide)
      (by decide)⟩

/-- Claim C26. On a well-formed list and an empty output list `get_unloaded_pages`
returns the maximal runs of unloaded bytes of the window `[start, e)`, where `e` is
`start + len`, or the size of the list when `len = 0`: every output range is non-empty,
lies inside the window, covers unloaded bytes only and cannot be extended to the left or
to the right; the ranges come in ascending order and neither overlap nor abut; every
unloaded byte of the window is in one of them. -/
theorem C26_get_unloaded_pages (l : PageList) (start len : Nat)
    (hwf : ObjectPageList.WellFormed l) :
    (∀ p ∈ ObjectPageList.get_unloaded_pages l [] start len,
      p.loaded = false ∧ 0 < p.bytes ∧ start ≤ p.offset ∧
      p.next ≤ (if len = 0 then ObjectPageList.get_size l else start + len) ∧
      (∀ pos, p.covers pos → ObjectPageList.loadedAt l pos = some false) ∧
      (p.offset = start ∨ ObjectPageList.loadedAt l (p.offset - 1) ≠ some false) ∧
      (p.next = (if len = 0 then ObjectPageList.get_size l else start + len) ∨
        ObjectPageList.loadedAt l p.next ≠ some false)) ∧
    (ObjectPageList.get_unloaded_pages l [] start len).Pairwise
      (fun p q => p.next < q.offset) ∧
    (∀ pos, start ≤ pos → pos < (if len = 0 then ObjectPageList.get_size l else start + len) →
      ObjectPageList.loadedAt l pos = some false →
      ∃ p ∈ ObjectPageList.get_unloaded_pages l [] start len, p.covers pos) := by
  -- the window [start, e) and the positive length the loop runs with
  obtain ⟨e, he⟩ : ∃ e, e = (if len = 0 then ObjectPageList.get_size l else start + len) :=
    ⟨_, rfl⟩
  rw [← he]
  by_cases hempty : len = 0 ∧ ObjectPageList.get_size l ≤ start
  · -- no byte of the list is at or after `start`: nothing is returned
    have hU : ObjectPageList.get_unloaded_pages l [] start len = [] := by
      unfold ObjectPageList.get_unloaded_pages
      apply ObjectPageList.unloadedLoop_skip
      intro p hp
      have h1 := ObjectPageList.contig_next_le l 0 hwf.1 p hp
      have h2 := ObjectPageList.get_size_eq_sum l hwf.1
      simp only [ObjectPage.next]
      omega
    rw [hU]
    refine ⟨by simp, List.Pairwise.nil, fun pos h1 h2 _ => ?_⟩
    rw [he, if_pos hempty.1] at h2
    omega
  · obtain ⟨size, hsize, hU, hend⟩ : ∃ size, 0 < size ∧
        ObjectPageList.get_unloaded_pages l [] start len
          = ObjectPageList.get_unloaded_pages l [] start size ∧ e = start + size := by
      by_cases hl : len = 0
      · have hlt : start < ObjectPageList.get_size l := by
          by_contra hc
          exact hempty ⟨hl, by omega⟩
        refine ⟨ObjectPageList.get_size l - start, by omega, ?_, ?_⟩
        · have hne : ObjectPageList.get_size l - start ≠ 0 := by omega
          unfold ObjectPageList.get_unloaded_pages
          simp only [hl, hlt, hne, if_true, if_false]
        · rw [he, if_pos hl]; omega
      · exact ⟨len, by omega, rfl, by rw [he, if_neg hl]⟩
    rw [hU]
    obtain ⟨h1, h2, h3⟩ := ObjectPageList.get_unloaded_pages_spec l start size hwf hsize
    rw [← hend] at h1 h3
    have hsep : ∀ p ∈ ObjectPageList.get_unloaded_pages l [] start size,
        ∀ q ∈ ObjectPageList.get_unloaded_pages l [] start size, p ≠ q →
        p.next < q.offset ∨ q.next < p.offset := by
      have hs : (ObjectPageList.get_unloaded_pages l [] start size).Pairwise
          (fun p q => p.next < q.offset ∨ q.next < p.offset) :=
        h2.imp (fun h => Or.inl h)
      exact hs.forall (fun a b h => h.symm)
    refine ⟨fun p hp => ?_, h2, h3⟩
    obtain ⟨a, b, c, d, _, f⟩ := h1 p hp
    refine ⟨a, b, c, d, f, ?_, ?_⟩
    · by_cases hs : p.offset = start
      · exact Or.inl hs
      · right
        intro hun
        obtain ⟨q, hq, hcov⟩ := h3 (p.offset - 1) (by omega)
          (by simp only [ObjectPage.next] at d; omega) hun
        obtain ⟨_, qb, _, _, _, _⟩ := h1 q hq
        simp only [ObjectPage.covers, ObjectPage.next] at hcov
        have hne : p ≠ q := by
          intro hpq
          rw [← hpq] at hcov
          omega
        rcases hsep p hp q hq hne with h | h <;> simp only [ObjectPage.next] at h <;> omega
    · by_cases hs : p.next = e
      · exact Or.inl hs
      · right
        intro hun
        obtain ⟨q, hq, hcov⟩ := h3 p.next (by simp only [ObjectPage.next]; omega)
          (by omega) hun
        obtain ⟨_, qb, _, _, _, _⟩ := h1 q hq
        simp only [ObjectPage.covers, ObjectPage.next] at hcov
        have hne : p ≠ q := by
          intro hpq
          rw [← hpq] at hcov
          omega
        rcases hsep p hp q hq hne with h | h <;> simp only [ObjectPage.next] at h <;> omega

theorem C26_get_unloaded_pages_witness :
    ObjectPageList.get_unloaded_pages [⟨0, 3, false⟩, ⟨3, 4, true⟩, ⟨7, 2, false⟩] [] 1 0
      = [⟨1, 2, false⟩, ⟨7, 2, false⟩] ∧
    (ObjectPageList.get_unloaded_pages [⟨0, 3, false⟩, ⟨3, 4, true⟩, ⟨7, 2, false⟩] [] 1
      0).Pairwise (fun p q => p.next < q.offset) :=
  ⟨by decide,
    (C26_get_unloaded_pages [⟨0, 3, false⟩, ⟨3, 4, true⟩, ⟨7, 2, false⟩] 1 0 (by decide)).2.1⟩

/-- Claim C25. The object has 8 bytes.  A write of `AB` at 0 leaves the entity modified.
A second write, at offset 12, extends the list by unloaded bytes and loads `[0, 12)`:
the load succeeds, zero-fills `[8, 12)` and clears the modified flag; the `pwrite` of the
write then fails, so the write returns `-ENOSPC` with the flag still cleared.  The next
`flush(false)` returns 0 without an upload: `AB` stays in the local file only. -/
theorem C25_load_clears_modified :
    (DataCacheEntity.write
        { Env.allOk (2 ^ 40) with
          pwrite := fun n s => if s = 12 then .error ENOSPC else .ok n }
        (DataCacheEntity.sample [⟨0, 8, false⟩] [0, 0, 0, 0, 0, 0, 0, 0] false 8)
        World.empty [65, 66] 0)
      = (2,
         DataCacheEntity.sample [⟨0, 2, true⟩, ⟨2, 6, false⟩] [65, 66, 0, 0, 0, 0, 0, 0] true 8,
         World.empty) ∧
    (DataCacheEntity.load (Env.allOk (2 ^ 40))
        (DataCacheEntity.sample [⟨0, 2, true⟩, ⟨2, 10, false⟩]
          [65, 66, 0, 0, 0, 0, 0, 0, 0, 0, 0, 0] true 8)
        World.empty 0 12).1 = 0 ∧
    (DataCacheEntity.load (Env.allOk (2 ^ 40))
        (DataCacheEntity.sample [⟨0, 2, true⟩, ⟨2, 10, false⟩]
          [65, 66, 0, 0, 0, 0, 0, 0, 0, 0, 0, 0] true 8)
        World.empty 0 12).2.1.is_modified = false ∧
    (DataCacheEntity.write
        { Env.allOk (2 ^ 40) with
          pwrite := fun n s => if s = 12 then .error ENOSPC else .ok n }
        (DataCacheEntity.sample [⟨0, 2, true⟩, ⟨2, 6, false⟩] [65, 66, 0, 0, 0, 0, 0, 0] true 8)
        World.empty [88] 12).1 = -ENOSPC ∧
    (DataCacheEntity.write
        { Env.allOk (2 ^ 40) with
          pwrite := fun n s => if s = 12 then .error ENOSPC else .ok n }
        (DataCacheEntity.sample [⟨0, 2, true⟩, ⟨2, 6, false⟩] [65, 66, 0, 0, 0, 0, 0, 0] true 8)
        World.empty [88] 12).2.1
      = DataCacheEntity.sample [⟨0, 12, true⟩] [65, 66, 0, 0, 0, 0, 0, 0, 0, 0, 0, 0] false 8 ∧
    (DataCacheEntity.write
        { Env.allOk (2 ^ 40) with
          pwrite := fun n s => if s = 12 then .error ENOSPC else .ok n }
        (DataCacheEntity.sample [⟨0, 2, true⟩, ⟨2, 6, false⟩] [65, 66, 0, 0, 0, 0, 0, 0] true 8)
        World.empty [88] 12).2.2
      = { trace := [Event.parallel_download "/f" 2 6], table := [] } ∧
    (DataCacheEntity.flush (Env.allOk (2 ^ 40))
        (DataCacheEntity.sample [⟨0, 12, true⟩] [65, 66, 0, 0, 0, 0, 0, 0, 0, 0, 0, 0] false 8)
        { trace := [Event.parallel_download "/f" 2 6], table := [] } false)
      = (0,
         DataCacheEntity.sample [⟨0, 12, true⟩] [65, 66, 0, 0, 0, 0, 0, 0, 0, 0, 0, 0] false 8,
         { trace := [Event.parallel_download "/f" 2 6], table := [] }) := by
  decide

/-- Claim C28. Opening the temporary file fails with `EMFILE`: `open_file` returns `-24`,
which is not `-1`, so `open_cache` on an empty registry returns the new entity (a
non-null pointer) although it is not open: its descriptor is `-1` and its reference
count 0, and it stays in the registry. -/
theorem C28_open_cache_returns_closed_entity :
    (DataCacheEntity.open_file { Env.allOk (2 ^ 40) with open_tmp_file := .error 24 }
        (DataCacheEntity.construct 1 "/f" "") World.empty none 0 (-1)).1 = -24 ∧
    (DataCache.open_cache { Env.allOk (2 ^ 40) with open_tmp_file := .error 24 }
        { data_cache := [], next_addr := 1 } World.empty "/f" none 0 (-1) false true).1
      = some 1 ∧
    ((DataCache.open_cache { Env.allOk (2 ^ 40) with open_tmp_file := .error 24 }
        { data_cache := [], next_addr := 1 } World.empty "/f" none 0 (-1) false true).2.1.deref
        1).map (fun e => (e.fd, e.ref_count)) = some (-1, 0) := by
  decide

/-- Claim C29. The stat-cache file holds the write-mode text of a well-formed list, and
a well-formed list with a shorter text is written over it: the end of the old text stays
in the file.  In the first case read-mode `serialize` fails (the old last line makes the
size 20, the first line says 5); in the second it succeeds and rebuilds a list other than
the one written, with bytes marked loaded that the written list has unloaded.  In both
cases a NUL follows the bytes read (`heap = []`). -/
theorem C29_serialize_over_longer_text :
    ObjectPageList.WellFormed [⟨0, 10, false⟩, ⟨10, 10, true⟩] ∧
    ObjectPageList.WellFormed [⟨0, 5, true⟩] ∧
    (serialize [⟨0, 5, true⟩]
        { open_ok := true, fstat_ok := true, pread_ok := true, pwrite_ok := true,
          heap := [], content := serializeText [⟨0, 10, false⟩, ⟨10, 10, true⟩] } true).1 = true ∧
    (serialize [⟨0, 5, true⟩]
        { open_ok := true, fstat_ok := true, pread_ok := true, pwrite_ok := true,
          heap := [], content := serializeText [⟨0, 10, false⟩, ⟨10, 10, true⟩] } true).2.2.content
      = "5\n0:5:1:0\n10:10:1".toList ∧
    (serialize []
        (serialize [⟨0, 5, true⟩]
          { open_ok := true, fstat_ok := true, pread_ok := true, pwrite_ok := true,
            heap := [], content := serializeText [⟨0, 10, false⟩, ⟨10, 10, true⟩] } true).2.2 false).1
      = false ∧
    ObjectPageList.WellFormed [⟨0, 1, false⟩, ⟨1, 1, true⟩, ⟨2, 1, false⟩, ⟨3, 7, true⟩] ∧
    ObjectPageList.WellFormed [⟨0, 10, false⟩] ∧
    (serialize []
        (serialize [⟨0, 10, false⟩]
          { open_ok := true, fstat_ok := true, pread_ok := true, pwrite_ok := true,
            heap := [], content :=
              serializeText [⟨0, 1, false⟩, ⟨1, 1, true⟩, ⟨2, 1, false⟩, ⟨3, 7, true⟩] }
          true).2.2 false).1 = true ∧
    (serialize []
        (serialize [⟨0, 10, false⟩]
          { open_ok := true, fstat_ok := true, pread_ok := true, pwrite_ok := true,
            heap := [], content :=
              serializeText [⟨0, 1, false⟩, ⟨1, 1, true⟩, ⟨2, 1, false⟩, ⟨3, 7, true⟩] }
          true).2.2 false).2.1
      = [⟨0, 2, true⟩, ⟨2, 1, false⟩, ⟨3, 7, true⟩] := by
  decide

/-- Claim C27. The stored string holds the one record `abcd` with the value `x`.
`setxattr("abc", "y")` returns 0 and stores `y` as the value of `abcd`, a record other
than the one named; `removexattr("abc")` returns 0 and removes the record `abcd`.  The
stored string is not empty, so nothing depends on `last_of_empty`. -/
theorem C27_xattr_prefix_name (c : Char) :
    setxattr c "abcd:eA==".toList "abc".toList [121] 0 = (0, "abcd:eQ==".toList) ∧
    getxattr "abcd:eA==".toList "abcd".toList 8 = (1, [120]) ∧
    getxattr (setxattr c "abcd:eA==".toList "abc".toList [121] 0).2 "abcd".toList 8
      = (1, [121]) ∧
    listxattr "abcd:eA==".toList = listxattr "abcd:eQ==".toList ∧
    removexattr "abcd:eA==".toList "abc".toList = (0, []) := by
  have hl : locate_xattr "abcd:eA==".toList "abc".toList 0 (some 0) = (some 0, 9, some 4) := by
    decide
  have hs : setxattr c "abcd:eA==".toList "abc".toList [121] 0 = (0, "abcd:eQ==".toList) := by
    simp only [setxattr, hl]
    decide
  rw [hs]
  decide

/-- C30, counterexample. `rename_directory("a", "a")`: the listing gives `a/1` and
`a/2`, the copy of `a/1` onto itself succeeds and the copy of `a/2` fails.  The rollback
deletes the destination key `a/1`, which is a listed source key. -/
theorem C30_same_directory_counterexample :
    (rename_directory (Env.allOk 0)
        { copy_object := fun s _ => if s = "a/2" then 7 else 0,
          parallel_copy := fun _ _ => 0, delete_object := fun _ => 0 }
        { RET_KEY_NOT_EXIST := 2, RET_SERVICE_ERROR := 1 }
        (fun _ => (0, ["a/1", "a/2"])) 'x' World.empty "a" "a").map
        (fun r => (r.1, r.2.trace))
      = some (BOSFS_BOS_SERVICE_ERROR,
          [Event.copy_object "a/1" "a/1", Event.copy_object "a/2" "a/2",
            Event.delete_object "a/1"]) ∧
    "a/1" ∈ ["a/1", "a/2"] := by
  decide

/-- C30. The listing succeeds with `items`, and the copy of the item at index `k` (the
`k + 1`-th listed key) is the first to fail with an error other than key-not-exist.
Then `rename_directory` returns `BOSFS_BOS_SERVICE_ERROR`; the calls it makes are the
copies of the first `k + 1` items followed by one `delete_object` for the destination key
of each of the `k` items before the failing one, and nothing else: a key is deleted
exactly when it is one of these destination keys, a listed source key included. -/
theorem C30_rename_directory_rollback (env : Env) (client : BosClient) (codes : SdkCodes)
    (list_objects : String → Int × List String) (last_of_empty : Char) (w : World)
    (src dst : String) (items : List String) (k : Nat)
    (hcodes : codes.RET_SERVICE_ERROR ≠ 0 ∧
      codes.RET_SERVICE_ERROR ≠ codes.RET_KEY_NOT_EXIST)
    (hlist : list_objects (dir_key last_of_empty src) = (0, items))
    (hk : k < items.length)
    (hlen : ∀ it ∈ items.take (k + 1), (dir_key last_of_empty src).length ≤ it.length)
    (hearlier : ∀ it ∈ items.take k,
      client.copy_object it
          (dst_object (dir_key last_of_empty src) (dir_key last_of_empty dst) it) = 0 ∨
      client.copy_object it
          (dst_object (dir_key last_of_empty src) (dir_key last_of_empty dst) it)
        = codes.RET_KEY_NOT_EXIST)
    (hfail : ∀ it, items[k]? = some it →
      client.copy_object it
          (dst_object (dir_key last_of_empty src) (dir_key last_of_empty dst) it) ≠ 0 ∧
      client.copy_object it
          (dst_object (dir_key last_of_empty src) (dir_key last_of_empty dst) it)
        ≠ codes.RET_KEY_NOT_EXIST) :
    ∃ w2, rename_directory env client codes list_objects last_of_empty w src dst
        = some (BOSFS_BOS_SERVICE_ERROR, w2) ∧
      w2.trace = w.trace ++
        (items.take (k + 1)).map (fun it => Event.copy_object it
          (dst_object (dir_key last_of_empty src) (dir_key last_of_empty dst) it)) ++
        (items.take k).map (fun it => Event.delete_object
          (dst_object (dir_key last_of_empty src) (dir_key last_of_empty dst) it)) ∧
      (∀ key, Event.delete_object key ∈ w2.trace.drop w.trace.length ↔
        key ∈ (items.take k).map
          (dst_object (dir_key last_of_empty src) (dir_key last_of_empty dst))) := by
  obtain ⟨item, hitem⟩ : ∃ item, items[k]? = some item :=
    ⟨items[k], List.getElem?_eq_getElem hk⟩
  have hsplit : items = items.take k ++ item :: items.drop (k + 1) := by
    have h1 : items.drop k = item :: items.drop (k + 1) := by
      rw [List.drop_eq_getElem_cons hk]
      have : items[k] = item := by
        rw [List.getElem?_eq_getElem hk] at hitem
        exact Option.some.inj hitem
      rw [this]
    rw [← h1, List.take_append_drop]
  have htake : items.take (k + 1) = items.take k ++ [item] := by
    rw [List.take_succ, hitem]
    rfl
  have hmem : ∀ it ∈ items.take k, it ∈ items.take (k + 1) := by
    intro it hit
    rw [htake]
    exact List.mem_append_left _ hit
  obtain ⟨t, ht⟩ := copyLoop_fail client codes (dir_key last_of_empty src)
    (dir_key last_of_empty dst) item (items.drop (k + 1))
    (hlen item (by rw [htake]; simp)) (hfail item hitem) (items.take k) [] w
    (fun it hit => ⟨hlen it (hmem it hit), hearlier it hit⟩)
  rw [← hsplit] at ht
  have hne : ((items.take k).map (dst_object (dir_key last_of_empty src)
      (dir_key last_of_empty dst))).length ≠ items.length := by
    rw [List.length_map, List.length_take]
    omega
  have hrun : rename_directory env client codes list_objects last_of_empty w src dst
      = some (BOSFS_BOS_SERVICE_ERROR,
          deleteLoop ((items.take k).map (dst_object (dir_key last_of_empty src)
              (dir_key last_of_empty dst)))
            { trace := w.trace ++ (items.take k ++ [item]).map (fun it =>
                Event.copy_object it (dst_object (dir_key last_of_empty src)
                  (dir_key last_of_empty dst) it)),
              table := t }) := by
    unfold rename_directory
    simp only [hlist, ne_eq, not_true_eq_false, if_false, ht, List.nil_append]
    rw [if_pos hne]
    simp only []
    rw [if_pos hcodes]
  refine ⟨_, hrun, ?_, ?_⟩
  · rw [deleteLoop_trace, htake, List.map_map]
    rfl
  · intro key
    rw [deleteLoop_trace]
    dsimp only
    rw [List.append_assoc, List.drop_left, List.mem_append]
    constructor
    · rintro (h | h)
      · obtain ⟨x, _, hx⟩ := List.mem_map.1 h
        cases hx
      · obtain ⟨x, hx, heq⟩ := List.mem_map.1 h
        rw [← Event.delete_object.inj heq]
        exact hx
    · intro h
      exact Or.inr (List.mem_map.2 ⟨key, h, rfl⟩)

theorem C30_rename_directory_rollback_witness :
    (rename_directory (Env.allOk 0)
        { copy_object := fun s _ => if s = "a/2" then 7 else 0,
          parallel_copy := fun _ _ => 0, delete_object := fun _ => 0 }
        { RET_KEY_NOT_EXIST := 2, RET_SERVICE_ERROR := 1 }
        (fun _ => (0, ["a/1", "a/2", "a/3"])) 'x' World.empty "a" "b").map
        (fun r => (r.1, r.2.trace))
      = some (BOSFS_BOS_SERVICE_ERROR,
          [Event.copy_object "a/1" "b/1", Event.copy_object "a/2" "b/2",
            Event.delete_object "b/1"]) := by
  obtain ⟨w2, h1, h2, _⟩ := C30_rename_directory_rollback (Env.allOk 0)
    { copy_object := fun s _ => if s = "a/2" then 7 else 0,
      parallel_copy := fun _ _ => 0, delete_object := fun _ => 0 }
    { RET_KEY_NOT_EXIST := 2, RET_SERVICE_ERROR := 1 }
    (fun _ => (0, ["a/1", "a/2", "a/3"])) 'x' World.empty "a" "b" ["a/1", "a/2", "a/3"] 1
    (by decide) rfl (by decide) (by decide) (by decide) (by decide)
  rw [h1]
  show some (BOSFS_BOS_SERVICE_ERROR, w2.trace) = _
  rw [h2]
  decide

/-- Claim C21. A `File` is constructed at second `t` and hit at the seconds `ts`, the
times not decreasing.  Afterwards bit `i` of the history is set exactly when one of
the times `tj` has `tj mod 64 = i` and lies less than 64 seconds before the last one,
and `hit_count()` is the number of distinct such times. -/
theorem C21_hit_bitmap (name : String) (t : Nat) (ts : List Nat)
    (hs : (t :: ts).Pairwise (fun a b => a ≤ b)) :
    (∀ i, ((ts.map (fun (x : Nat) => (x : Int))).foldl File.hit
        (File.construct name (t : Int))).hit_bit.testBit i = true ↔
      ∃ tj ∈ t :: ts, tj % 64 = i ∧ ts.getLastD t < tj + 64) ∧
    ((ts.map (fun (x : Nat) => (x : Int))).foldl File.hit (File.construct name (t : Int))).hit_count
      = ((t :: ts).filter (fun tj => decide (ts.getLastD t < tj + 64))).toFinset.card := by
  obtain ⟨_, hB, hle, hbits⟩ := File.hits_inv ts (File.construct name (t : Int)) [t] t
    (File.construct_inv name t) hs
  rw [List.singleton_append] at hle hbits
  refine ⟨hbits, ?_⟩
  rw [File.hit_count_eq _ hB]
  unfold bitCount
  rw [← List.toFinset_card_of_nodup ((List.nodup_range 64).filter _)]
  have himg : ((List.range 64).filter (fun i =>
      ((ts.map (fun (x : Nat) => (x : Int))).foldl File.hit
        (File.construct name (t : Int))).hit_bit.testBit i)).toFinset
      = Finset.image (fun tj => tj % 64)
          ((t :: ts).filter (fun tj => decide (ts.getLastD t < tj + 64))).toFinset := by
    ext i
    simp only [List.mem_toFinset, List.mem_filter, List.mem_range, Finset.mem_image,
      decide_eq_true_eq]
    constructor
    · rintro ⟨_, h⟩
      obtain ⟨tj, h1, h2, h3⟩ := (hbits i).1 h
      exact ⟨tj, ⟨h1, h3⟩, h2⟩
    · rintro ⟨tj, ⟨h1, h3⟩, h2⟩
      exact ⟨by omega, (hbits i).2 ⟨tj, h1, h2, h3⟩⟩
  rw [himg]
  apply Finset.card_image_of_injOn
  intro a ha b hb hab
  simp only [Finset.coe_sort_coe, List.coe_toFinset, List.mem_filter, decide_eq_true_eq,
    Set.mem_setOf_eq] at ha hb
  have h1 := hle a ha.1
  have h2 := hle b hb.1
  simp only at hab
  omega

theorem C21_hit_bitmap_witness :
    (List.Pairwise (fun a b => a ≤ b) [100, 100, 130, 170]) ∧
    ((([100, 130, 170] : List Nat).map (fun (x : Nat) => (x : Int))).foldl File.hit
        (File.construct "/f" ((100 : Nat) : Int))).hit_count = 2 := by
  refine ⟨by decide, ?_⟩
  rw [(C21_hit_bitmap "/f" 100 [100, 130, 170] (by decide)).2]
  decide

end Bosfs
